import Mathlib

/-!
Verification of the DocuFluent document-translation pipeline.

Shallow embedding of the core of the repository:

* `src/translation_sdk/document.py` — `DocumentProcessor.apply_translations`,
  `DocumentProcessor._copy_run_format`, and the part of Python's
  `difflib.SequenceMatcher` they rely on;
* `src/docu_fluent/workflow.py` — `TranslationWorkflow` (`_parse_evaluation`,
  `_is_simple_segment`, the placeholder sanitization of `_translate_task`,
  and the five-stage `run` pipeline);
* `src/translation_sdk/workflow.py` — its narrower `_is_simple_segment`.

Modelling conventions:

* Python strings are Lean `String` / `List Char`; a couple of Latin-1 and
  punctuation characters are written through their code points to keep the
  source character sets explicit.
* Python `float` arithmetic on evaluation scores and on progress fractions is
  modelled exactly over `ℚ` (the actual values are small and exact).
* The external language-model clients are oracle functions supplied in the
  workflow configuration; `Option.none` models a `generate` call that raised
  after the retry decorator exhausted its attempts.  A worker-pool stage is
  modelled by its submission pass followed by a collection pass; completion
  order only influences log interleavings that no claim observes, so the
  collection pass runs in submission order.
* The two debug-only prompt/raw-response string fields of `WorkflowResult`
  and the token-usage accounting are not modelled; no claim mentions them.
-/

namespace DocuFluent

/-- Python's whitespace test (`str.strip`, `str.isspace`, regex `\s`):
ASCII whitespace, the C0 separators 0x1c–0x1f, NEL, NBSP and the Unicode
space separators. -/
def pyIsSpace (c : Char) : Bool :=
  [0x9, 0xa, 0xb, 0xc, 0xd, 0x20, 0x1c, 0x1d, 0x1e, 0x1f, 0x85, 0xa0,
   0x1680, 0x2000, 0x2001, 0x2002, 0x2003, 0x2004, 0x2005, 0x2006, 0x2007,
   0x2008, 0x2009, 0x200a, 0x2028, 0x2029, 0x202f, 0x205f, 0x3000].contains c.toNat

/-- Start point and length of each run of consecutive Unicode `Nd`
(decimal digit) code points; Python's `\d` and `int()` accept exactly these.
Each run covers the digits 0–9 in order (`0x1D7CE` starts five consecutive
runs of mathematical digits, i.e. fifty code points). -/
def ndRanges : List (Nat × Nat) :=
  [(0x30, 10), (0x660, 10), (0x6F0, 10), (0x7C0, 10), (0x966, 10), (0x9E6, 10),
   (0xA66, 10), (0xAE6, 10), (0xB66, 10), (0xBE6, 10), (0xC66, 10), (0xCE6, 10),
   (0xD66, 10), (0xDE6, 10), (0xE50, 10), (0xED0, 10), (0xF20, 10), (0x1040, 10),
   (0x1090, 10), (0x17E0, 10), (0x1810, 10), (0x1946, 10), (0x19D0, 10),
   (0x1A80, 10), (0x1A90, 10), (0x1B50, 10), (0x1BB0, 10), (0x1C40, 10),
   (0x1C50, 10), (0xA620, 10), (0xA8D0, 10), (0xA900, 10), (0xA9D0, 10),
   (0xA9F0, 10), (0xAA50, 10), (0xABF0, 10), (0xFF10, 10), (0x104A0, 10),
   (0x10D30, 10), (0x11066, 10), (0x110F0, 10), (0x11136, 10), (0x111D0, 10),
   (0x112F0, 10), (0x11450, 10), (0x114D0, 10), (0x11650, 10), (0x116C0, 10),
   (0x11730, 10), (0x118E0, 10), (0x11950, 10), (0x11C50, 10), (0x11D50, 10),
   (0x11DA0, 10), (0x16A60, 10), (0x16B50, 10), (0x1D7CE, 50), (0x1E140, 10),
   (0x1E2F0, 10), (0x1E950, 10), (0x1FBF0, 10)]

/-- Python's `\d` on `str`: any Unicode decimal digit. -/
def pyIsDigit (c : Char) : Bool :=
  ndRanges.any (fun r => decide (r.1 ≤ c.toNat) && decide (c.toNat < r.1 + r.2))

/-- Decimal value of a Unicode digit (`int()` accepts digits in any script). -/
def digitVal (c : Char) : Option Nat :=
  ndRanges.findSome? (fun r =>
    if r.1 ≤ c.toNat ∧ c.toNat < r.1 + r.2 then some ((c.toNat - r.1) % 10) else none)

/-- Python `str.strip()` on a character list. -/
def pyStripList (l : List Char) : List Char :=
  ((l.dropWhile pyIsSpace).reverse.dropWhile pyIsSpace).reverse

/-- Python `str.strip()`. -/
def pyStrip (s : String) : String := ⟨pyStripList s.data⟩

/-- Python's `sub in s` substring test, over character lists. -/
def listContainsSub (sub : List Char) : List Char → Bool
  | [] => sub.isPrefixOf ([] : List Char)
  | c :: rest => sub.isPrefixOf (c :: rest) || listContainsSub sub rest

/-- Python's `sub in s` substring test. -/
def pyIn (sub s : String) : Bool := listContainsSub sub.data s.data

/-- Python `s.split(sep)` for a non-empty separator, over character lists:
cut at each left-to-right non-overlapping occurrence.  The fuel argument is
only a termination device: every step consumes at least one character, so
fuel equal to the input length never runs out. -/
def splitSubAux (sep : List Char) : Nat → List Char → List Char → List (List Char)
  | _, acc, [] => [acc]
  | 0, acc, l => [acc ++ l]
  | fuel + 1, acc, c :: rest =>
    if sep.isPrefixOf (c :: rest) then
      acc :: splitSubAux sep fuel [] (rest.drop (sep.length - 1))
    else splitSubAux sep fuel (acc ++ [c]) rest

/-- Python `s.split(sep)`. -/
def pySplit (s sep : String) : List String :=
  (splitSubAux sep.data s.data.length [] s.data).map (fun l => ⟨l⟩)

/-- The left brace character (written as text in the Python sources). -/
def lbrace : Char := Char.ofNat 0x7b

/-- The right brace character. -/
def rbrace : Char := Char.ofNat 0x7d

/-- The fixed placeholder prelude `{{MATH_` as a character list. -/
def mathTokOpen : List Char := [lbrace, lbrace, 'M', 'A', 'T', 'H', '_']

/-- The placeholder token `{{MATH_<ds>}}` built from a digit string, as
produced by `DocumentProcessor._extract_text_and_math`. -/
def mathTokStr (ds : List Char) : String := ⟨mathTokOpen ++ ds ++ [rbrace, rbrace]⟩

/-- One attempt of the regex `\{\{MATH_(\d+)\}\}` at the head of `l`
(as scanned by `re.sub` / `re.split` / `re.match`).  `\d+` is effectively
maximal-munch here because a digit can never begin the following `}}`.
Returns the digit group; the full match consumes `9 + ds.length` characters. -/
def matchTokDigits (l : List Char) : Option (List Char) :=
  if mathTokOpen.isPrefixOf l then
    let ds := (l.drop 7).takeWhile pyIsDigit
    if ds.isEmpty then none
    else if [rbrace, rbrace].isPrefixOf ((l.drop 7).drop ds.length) then some ds
    else none
  else none

/-- `re.match(r'^\{\{MATH_\d+\}\}$', t)` on an already-stripped string:
the entire string is one placeholder token (a stripped string cannot end in
the newline that `$` would otherwise tolerate). -/
def isPlaceholderOnly (l : List Char) : Bool :=
  match matchTokDigits l with
  | some ds => (l.drop (9 + ds.length)).isEmpty
  | none => false

/-- Code points of the literal characters in the character class of
`TranslationWorkflow._is_simple_segment` (`src/docu_fluent/workflow.py`,
line 137): `. , % - + = / ( ) [ ] « » " ' ! ? ; : ¿ ¡ * & # @ ^ _ ~ `
backtick ``` | \ < >` (the class also contains `\d` and `\s`, handled
separately). -/
def simplePunctCodes : List Nat :=
  [0x2e, 0x2c, 0x25, 0x2d, 0x2b, 0x3d, 0x2f, 0x28, 0x29, 0x5b, 0x5d,
   0xab, 0xbb, 0x22, 0x27, 0x21, 0x3f, 0x3b, 0x3a, 0xbf, 0xa1,
   0x2a, 0x26, 0x23, 0x40, 0x5e, 0x5f, 0x7e, 0x60, 0x7c, 0x5c, 0x3c, 0x3e]

/-- Membership in the character class of the `docu_fluent` simplicity
regex: a Unicode decimal digit, whitespace, or one of the fixed literal
punctuation characters. -/
def simpleChar (c : Char) : Bool :=
  pyIsDigit c || pyIsSpace c || simplePunctCodes.contains c.toNat

/-- `TranslationWorkflow._is_simple_segment`
(`src/docu_fluent/workflow.py` lines 129–138). -/
def isSimpleSegment (text : String) : Bool :=
  let t := pyStripList text.data
  if t.isEmpty then true
  else if isPlaceholderOnly t then true
  else t.all simpleChar

/-- Code points of the literal characters in the narrower character class of
`translation_sdk/workflow.py` lines 127–135: `. , % - + = / ( ) [ ]`. -/
def sdkSimplePunctCodes : List Nat :=
  [0x2e, 0x2c, 0x25, 0x2d, 0x2b, 0x3d, 0x2f, 0x28, 0x29, 0x5b, 0x5d]

/-- `TranslationWorkflow._is_simple_segment` of `src/translation_sdk/workflow.py`
(lines 127–135). -/
def sdkIsSimpleSegment (text : String) : Bool :=
  let t := pyStripList text.data
  if t.isEmpty then true
  else if isPlaceholderOnly t then true
  else t.all (fun c => pyIsDigit c || pyIsSpace c || sdkSimplePunctCodes.contains c.toNat)

/-- Post-processing at the end of `TranslationWorkflow._translate_task`
(`src/docu_fluent/workflow.py` line 520, identical in
`src/translation_sdk/workflow.py` line 464):

`re.sub(r'\{\{MATH_(\d+)\}\}', lambda m: m.group(0) if m.group(0) in segment.math_elements else m.group(1), text)`

a left-to-right non-overlapping scan that keeps placeholder tokens that are
keys of the segment's `math_elements` and replaces the others by their bare
digit group.  Fuel is a termination device only (every step consumes at
least one character). -/
def subMathAux (keys : List String) : Nat → List Char → List Char
  | _, [] => []
  | 0, l => l
  | fuel + 1, c :: rest =>
    match matchTokDigits (c :: rest) with
    | some ds =>
      (if keys.contains (mathTokStr ds) then (mathTokStr ds).data else ds)
        ++ subMathAux keys fuel ((c :: rest).drop (9 + ds.length))
    | none => c :: subMathAux keys fuel rest

/-- The placeholder-sanitizing `re.sub` of `_translate_task`. -/
def pySubMath (keys : List String) (s : String) : String :=
  ⟨subMathAux keys s.data.length s.data⟩

/-- `re.split(r'(\{\{MATH_\d+\}\})', text)` as used in `apply_translations`:
the parts between matches (including empty ones) interleaved with the
matched tokens themselves (the pattern is one capturing group, so matches
are kept).  Fuel as above. -/
def splitMathAux : Nat → List Char → List Char → List (List Char)
  | _, acc, [] => [acc]
  | 0, acc, l => [acc ++ l]
  | fuel + 1, acc, c :: rest =>
    match matchTokDigits (c :: rest) with
    | some ds =>
      acc :: (mathTokStr ds).data ::
        splitMathAux fuel [] ((c :: rest).drop (9 + ds.length))
    | none => splitMathAux fuel (acc ++ [c]) rest

/-- `re.split(r'(\{\{MATH_\d+\}\})', text)`. -/
def pySplitMath (l : List Char) : List (List Char) := splitMathAux l.length [] l

/-! ### JSON values and `json.loads`

`_parse_evaluation` and the comparative-evaluation parser feed the
fence-stripped model output to `json.loads`.  JSON numbers with a fraction
or exponent decode to Python floats; they are modelled exactly as the
decimal `mant * 10 ^ exp10` of the literal (`jnum`; the rounding of the
decimal literal to the nearest double is abstracted away — no claim
depends on a float's value), and the literals `NaN`/`Infinity`/`-Infinity`
(accepted by Python's decoder) are modelled separately since `int()`
rejects them. -/

inductive JVal where
  | jnull
  | jbool (b : Bool)
  | jint (n : Int)
  | jnum (mant : Int) (exp10 : Int)
  | jnan
  | jinf (neg : Bool)
  | jstr (s : String)
  | jarr (xs : List JVal)
  | jobj (kvs : List (String × JVal))

/-- JSON inter-token whitespace (`json.decoder`: space, tab, newline, CR). -/
def jsonWs (c : Char) : Bool := [0x20, 0x9, 0xa, 0xd].contains c.toNat

def skipWs (l : List Char) : List Char := l.dropWhile jsonWs

def isAsciiDigit (c : Char) : Bool := decide ('0' ≤ c) && decide (c ≤ '9')

def asciiDigitsVal (ds : List Char) : Nat :=
  ds.foldl (fun acc c => acc * 10 + (c.toNat - 0x30)) 0

def hexDigitVal (c : Char) : Option Nat :=
  if isAsciiDigit c then some (c.toNat - 0x30)
  else if decide ('a' ≤ c) && decide (c ≤ 'f') then some (c.toNat - 0x61 + 10)
  else if decide ('A' ≤ c) && decide (c ≤ 'F') then some (c.toNat - 0x41 + 10)
  else none

/-- Four hex digits of a `\uXXXX` escape. -/
def parseHex4 : List Char → Option (Nat × List Char)
  | c1 :: c2 :: c3 :: c4 :: rest => do
    let d1 ← hexDigitVal c1
    let d2 ← hexDigitVal c2
    let d3 ← hexDigitVal c3
    let d4 ← hexDigitVal c4
    pure (((d1 * 16 + d2) * 16 + d3) * 16 + d4, rest)
  | _ => none

/-- Scalar value for a decoded code point.  Python strings may hold lone
surrogates; Lean `Char` cannot, so those are mapped to U+FFFD (no claim
touches them). -/
def mkScalar (n : Nat) : Char :=
  if n.isValidChar then Char.ofNat n else Char.ofNat 0xfffd

/-- Body of a JSON string after the opening quote, strict mode: unescaped
control characters are rejected; recognised escapes are
`\" \\ \/ \b \f \n \r \t \uXXXX`, with surrogate-pair combination. -/
def parseJStr : Nat → List Char → Option (List Char × List Char)
  | 0, _ => none
  | _ + 1, [] => none
  | fuel + 1, c :: rest =>
    if c = '"' then some ([], rest)
    else if c = '\\' then
      match rest with
      | [] => none
      | e :: rest2 =>
        if e = '"' then (parseJStr fuel rest2).map (fun p => ('"' :: p.1, p.2))
        else if e = '\\' then (parseJStr fuel rest2).map (fun p => ('\\' :: p.1, p.2))
        else if e = '/' then (parseJStr fuel rest2).map (fun p => ('/' :: p.1, p.2))
        else if e = 'b' then (parseJStr fuel rest2).map (fun p => (Char.ofNat 0x8 :: p.1, p.2))
        else if e = 'f' then (parseJStr fuel rest2).map (fun p => (Char.ofNat 0xc :: p.1, p.2))
        else if e = 'n' then (parseJStr fuel rest2).map (fun p => ('\n' :: p.1, p.2))
        else if e = 'r' then (parseJStr fuel rest2).map (fun p => (Char.ofNat 0xd :: p.1, p.2))
        else if e = 't' then (parseJStr fuel rest2).map (fun p => ('\t' :: p.1, p.2))
        else if e = 'u' then
          match parseHex4 rest2 with
          | none => none
          | some (v, rest3) =>
            if 0xd800 ≤ v ∧ v ≤ 0xdbff then
              match rest3 with
              | c2 :: e2 :: rest4 =>
                if c2 = '\\' ∧ e2 = 'u' then
                  match parseHex4 rest4 with
                  | some (w, rest5) =>
                    if 0xdc00 ≤ w ∧ w ≤ 0xdfff then
                      (parseJStr fuel rest5).map (fun p =>
                        (mkScalar (0x10000 + (v - 0xd800) * 0x400 + (w - 0xdc00)) :: p.1, p.2))
                    else (parseJStr fuel rest3).map (fun p => (mkScalar v :: p.1, p.2))
                  | none => (parseJStr fuel rest3).map (fun p => (mkScalar v :: p.1, p.2))
                else (parseJStr fuel rest3).map (fun p => (mkScalar v :: p.1, p.2))
              | _ => (parseJStr fuel rest3).map (fun p => (mkScalar v :: p.1, p.2))
            else (parseJStr fuel rest3).map (fun p => (mkScalar v :: p.1, p.2))
        else none
    else if c.toNat < 0x20 then none
    else (parseJStr fuel rest).map (fun p => (c :: p.1, p.2))

/-- JSON number grammar `-?(0|[1-9][0-9]*)(\.[0-9]+)?([eE][+-]?[0-9]+)?`.
Integer literals decode to Python `int` (`jint`); a fraction or exponent
makes a Python `float`, modelled as the exact decimal value. -/
def parseJNum (l : List Char) : Option (JVal × List Char) :=
  let (neg, l1) := match l with
    | c :: rest => if c = '-' then (true, rest) else (false, l)
    | [] => (false, l)
  match l1 with
  | c :: _ =>
    if isAsciiDigit c then
      let ip := l1.takeWhile isAsciiDigit
      let l2 := l1.drop ip.length
      if ip.length > 1 ∧ ip.headD '0' = '0' then none
      else
        let intPart : Nat := asciiDigitsVal ip
        let (fracDigits, l3) := match l2 with
          | d :: rest2 =>
            if d = '.' then
              let fd := rest2.takeWhile isAsciiDigit
              if fd.isEmpty then ([], l2) else (fd, rest2.drop fd.length)
            else ([], l2)
          | [] => ([], l2)
        let fracOk : Bool := match l2 with
          | d :: _ => if d = '.' then !fracDigits.isEmpty else true
          | [] => true
        if !fracOk then none
        else
          let (expOk, hasExp, expNeg, expDigits, l4) : Bool × Bool × Bool × List Char × List Char :=
            match l3 with
            | e :: rest3 =>
              if e = 'e' ∨ e = 'E' then
                let (en, rest4) := match rest3 with
                  | s :: rest5 =>
                    if s = '-' then (true, rest5)
                    else if s = '+' then (false, rest5)
                    else (false, rest3)
                  | [] => (false, rest3)
                let ed := rest4.takeWhile isAsciiDigit
                if ed.isEmpty then (false, true, en, [], rest4)
                else (true, true, en, ed, rest4.drop ed.length)
              else (true, false, false, [], l3)
            | [] => (true, false, false, [], l3)
          if !expOk then none
          else if !hasExp ∧ fracDigits.isEmpty then
            some (.jint (if neg then -(intPart : Int) else (intPart : Int)), l3)
          else
            let mantAbs : Int :=
              (intPart : Int) * 10 ^ fracDigits.length + (asciiDigitsVal fracDigits : Int)
            let expVal : Int :=
              if expNeg then -(asciiDigitsVal expDigits : Int) else (asciiDigitsVal expDigits : Int)
            some (.jnum (if neg then -mantAbs else mantAbs) (expVal - fracDigits.length), l4)
    else none
  | [] => none

mutual

/-- One JSON value (strict `json.loads` grammar plus the Python extensions
`NaN`, `Infinity`, `-Infinity`).  Fuel is a termination device; nesting
depth is bounded by the input length, so the generous fuel used by
`jsonLoads` never runs out. -/
def parseJVal : Nat → List Char → Option (JVal × List Char)
  | 0, _ => none
  | fuel + 1, l =>
    match l with
    | [] => none
    | c :: rest =>
      if c = '"' then (parseJStr fuel rest).map (fun p => (.jstr ⟨p.1⟩, p.2))
      else if c = lbrace then
        let l2 := skipWs rest
        match l2 with
        | d :: rest2 =>
          if d = rbrace then some (.jobj [], rest2)
          else parseJObjItems fuel [] l2
        | [] => none
      else if c = '[' then
        let l2 := skipWs rest
        match l2 with
        | d :: rest2 =>
          if d = ']' then some (.jarr [], rest2)
          else parseJArrItems fuel [] l2
        | [] => none
      else if ['t', 'r', 'u', 'e'].isPrefixOf l then some (.jbool true, l.drop 4)
      else if ['f', 'a', 'l', 's', 'e'].isPrefixOf l then some (.jbool false, l.drop 5)
      else if ['n', 'u', 'l', 'l'].isPrefixOf l then some (.jnull, l.drop 4)
      else if ['N', 'a', 'N'].isPrefixOf l then some (.jnan, l.drop 3)
      else if ['I', 'n', 'f', 'i', 'n', 'i', 't', 'y'].isPrefixOf l then some (.jinf false, l.drop 8)
      else if ['-', 'I', 'n', 'f', 'i', 'n', 'i', 't', 'y'].isPrefixOf l then some (.jinf true, l.drop 9)
      else parseJNum l

/-- Array items after `[` (at least one), comma separated. -/
def parseJArrItems : Nat → List JVal → List Char → Option (JVal × List Char)
  | 0, _, _ => none
  | fuel + 1, acc, l =>
    match parseJVal fuel l with
    | none => none
    | some (v, rest) =>
      match skipWs rest with
      | c :: rest2 =>
        if c = ',' then parseJArrItems fuel (acc ++ [v]) (skipWs rest2)
        else if c = ']' then some (.jarr (acc ++ [v]), rest2)
        else none
      | [] => none

/-- Object items after `{` (at least one), comma separated; duplicate keys
behave like repeated Python `dict` assignment (the lookup takes the last). -/
def parseJObjItems : Nat → List (String × JVal) → List Char → Option (JVal × List Char)
  | 0, _, _ => none
  | fuel + 1, acc, l =>
    match l with
    | c :: rest =>
      if c = '"' then
        match parseJStr fuel rest with
        | none => none
        | some (k, rest2) =>
          match skipWs rest2 with
          | d :: rest3 =>
            if d = ':' then
              match parseJVal fuel (skipWs rest3) with
              | none => none
              | some (v, rest4) =>
                match skipWs rest4 with
                | e :: rest5 =>
                  if e = ',' then
                    match skipWs rest5 with
                    | f :: _ =>
                      if f = '"' then parseJObjItems fuel (acc ++ [(⟨k⟩, v)]) (skipWs rest5)
                      else none
                    | [] => none
                  else if e = rbrace then some (.jobj (acc ++ [(⟨k⟩, v)]), rest5)
                  else none
                | [] => none
            else none
          | [] => none
      else none
    | [] => none

end

/-- `json.loads` on a whole string: one value, surrounded only by
whitespace. -/
def jsonLoads (s : String) : Option JVal :=
  match parseJVal (2 * s.data.length + 4) (skipWs s.data) with
  | some (v, rest) => if (skipWs rest).isEmpty then some v else none
  | none => none

/-- Digit run of a Python integer literal inside `int(str)`: Unicode digits
with single underscores allowed between digits. -/
def pyIntDigitsAux : Nat → List Char → Option (Nat × List Char)
  | acc, [] => some (acc, [])
  | acc, c :: rest =>
    match digitVal c with
    | some d => pyIntDigitsAux (acc * 10 + d) rest
    | none =>
      if c = '_' then
        match rest with
        | d2 :: rest2 =>
          match digitVal d2 with
          | some dv => pyIntDigitsAux (acc * 10 + dv) rest2
          | none => none
        | [] => none
      else some (acc, c :: rest)

/-- Python `int(s)` for a string: optional surrounding whitespace, optional
sign, then Unicode digits (with single interior underscores); anything else
raises (`none`). -/
def pyIntOfString (s : String) : Option Int :=
  let l := pyStripList s.data
  let signAndRest : Int × List Char := match l with
    | c :: rest =>
      if c = '-' then (-1, rest) else if c = '+' then (1, rest) else (1, l)
    | [] => (1, l)
  match signAndRest.2 with
  | c :: rest =>
    match digitVal c with
    | some d =>
      match pyIntDigitsAux d rest with
      | some (v, []) => some (signAndRest.1 * v)
      | _ => none
    | none => none
  | [] => none

/-- Truncation toward zero of `mant * 10 ^ exp10`, as Python `int(float)`. -/
def pyTrunc (mant exp10 : Int) : Int :=
  if 0 ≤ exp10 then mant * 10 ^ exp10.toNat else mant.tdiv (10 ^ (-exp10).toNat)

/-- Python `int(x)` applied to a `json.loads` result: ints pass through,
floats truncate toward zero (`nan`/`inf` raise `OverflowError`/`ValueError`),
booleans become 0/1, strings are parsed, and `None`/lists/dicts raise
(`none`). -/
def pyInt : JVal → Option Int
  | .jint n => some n
  | .jnum mant exp10 => some (pyTrunc mant exp10)
  | .jbool b => some (if b then 1 else 0)
  | .jstr s => pyIntOfString s
  | .jnan => none
  | .jinf _ => none
  | .jnull => none
  | .jarr _ => none
  | .jobj _ => none

/-- Python `dict.get`: with duplicate keys in a decoded object the later
assignment wins, hence the reversed search. -/
def jget (kvs : List (String × JVal)) (k : String) : Option JVal :=
  (kvs.reverse.find? (fun p => p.1 == k)).map Prod.snd

/-- Value stored in the (string-typed) `suggestions` field.  Python stores
whatever object `data.get("suggestions", "")` returns; every claim only
exercises the case of a JSON string (stored as-is) or the parse-failure
fallback.  Non-string scalars are rendered as Python `str()` would render
them; containers and floats never occur in any claim and get a canonical
rendering. -/
def jvalSuggestion : JVal → String
  | .jstr s => s
  | .jnull => "None"
  | .jbool b => if b then "True" else "False"
  | .jint n => toString n
  | .jnum mant exp10 => toString mant ++ "e" ++ toString exp10
  | .jnan => "nan"
  | .jinf neg => if neg then "-inf" else "inf"
  | .jarr _ => "<list>"
  | .jobj _ => "<dict>"

/-- `EvaluationResult` (docu_fluent/workflow.py 15–26): five integer
dimension scores plus free-text suggestions. -/
structure EvaluationResult where
  accuracy : Int
  fluency : Int
  consistency : Int
  terminology : Int
  completeness : Int
  suggestions : String
deriving DecidableEq

/-- `EvaluationResult.total_score`: the arithmetic mean of the five
dimensions (Python float division, exact here). -/
def EvaluationResult.total_score (e : EvaluationResult) : ℚ :=
  ((e.accuracy + e.fluency + e.consistency + e.terminology + e.completeness : Int) : ℚ) / 5

def fenceJson : String := "```json"

def fenceMd : String := "```markdownjson"

def fence : String := "```"

/-- The code-fence stripping at the top of `_parse_evaluation` (workflow.py
87–92) and of the comparative parser (455–461): the text between the first
fence marker and the next ` ``` `, stripped.  Note that the `elif` chain
rebinds `text`, so a later parse failure reports this stripped text, not the
raw response. -/
def stripFences (text : String) : String :=
  if pyIn fenceJson text then
    pyStrip ((pySplit ((pySplit text fenceJson).getD 1 "") fence).getD 0 "")
  else if pyIn fenceMd text then
    pyStrip ((pySplit ((pySplit text fenceMd).getD 1 "") fence).getD 0 "")
  else if pyIn fence text then
    pyStrip ((pySplit ((pySplit text fence).getD 1 "") fence).getD 0 "")
  else text

/-- All-zero fallback result of `_parse_evaluation` with the text at the
point of failure as suggestions. -/
def zeroEval (t : String) : EvaluationResult := ⟨0, 0, 0, 0, 0, t⟩

/-- `TranslationWorkflow._parse_evaluation` (docu_fluent/workflow.py
79–105): strip an optional code fence, `json.loads`, coerce the five score
fields with `int(data.get(k, 0))`; any failure (non-JSON, non-object,
non-coercible field) degrades to the all-zero result carrying the
fence-stripped text. -/
def parse_evaluation (text : String) : EvaluationResult :=
  let t := stripFences text
  match jsonLoads t with
  | some (.jobj kvs) =>
    match pyInt ((jget kvs "accuracy").getD (.jint 0)),
        pyInt ((jget kvs "fluency").getD (.jint 0)),
        pyInt ((jget kvs "consistency").getD (.jint 0)),
        pyInt ((jget kvs "terminology").getD (.jint 0)),
        pyInt ((jget kvs "completeness").getD (.jint 0)) with
    | some a, some f, some c2, some tm, some cp =>
      ⟨a, f, c2, tm, cp, jvalSuggestion ((jget kvs "suggestions").getD (.jstr ""))⟩
    | _, _, _, _, _ => zeroEval t
  | _ => zeroEval t

/-- `parse_one` inside `_evaluate_comparative_task` (workflow.py 465–473)
applied to `data.get("model_a", {})` / `data.get("model_c", {})`; `none`
when the Python code would raise inside the surrounding `try`. -/
def parseOneModel (v : Option JVal) : Option EvaluationResult :=
  match v.getD (.jobj []) with
  | .jobj kvs =>
    match pyInt ((jget kvs "accuracy").getD (.jint 0)),
        pyInt ((jget kvs "fluency").getD (.jint 0)),
        pyInt ((jget kvs "consistency").getD (.jint 0)),
        pyInt ((jget kvs "terminology").getD (.jint 0)),
        pyInt ((jget kvs "completeness").getD (.jint 0)) with
    | some a, some f, some c2, some tm, some cp =>
      some ⟨a, f, c2, tm, cp, jvalSuggestion ((jget kvs "suggestions").getD (.jstr ""))⟩
    | _, _, _, _, _ => none
  | _ => none

/-- The combined parser of `_evaluate_comparative_task` (workflow.py
453–482): on any failure both results degrade to all-zero `"Failed"`. -/
def parse_comparative (text : String) : EvaluationResult × EvaluationResult :=
  let t := stripFences text
  match jsonLoads t with
  | some (.jobj kvs) =>
    match parseOneModel (jget kvs "model_a"), parseOneModel (jget kvs "model_c") with
    | some ea, some ec => (ea, ec)
    | _, _ => (⟨0, 0, 0, 0, 0, "Failed"⟩, ⟨0, 0, 0, 0, 0, "Failed"⟩)
  | _ => (⟨0, 0, 0, 0, 0, "Failed"⟩, ⟨0, 0, 0, 0, 0, "Failed"⟩)

/-! ### Document model and `apply_translations`

A paragraph is the ordered list of its element children that matter here:
text runs (text plus character formatting) and opaque embedded math
elements (identified by a handle; `deepcopy` of such an element is
modelled as another child with the same handle).  A document is its list
of paragraphs; a `TranslationSegment.obj_ref` is the index of the
paragraph it was extracted from. -/

inductive RunColor where
  | rgb (v : Nat)
  | theme
deriving DecidableEq

/-- The run formatting attributes copied by
`DocumentProcessor._copy_run_format`; `none` models a python-docx attribute
that is `None` (inherited). -/
structure RunFormat where
  name : Option String := none
  size : Option Nat := none
  bold : Option Bool := none
  italic : Option Bool := none
  underline : Option Bool := none
  strike : Option Bool := none
  sub : Option Bool := none
  sup : Option Bool := none
  color : Option RunColor := none
deriving DecidableEq

/-- The default formatting of a run freshly created by `para.add_run`. -/
def defaultFmt : RunFormat := {}

inductive ParaChild where
  | run (text : String) (fmt : RunFormat)
  | math (handle : Nat)
deriving DecidableEq

abbrev Para := List ParaChild

/-- `TranslationSegment` (translation_sdk/document.py 13–23).
`math_elements` maps placeholder tokens to the embedded elements'
handles. -/
structure TranslationSegment where
  id : String
  original_text : String
  obj_ref : Option Nat := none
  math_elements : List (String × Nat) := []
deriving DecidableEq

/-- `DocumentProcessor._copy_run_format` (translation_sdk/document.py
205–231): every attribute explicitly set on the source run is copied onto
the target; a color is copied only when it is an explicit RGB value (theme
colors raise inside the `try` and are dropped). -/
def copy_run_format (source target : RunFormat) : RunFormat :=
  let t := target
  let t := match source.name with | some v => { t with name := some v } | none => t
  let t := match source.size with | some v => { t with size := some v } | none => t
  let t := match source.bold with | some v => { t with bold := some v } | none => t
  let t := match source.italic with | some v => { t with italic := some v } | none => t
  let t := match source.underline with | some v => { t with underline := some v } | none => t
  let t := match source.strike with | some v => { t with strike := some v } | none => t
  let t := match source.sub with | some v => { t with sub := some v } | none => t
  let t := match source.sup with | some v => { t with sup := some v } | none => t
  let t := match source.color with
    | some (.rgb v) => { t with color := some (.rgb v) }
    | some .theme => t
    | none => t
  t

/-! #### `difflib.SequenceMatcher` (CPython, `isjunk=None`)

Only `get_matching_blocks` is used by the reconstruction.  With no junk
predicate the two junk-extension loops of `find_longest_match` never fire;
the `autojunk` heuristic (only active for a second sequence of at least 200
elements) drops popular elements from `b2j`. -/

/-- Indices of `c` in `b` (ascending), with the autojunk rule. -/
def b2j (b : List Char) (c : Char) : List Nat :=
  if b.length ≥ 200 ∧ b.count c > b.length / 100 + 1 then []
  else (List.range b.length).filter (fun j => b.get? j == some c)

/-- Character comparison through partial indexing (both indices in range,
as they always are at the call sites). -/
def charEq (a : List Char) (i : Nat) (b : List Char) (j : Nat) : Bool :=
  match a.get? i, b.get? j with
  | some x, some y => x == y
  | _, _ => false

/-- First-match association lookup for `j2len` (defaulting to 0). -/
def lookupNat (l : List (Nat × Nat)) (k : Nat) : Nat :=
  ((l.find? (fun p => p.1 == k)).map Prod.snd).getD 0

/-- The dynamic-programming core of `find_longest_match`: for each `i` in
`[alo, ahi)` fold over `b2j[a[i]]` restricted to `[blo, bhi)`, maintaining
`j2len` and the best block; ties keep the earliest `(i, j)`, as in
CPython. -/
def flmCore (a b : List Char) (alo ahi blo bhi : Nat) : Nat × Nat × Nat :=
  let step := fun (st : List (Nat × Nat) × Nat × Nat × Nat) (i : Nat) =>
    let j2len := st.1
    let js := ((b2j b (a.getD i (Char.ofNat 0))).filter (fun j => decide (blo ≤ j))).filter
      (fun j => decide (j < bhi))
    let inner := js.foldl (fun (st2 : List (Nat × Nat) × Nat × Nat × Nat) (j : Nat) =>
      let k := (if j = 0 then 0 else lookupNat j2len (j - 1)) + 1
      let newj2len := (j, k) :: st2.1
      if k > st2.2.2.2 then (newj2len, i + 1 - k, j + 1 - k, k) else (newj2len, st2.2))
      ([], st.2)
    (inner.1, inner.2)
  ((List.range' alo (ahi - alo)).foldl step ([], alo, blo, 0)).2

/-- The left extension loop of `find_longest_match` (no junk, so the only
active loop pair).  Fuel `besti` bounds the iterations. -/
def extendLo (a b : List Char) (alo blo : Nat) :
    Nat → Nat → Nat → Nat → Nat × Nat × Nat
  | 0, besti, bestj, bestsize => (besti, bestj, bestsize)
  | fuel + 1, besti, bestj, bestsize =>
    if alo < besti ∧ blo < bestj ∧ charEq a (besti - 1) b (bestj - 1) then
      extendLo a b alo blo fuel (besti - 1) (bestj - 1) (bestsize + 1)
    else (besti, bestj, bestsize)

/-- The right extension loop of `find_longest_match`. -/
def extendHi (a b : List Char) (ahi bhi : Nat) (besti bestj : Nat) :
    Nat → Nat → Nat
  | 0, bestsize => bestsize
  | fuel + 1, bestsize =>
    if besti + bestsize < ahi ∧ bestj + bestsize < bhi ∧
        charEq a (besti + bestsize) b (bestj + bestsize) then
      extendHi a b ahi bhi besti bestj fuel (bestsize + 1)
    else bestsize

/-- `SequenceMatcher.find_longest_match` restricted to `isjunk=None`. -/
def find_longest_match (a b : List Char) (alo ahi blo bhi : Nat) : Nat × Nat × Nat :=
  let core := flmCore a b alo ahi blo bhi
  let lo := extendLo a b alo blo core.1 core.1 core.2.1 core.2.2
  (lo.1, lo.2.1, extendHi a b ahi bhi lo.1 lo.2.1 ahi lo.2.2)

/-- The divide-and-conquer queue of `get_matching_blocks` (a stack whose
top is the head; Python appends the left chunk, then the right chunk, and
pops from the end).  Fuel bounds the number of pops; every recorded match
covers at least one fresh `a`-position, so `2 * a.length + 2` pops always
suffice. -/
def gmbAux (a b : List Char) :
    Nat → List (Nat × Nat × Nat × Nat) → List (Nat × Nat × Nat) → List (Nat × Nat × Nat)
  | 0, _, acc => acc
  | _ + 1, [], acc => acc
  | fuel + 1, (alo, ahi, blo, bhi) :: queue, acc =>
    let m := find_longest_match a b alo ahi blo bhi
    let i := m.1
    let j := m.2.1
    let k := m.2.2
    if k = 0 then gmbAux a b fuel queue acc
    else
      let q1 : List (Nat × Nat × Nat × Nat) :=
        if alo < i ∧ blo < j then [(alo, i, blo, j)] else []
      let q2 : List (Nat × Nat × Nat × Nat) :=
        if i + k < ahi ∧ j + k < bhi then [(i + k, ahi, j + k, bhi)] else []
      gmbAux a b fuel (q2 ++ q1 ++ queue) ((i, j, k) :: acc)

/-- Lexicographic order on matching-block triples (Python tuple sort). -/
def tripleLe (x y : Nat × Nat × Nat) : Bool :=
  decide (x.1 < y.1) || (x.1 == y.1 && (decide (x.2.1 < y.2.1) ||
    (x.2.1 == y.2.1 && decide (x.2.2 ≤ y.2.2))))

def insertTriple (x : Nat × Nat × Nat) : List (Nat × Nat × Nat) → List (Nat × Nat × Nat)
  | [] => [x]
  | y :: ys => if tripleLe x y then x :: y :: ys else y :: insertTriple x ys

def sortTriples (l : List (Nat × Nat × Nat)) : List (Nat × Nat × Nat) :=
  l.foldr insertTriple []

/-- The adjacent-block merging at the end of `get_matching_blocks`. -/
def mergeAdjacent : Nat × Nat × Nat → List (Nat × Nat × Nat) → List (Nat × Nat × Nat)
  | (i1, j1, k1), [] => if k1 ≠ 0 then [(i1, j1, k1)] else []
  | (i1, j1, k1), (i2, j2, k2) :: rest =>
    if i1 + k1 = i2 ∧ j1 + k1 = j2 then mergeAdjacent (i1, j1, k1 + k2) rest
    else if k1 ≠ 0 then (i1, j1, k1) :: mergeAdjacent (i2, j2, k2) rest
    else mergeAdjacent (i2, j2, k2) rest

/-- `SequenceMatcher(None, a, b).get_matching_blocks()`: ordered,
non-overlapping maximal matching blocks, ending with the `(la, lb, 0)`
sentinel. -/
def get_matching_blocks (a b : List Char) : List (Nat × Nat × Nat) :=
  let blocks := sortTriples (gmbAux a b (2 * a.length + 2) [(0, a.length, 0, b.length)] [])
  mergeAdjacent (0, 0, 0) blocks ++ [(a.length, b.length, 0)]

/-- The per-character run-provenance map of a paragraph: for each character
of each text run, the character, the index of its run among the paragraph's
children (run identity), and its formatting. -/
def runMapAux : Nat → Para → List (Char × Nat × RunFormat)
  | _, [] => []
  | idx, .run t fmt :: rest => (t.data.map (fun c => (c, idx, fmt))) ++ runMapAux (idx + 1) rest
  | idx, .math _ :: rest => runMapAux (idx + 1) rest

/-- The gap handling of `apply_translations` (document.py 161–171 and
193–203): split unmatched translation text on placeholder tokens; tokens
present in `math_elements` re-insert a deep copy of the embedded element,
anything else non-empty becomes a default-formatted run. -/
def buildGap (mathEls : List (String × Nat)) (gap : List Char) : List ParaChild :=
  (pySplitMath gap).foldr (fun part acc =>
    (match mathEls.find? (fun p => p.1 == String.mk part) with
     | some kv => [ParaChild.math kv.2]
     | none => if part.isEmpty then [] else [ParaChild.run ⟨part⟩ defaultFmt]) ++ acc) []

/-- The matched-block handling of `apply_translations` (document.py
173–189): walk the block's character indices, group consecutive characters
by run identity, and emit one new run per group carrying the provenance
run's formatting copied onto a fresh default run. -/
def buildMatched (rm : List (Char × Nat × RunFormat)) :
    List Nat → Option (Nat × RunFormat) → List Char → List ParaChild
  | [], cur, txt =>
    (match cur with
     | some (_, fmt) => [ParaChild.run ⟨txt⟩ (copy_run_format fmt defaultFmt)]
     | none => [])
  | k :: ks, cur, txt =>
    match rm.get? k with
    | some (c, idx, fmt) =>
      if cur.map Prod.fst = some idx then buildMatched rm ks cur (txt ++ [c])
      else
        (match cur with
         | some (_, cfmt) => [ParaChild.run ⟨txt⟩ (copy_run_format cfmt defaultFmt)]
         | none => []) ++ buildMatched rm ks (some (idx, fmt)) [c]
    | none => buildMatched rm ks cur txt

/-- The main reconstruction loop of `apply_translations` over the matching
blocks (document.py 155–203), producing the sequence of children appended
to the paragraph.  The trailing-gap handling after the loop corresponds to
the `[]` case (the sentinel block has already advanced `last` to the end
when the translation tail was consumed by a gap). -/
def applyBlocks (mathEls : List (String × Nat)) (rm : List (Char × Nat × RunFormat))
    (tr : List Char) : List (Nat × Nat × Nat) → Nat → List ParaChild
  | [], last =>
    if last < tr.length then buildGap mathEls (tr.drop last) else []
  | (a, bIdx, size) :: blocks, last =>
    (if bIdx > last then buildGap mathEls ((tr.drop last).take (bIdx - last)) else [])
      ++ (if size > 0 then buildMatched rm (List.range' a size) none [] else [])
      ++ applyBlocks mathEls rm tr blocks (bIdx + size)

/-- The per-paragraph body of `apply_translations` (document.py 136–203):
build the provenance map, remove every run (other children, e.g. math
elements, stay in place), and append the reconstructed sequence. -/
def rebuildParagraph (seg : TranslationSegment) (para : Para) (tr : String) : Para :=
  let rm := runMapAux 0 para
  let kept := para.filter (fun child => match child with
    | .run _ _ => false
    | .math _ => true)
  kept ++ applyBlocks seg.math_elements rm tr.data
    (get_matching_blocks (rm.map (fun e => e.1)) tr.data) 0

/-- One iteration of the `for seg in self.segments` loop of
`apply_translations`: skip segments without a translation, skip
translations identical (after stripping) to the original, otherwise rebuild
the referenced paragraph. -/
def applyStep (translations : List (String × String)) (doc : List Para)
    (seg : TranslationSegment) : List Para :=
  match (translations.find? (fun p => p.1 == seg.id)).map Prod.snd with
  | none => doc
  | some tr =>
    if pyStrip tr = pyStrip seg.original_text then doc
    else
      match seg.obj_ref with
      | some pIdx =>
        match doc.get? pIdx with
        | some para => doc.set pIdx (rebuildParagraph seg para tr)
        | none => doc
      | none => doc

/-- `DocumentProcessor.apply_translations` (translation_sdk/document.py
122–203) over a document given as its paragraph list. -/
def apply_translations (doc : List Para) (segments : List TranslationSegment)
    (translations : List (String × String)) : List Para :=
  segments.foldl (applyStep translations) doc

/-! ### The workflow orchestrator `TranslationWorkflow.run`

`run` (docu_fluent/workflow.py 147–395) drives five thread-pool stages over
the segment list.  Each stage is modelled by its submission pass (the
`for seg in segments` loop, which both applies the skip rules and decides
which segments are submitted) followed by its collection pass (the
`as_completed` loop).  Results land in a map keyed by segment id, so
completion order is irrelevant to every claim; the collection pass runs in
submission order.  Progress fractions are exact rationals represented as
integer numerator/denominator pairs (`PFrac`), mirroring
`stage_start + (current / total) * (stage_end - stage_start)`. -/

/-- An exact fraction (denominator positive at every construction site);
Python computes the same value in floating point. -/
structure PFrac where
  num : Int
  den : Int
deriving DecidableEq

/-- Interpretation of a progress fraction as a rational. -/
def PFrac.toRat (p : PFrac) : ℚ := (p.num : ℚ) / (p.den : ℚ)

def PFrac.add (x y : PFrac) : PFrac := ⟨x.num * y.den + y.num * x.den, x.den * y.den⟩

def PFrac.sub (x y : PFrac) : PFrac := ⟨x.num * y.den - y.num * x.den, x.den * y.den⟩

def PFrac.mul (x y : PFrac) : PFrac := ⟨x.num * y.num, x.den * y.den⟩

/-- `stage_start + (current / total) * (stage_end - stage_start)`
(the `_update_progress` closure, workflow.py 154–159). -/
def tickVal (lo hi : PFrac) (current total : Nat) : PFrac :=
  lo.add ((PFrac.mk current total).mul (hi.sub lo))

/-- `WorkflowResult` (workflow.py 28–51) without the debug-only
prompt/raw-response fields, which no claim mentions. -/
structure WorkflowResult where
  segment_id : String
  original : String
  translation_a : String := ""
  eval_a : Option EvaluationResult := none
  translation_c : String := ""
  eval_c : Option EvaluationResult := none
  final_translation : String := ""
  selected_model : String := ""
deriving DecidableEq

/-- Integer sum of the five dimension scores. -/
def EvaluationResult.scoreSum (e : EvaluationResult) : Int :=
  e.accuracy + e.fluency + e.consistency + e.terminology + e.completeness

/-- The comparison `x.total_score > y.total_score` (both are integer sums
divided by the same positive constant 5, so the float comparison is exactly
the integer comparison; the bridge to `total_score` is proved below). -/
def scoreGt (x y : EvaluationResult) : Bool := decide (y.scoreSum < x.scoreSum)

/-- The check `eval_a.total_score >= 9.5` of the Optimize stage
(sum / 5 ≥ 9.5 exactly when 2·sum ≥ 95). -/
def evalPerfect (e : EvaluationResult) : Bool := decide ((95 : Int) ≤ 2 * e.scoreSum)

/-- One language-model task issued by the orchestrator, tagged with the
segment it serves; `translateCall` carries 0 for the Translate stage and 1
for the Repair sub-stage. -/
inductive CallEvent where
  | translateCall (id : String) (stage : Nat)
  | evaluateCall (id : String)
  | comparativeCall (id : String)
  | optimizeCall (id : String)
deriving DecidableEq

def CallEvent.segId : CallEvent → String
  | .translateCall i _ => i
  | .evaluateCall i => i
  | .comparativeCall i => i
  | .optimizeCall i => i

/-- A workflow run configuration: the segment list and language pair passed
to `run`, whether a progress callback was supplied, the loaded cache file
contents, and the three language-model clients as response oracles
(`none` = the call raised after the retry decorator's three attempts).
The translator oracle's second argument distinguishes the Translate stage
(0) from the Repair sub-stage (1). -/
structure WorkflowCfg where
  segments : List TranslationSegment
  source_lang : String := "auto"
  target_lang : String := "Chinese"
  hasCallback : Bool := false
  initialCache : List (String × String) := []
  translator : TranslationSegment → Nat → Option String
  evaluator : String → String → Option String
  comparator : String → String → String → Option String
  optimizer : String → String → String → Option String

/-- Orchestrator state: the per-segment result map, the in-memory cache,
the snapshots written by `_save_cache`, the reported progress fractions and
the language-model task log. -/
structure WState where
  rmap : String → WorkflowResult
  cache : List (String × String)
  saved : List (List (String × String))
  progress : List PFrac
  calls : List CallEvent

/-- The exceptions `run` can actually raise. -/
inductive PyErr where
  | zeroDivision
  | attributeError
deriving DecidableEq

/-- Update the result map at one segment id. -/
def updAt (m : String → WorkflowResult) (k : String)
    (f : WorkflowResult → WorkflowResult) : String → WorkflowResult :=
  fun x => if x = k then f (m x) else m x

/-- Python `dict` assignment on the cache (replace or append). -/
def setCache (cache : List (String × String)) (k v : String) : List (String × String) :=
  if cache.any (fun p => p.1 == k) then
    cache.map (fun p => if p.1 == k then (k, v) else p)
  else cache ++ [(k, v)]

/-- Cache lookup. -/
def getCache (cache : List (String × String)) (k : String) : Option String :=
  (cache.find? (fun p => p.1 == k)).map Prod.snd

/-- `cache_key = f"{seg.original_text}_{source_lang}_{target_lang}"`. -/
def cache_key (cfg : WorkflowCfg) (seg : TranslationSegment) : String :=
  seg.original_text ++ "_" ++ cfg.source_lang ++ "_" ++ cfg.target_lang

/-- A per-completion `_update_progress` call (total is never zero at these
sites: the collection loop only runs when something was submitted). -/
def emitTick (cfg : WorkflowCfg) (st : WState) (lo hi : PFrac) (current total : Nat) : WState :=
  if cfg.hasCallback then { st with progress := st.progress ++ [tickVal lo hi current total] }
  else st

/-- A stage-start `_update_progress` call with `current = 0`; with a
callback present and `total = 0` the Python division `0 / 0` raises
`ZeroDivisionError`. -/
def emitStart (cfg : WorkflowCfg) (st : WState) (lo hi : PFrac) (total : Nat) :
    Except PyErr WState :=
  if cfg.hasCallback then
    if total = 0 then .error .zeroDivision
    else .ok { st with progress := st.progress ++ [tickVal lo hi 0 total] }
  else .ok st

/-- `TranslationWorkflow._translate_task` (workflow.py 484–523): the
`generate` call is the oracle; its text is post-processed by the
placeholder-sanitizing `re.sub`. -/
def translate_task (cfg : WorkflowCfg) (seg : TranslationSegment) (occ : Nat) : Option String :=
  (cfg.translator seg occ).map (fun raw => pySubMath (seg.math_elements.map Prod.fst) raw)

/-- Marker evaluation for simple segments at Evaluation 1 (workflow.py 267). -/
def markerSimpleEval1 : EvaluationResult :=
  ⟨10, 10, 10, 10, 10, "Simple segment, no evaluation needed."⟩

/-- Marker evaluation for the same-language bypass (workflow.py 272). -/
def markerSameLang : EvaluationResult :=
  ⟨10, 10, 10, 10, 10, "Source and Target languages are the same."⟩

/-- Marker evaluation for simple segments at the comparative stage
(workflow.py 337). -/
def markerSimpleEval2 : EvaluationResult := ⟨10, 10, 10, 10, 10, "Simple segment."⟩

/-- The all-zero default applied to a missing evaluation at the Select
stage (workflow.py 377–378). -/
def zeroFailed : EvaluationResult := ⟨0, 0, 0, 0, 0, "Failed"⟩

/-- Python `str.lower()` (ASCII-accurate; the language tags exercised are
ASCII). -/
def pyLower (s : String) : String := ⟨s.data.map Char.toLower⟩

/-- A submission loop `for seg in segments:` — the decision function
either applies a skip-rule update to the segment's record (`some f`,
modelling the `continue` branches) or submits the segment (`none`).
Common shape of the Translate, Evaluation-1 and Comparative-Evaluation
submission loops. -/
def submitLoop (dec : (String → WorkflowResult) → TranslationSegment →
    Option (WorkflowResult → WorkflowResult)) :
    (String → WorkflowResult) → List TranslationSegment →
      (String → WorkflowResult) × List TranslationSegment
  | m, [] => (m, [])
  | m, seg :: rest =>
    match dec m seg with
    | some f => submitLoop dec (updAt m seg.id f) rest
    | none =>
      let p := submitLoop dec m rest
      (p.1, seg :: p.2)

/-- One collection loop (`for future in as_completed(...)`): per completed
task, the progress tick, the task's log entry, then the task-specific
state update. -/
def collectLoop (cfg : WorkflowCfg) (lo hi : PFrac) (total : Nat)
    (ev : TranslationSegment → CallEvent)
    (upd : WState → TranslationSegment → WState) :
    WState → Nat → List TranslationSegment → WState
  | st, _, [] => st
  | st, done, seg :: rest =>
    let st1 := emitTick cfg st lo hi (done + 1) total
    let st2 := { st1 with calls := st1.calls ++ [ev seg] }
    collectLoop cfg lo hi total ev upd (upd st2 seg) (done + 1) rest

/-- The skip rules of the Translate submission loop (workflow.py 172–192):
simple segments are tagged `Skipped (Simple)` with the original as
translation; a cache hit whose value differs from the original (after
stripping) is accepted as `Cached`; everything else is submitted.  All
cache lookups see the loaded cache: the collection loop that writes the
cache only runs after the submission loop. -/
def stage1Dec (cfg : WorkflowCfg) (_ : String → WorkflowResult) (seg : TranslationSegment) :
    Option (WorkflowResult → WorkflowResult) :=
  if isSimpleSegment seg.original_text then
    some (fun r =>
      { r with translation_a := seg.original_text, selected_model := "Skipped (Simple)" })
  else
    match getCache cfg.initialCache (cache_key cfg seg) with
    | some cached =>
      if pyStrip cached ≠ pyStrip seg.original_text then
        some (fun r => { r with translation_a := cached, selected_model := "Cached" })
      else none
    | none => none

/-- The Translate submission loop. -/
def stage1Submit (cfg : WorkflowCfg) :
    (String → WorkflowResult) → List TranslationSegment →
      (String → WorkflowResult) × List TranslationSegment :=
  submitLoop (stage1Dec cfg)

/-- The per-completion update of the Translate/Repair collection loops
(workflow.py 199–210 and 243–253): store the translation and cache it when
it differs from the original; a raised task (`none`) only logs. -/
def translateUpd (cfg : WorkflowCfg) (occ : Nat) (st : WState) (seg : TranslationSegment) :
    WState :=
  match translate_task cfg seg occ with
  | some t =>
    let st2 := { st with rmap := updAt st.rmap seg.id (fun r => { r with translation_a := t }) }
    if pyStrip t ≠ pyStrip seg.original_text then
      { st2 with cache := setCache st2.cache (cache_key cfg seg) t }
    else st2
  | none => st

/-- The collection loop shared by the Translate stage (`occ = 0`, progress
0→0.3 over `len(segments)`) and the Repair sub-stage (`occ = 1`, progress
0.3→0.35 over the failed count). -/
def translateCollect (cfg : WorkflowCfg) (occ : Nat) (lo hi : PFrac) (total : Nat) :
    WState → Nat → List TranslationSegment → WState :=
  collectLoop cfg lo hi total (fun s => .translateCall s.id occ) (translateUpd cfg occ)

/-- The `results_map` dict comprehension at the top of `run` (workflow.py
149–152); ids not bound by any segment never occur at a lookup site. -/
def initMap (segments : List TranslationSegment) : String → WorkflowResult :=
  segments.foldl (fun m seg => updAt m seg.id
      (fun _ => { segment_id := seg.id, original := seg.original_text }))
    (fun i => { segment_id := i, original := "" })

/-- Stage 1 (including the `_save_cache` after it). -/
def afterStage1 (cfg : WorkflowCfg) : Except PyErr WState := do
  let st0 : WState := ⟨initMap cfg.segments, cfg.initialCache, [], [], []⟩
  let st1 ← emitStart cfg st0 ⟨0, 1⟩ ⟨3, 10⟩ cfg.segments.length
  let p := stage1Submit cfg st1.rmap cfg.segments
  let st2 := translateCollect cfg 0 ⟨0, 1⟩ ⟨3, 10⟩ cfg.segments.length
    { st1 with rmap := p.1 } 0 p.2
  pure { st2 with saved := st2.saved ++ [st2.cache] }

/-- The failed-translation filter of the Repair sub-stage (workflow.py
218–226): not tagged `Skipped (Simple)` and the stored translation strips
to the original. -/
def failedSegments (cfg : WorkflowCfg) (st : WState) : List TranslationSegment :=
  cfg.segments.filter (fun seg =>
    (!((st.rmap seg.id).selected_model == "Skipped (Simple)")) &&
      (pyStrip (st.rmap seg.id).translation_a == pyStrip seg.original_text))

/-- Stage 1 plus the conditional Repair sub-stage (workflow.py 216–257),
including its `_save_cache`. -/
def afterRepair (cfg : WorkflowCfg) : Except PyErr WState := do
  let st ← afterStage1 cfg
  let failed := failedSegments cfg st
  if failed.isEmpty then pure st
  else do
    let st ← emitStart cfg st ⟨3, 10⟩ ⟨7, 20⟩ failed.length
    let st := translateCollect cfg 1 ⟨3, 10⟩ ⟨7, 20⟩ failed.length st 0 failed
    pure { st with saved := st.saved ++ [st.cache] }

/-- The skip rules of the Evaluation-1 submission loop (workflow.py
264–276): simple segments get the full-score marker; the same-language
bypass applies when source and target compare equal case-insensitively and
the source is not `auto`; everything else is submitted. -/
def stage2Dec (cfg : WorkflowCfg) (m : String → WorkflowResult) (seg : TranslationSegment) :
    Option (WorkflowResult → WorkflowResult) :=
  if (m seg.id).selected_model = "Skipped (Simple)" then
    some (fun r => { r with eval_a := some markerSimpleEval1 })
  else if pyLower cfg.source_lang = pyLower cfg.target_lang ∧ cfg.source_lang ≠ "auto" then
    some (fun r => { r with eval_a := some markerSameLang })
  else none

/-- The Evaluation-1 submission loop. -/
def stage2Submit (cfg : WorkflowCfg) :
    (String → WorkflowResult) → List TranslationSegment →
      (String → WorkflowResult) × List TranslationSegment :=
  submitLoop (stage2Dec cfg)

/-- The per-completion update of the Evaluation-1 collection loop
(workflow.py 283–288): parse each response with `_parse_evaluation`; a
raised task leaves `eval_a` unset. -/
def eval1Upd (cfg : WorkflowCfg) (st : WState) (seg : TranslationSegment) : WState :=
  match cfg.evaluator (st.rmap seg.id).original (st.rmap seg.id).translation_a with
  | some raw =>
    { st with rmap := (updAt st.rmap seg.id
        (fun r => { r with eval_a := some (parse_evaluation raw) })) }
  | none => st

/-- The Evaluation-1 collection loop (progress 0.35→0.55 over
`len(segments)`). -/
def stage2Collect (cfg : WorkflowCfg) : WState → Nat → List TranslationSegment → WState :=
  collectLoop cfg ⟨7, 20⟩ ⟨11, 20⟩ cfg.segments.length
    (fun s => .evaluateCall s.id) (eval1Upd cfg)

/-- The Optimization submission loop (workflow.py 297–314).  Simple
segments and segments whose Evaluation-1 score is at least 9.5 copy
`translation_a` into `translation_c`; otherwise the submission itself
evaluates `results_map[seg.id].eval_a.suggestions` — when a failed
evaluation left `eval_a` as `None` this raises `AttributeError` in the
orchestrator loop (not inside a task), aborting `run`. -/
def stage3Submit (cfg : WorkflowCfg) :
    (String → WorkflowResult) → List TranslationSegment →
      Except PyErr ((String → WorkflowResult) × List TranslationSegment)
  | m, [] => .ok (m, [])
  | m, seg :: rest =>
    if (m seg.id).selected_model = "Skipped (Simple)" then
      stage3Submit cfg (updAt m seg.id (fun r => { r with translation_c := r.translation_a })) rest
    else if (match (m seg.id).eval_a with
        | some e => evalPerfect e
        | none => false) then
      stage3Submit cfg (updAt m seg.id (fun r => { r with translation_c := r.translation_a })) rest
    else
      match (m seg.id).eval_a with
      | none => .error .attributeError
      | some _ =>
        match stage3Submit cfg m rest with
        | .ok p => .ok (p.1, seg :: p.2)
        | .error e => .error e

/-- The per-completion update of the Optimization collection loop
(workflow.py 321–326).  The `eval_a` fallback to the empty string is
unreachable: only segments with a present `eval_a` are submitted. -/
def optimizeUpd (cfg : WorkflowCfg) (st : WState) (seg : TranslationSegment) : WState :=
  let sug := match (st.rmap seg.id).eval_a with
    | some e => e.suggestions
    | none => ""
  match cfg.optimizer (st.rmap seg.id).original (st.rmap seg.id).translation_a sug with
  | some t => { st with rmap := updAt st.rmap seg.id (fun r => { r with translation_c := t }) }
  | none => st

/-- The Optimization collection loop (progress 0.55→0.75 over
`len(segments)`). -/
def stage3Collect (cfg : WorkflowCfg) : WState → Nat → List TranslationSegment → WState :=
  collectLoop cfg ⟨11, 20⟩ ⟨3, 4⟩ cfg.segments.length
    (fun s => .optimizeCall s.id) (optimizeUpd cfg)

/-- The skip rules of the Comparative-Evaluation submission loop
(workflow.py 335–353): simple segments get the marker; a segment whose
optimization was skipped (`translation_c == translation_a`) copies
`eval_a` into `eval_c` (possibly copying `None`); everything else is
submitted. -/
def stage4Dec (_ : WorkflowCfg) (m : String → WorkflowResult) (seg : TranslationSegment) :
    Option (WorkflowResult → WorkflowResult) :=
  if (m seg.id).selected_model = "Skipped (Simple)" then
    some (fun r => { r with eval_c := some markerSimpleEval2 })
  else if (m seg.id).translation_c = (m seg.id).translation_a then
    some (fun r => { r with eval_c := r.eval_a })
  else none

/-- The Comparative-Evaluation submission loop. -/
def stage4Submit (cfg : WorkflowCfg) :
    (String → WorkflowResult) → List TranslationSegment →
      (String → WorkflowResult) × List TranslationSegment :=
  submitLoop (stage4Dec cfg)

/-- The per-completion update of the Comparative-Evaluation collection
loop (workflow.py 360–366): one combined response updates both `eval_a`
and `eval_c`. -/
def comparativeUpd (cfg : WorkflowCfg) (st : WState) (seg : TranslationSegment) : WState :=
  match cfg.comparator (st.rmap seg.id).original (st.rmap seg.id).translation_a
      (st.rmap seg.id).translation_c with
  | some raw =>
    let pr := parse_comparative raw
    { st with rmap := (updAt st.rmap seg.id
        (fun r => { r with eval_a := some pr.1, eval_c := some pr.2 })) }
  | none => st

/-- The Comparative-Evaluation collection loop (progress 0.75→0.95 over
`len(segments)`). -/
def stage4Collect (cfg : WorkflowCfg) : WState → Nat → List TranslationSegment → WState :=
  collectLoop cfg ⟨3, 4⟩ ⟨19, 20⟩ cfg.segments.length
    (fun s => .comparativeCall s.id) (comparativeUpd cfg)

/-- The Select stage applied to one record (workflow.py 374–388): default
missing evaluations to all-zero, keep `Skipped (Simple)` as is, otherwise
pick the optimized translation exactly when its total score is strictly
greater. -/
def selectResult (res : WorkflowResult) : WorkflowResult :=
  let ea := res.eval_a.getD zeroFailed
  let ec := res.eval_c.getD zeroFailed
  let res := { res with eval_a := some ea, eval_c := some ec }
  if res.selected_model = "Skipped (Simple)" then
    { res with final_translation := res.translation_a }
  else if scoreGt ec ea then
    { res with final_translation := res.translation_c, selected_model := "C (Optimized)" }
  else
    { res with final_translation := res.translation_a, selected_model := "A (Initial)" }

/-- The Select loop (workflow.py 373–388), collecting the final results in
segment order. -/
def stage5 : (String → WorkflowResult) → List TranslationSegment →
    List WorkflowResult × (String → WorkflowResult)
  | m, [] => ([], m)
  | m, seg :: rest =>
    let r := selectResult (m seg.id)
    let p := stage5 (updAt m seg.id (fun _ => r)) rest
    (r :: p.1, p.2)

/-- Stages 1–2 (workflow.py up to line 290). -/
def afterStage2 (cfg : WorkflowCfg) : Except PyErr WState := do
  let st ← afterRepair cfg
  let st ← emitStart cfg st ⟨7, 20⟩ ⟨11, 20⟩ cfg.segments.length
  let p := stage2Submit cfg st.rmap cfg.segments
  pure (stage2Collect cfg { st with rmap := p.1 } 0 p.2)

/-- Stages 1–3 (workflow.py up to line 328). -/
def afterStage3 (cfg : WorkflowCfg) : Except PyErr WState := do
  let st ← afterStage2 cfg
  let st ← emitStart cfg st ⟨11, 20⟩ ⟨3, 4⟩ cfg.segments.length
  let p ← stage3Submit cfg st.rmap cfg.segments
  pure (stage3Collect cfg { st with rmap := p.1 } 0 p.2)

/-- Stages 1–4 (workflow.py up to line 368). -/
def afterStage4 (cfg : WorkflowCfg) : Except PyErr WState := do
  let st ← afterStage3 cfg
  let st ← emitStart cfg st ⟨3, 4⟩ ⟨19, 20⟩ cfg.segments.length
  let p := stage4Submit cfg st.rmap cfg.segments
  pure (stage4Collect cfg { st with rmap := p.1 } 0 p.2)

/-- `TranslationWorkflow.run` (docu_fluent/workflow.py 147–395). -/
def run (cfg : WorkflowCfg) : Except PyErr (List WorkflowResult × WState) := do
  let st ← afterStage4 cfg
  let st ← emitStart cfg st ⟨19, 20⟩ ⟨1, 1⟩ 1
  let p5 := stage5 st.rmap cfg.segments
  pure (p5.1, { st with rmap := p5.2 })

/-! ### Statement-level definitions and concrete instances -/

/-- Unwrap an `Except` with a default (used only to name concrete run
outputs; the accompanying equations are proved by `rfl`). -/
def exOk {e a : Type} (x : Except e a) (d : a) : a :=
  match x with
  | .ok v => v
  | .error _ => d

def emptyWState : WState :=
  ⟨fun i => { segment_id := i, original := "" }, [], [], [], []⟩

def emptyRun : List WorkflowResult × WState := ([], emptyWState)

/-- The hypothesis of the round-trip claim, decidably: every segment whose
id is bound by the translation map gets a value that strips to its original
text. -/
def identityTranslations (segments : List TranslationSegment)
    (translations : List (String × String)) : Bool :=
  segments.all (fun seg =>
    match (translations.find? (fun p => p.1 == seg.id)).map Prod.snd with
    | some tr => pyStrip tr == pyStrip seg.original_text
    | none => true)

/-- The progress fractions of one stage as rationals: the stage-start call
(`current = 0`) followed by one call per completed task, each
`lo + (current / total) * (hi - lo)`. -/
def ratBlock (lo hi : ℚ) (total cnt : Nat) : List ℚ :=
  (List.range (cnt + 1)).map (fun i => lo + ((i : ℚ) / (total : ℚ)) * (hi - lo))

/-- The reported progress fractions of a run, as rationals. -/
def progressRats (st : WState) : List ℚ := st.progress.map PFrac.toRat

/-- An abstract decomposition of a translator response for the placeholder
sanitization: literal characters (never an opening brace) interleaved with
well-formed placeholder tokens.  In such a text the scanner's matches are
exactly the token items. -/
inductive SubItem where
  | lit (c : Char)
  | tok (ds : List Char)

def renderItem : SubItem → List Char
  | .lit c => [c]
  | .tok ds => (mathTokStr ds).data

/-- The text denoted by an item decomposition. -/
def renderIn (items : List SubItem) : List Char :=
  items.foldr (fun i acc => renderItem i ++ acc) []

/-- The sanitized text: kept tokens for keys, bare digits otherwise. -/
def renderOut (keys : List String) (items : List SubItem) : List Char :=
  items.foldr (fun i acc =>
    (match i with
     | .lit c => [c]
     | .tok ds => if keys.contains (mathTokStr ds) then (mathTokStr ds).data else ds) ++ acc) []

/-- Well-formedness of a decomposition item: a literal is not an opening
brace (so no match can start inside or across literals), and a token has a
non-empty all-digit group. -/
def wfItem : SubItem → Prop
  | .lit c => c ≠ lbrace
  | .tok ds => ds ≠ [] ∧ ∀ c ∈ ds, pyIsDigit c = true

instance : DecidablePred wfItem := fun i =>
  match i with
  | .lit _ => inferInstanceAs (Decidable (_ ≠ _))
  | .tok _ => inferInstanceAs (Decidable (_ ∧ _))

/-! Concrete instances used by witnesses and counterexamples. -/

def c1Doc : List Para := [[.run "A1" { bold := some true }, .run "B2" { italic := some true }]]

def c1Seg : TranslationSegment := { id := "p_0", original_text := "A1B2", obj_ref := some 0 }

def c2Para : Para := [.run "A1" { bold := some true }, .run "B2" { italic := some true }]

def c2Seg : TranslationSegment := { id := "p_0", original_text := "A1B2", obj_ref := some 0 }

def c3Cfg : WorkflowCfg :=
  { segments := [{ id := "p_0", original_text := "42" }]
    translator := fun _ _ => none
    evaluator := fun _ _ => none
    comparator := fun _ _ _ => none
    optimizer := fun _ _ _ => none }

def c3Out : List WorkflowResult × WState := exOk (run c3Cfg) emptyRun

/-- A tied selection record: both evaluations total 7.0. -/
def c4Res : WorkflowResult :=
  { segment_id := "p_0", original := "Hello", translation_a := "Bonjour"
    translation_c := "Salut"
    eval_a := some ⟨7, 7, 7, 7, 7, "a"⟩, eval_c := some ⟨7, 7, 7, 7, 7, "c"⟩ }

/-- A run in which the only segment's translation succeeds but its
evaluation task raises after all retries. -/
def c5Cfg : WorkflowCfg :=
  { segments := [{ id := "p_0", original_text := "Hello" }]
    translator := fun _ _ => some "Bonjour"
    evaluator := fun _ _ => none
    comparator := fun _ _ _ => none
    optimizer := fun _ _ _ => none }

/-- An evaluator response wrapped in a code fence whose body is not JSON. -/
def c6Input : String := "```json\nhello\n```"

/-- The repair scenario of the spec: the translator echoes the input on its
first call and produces a real translation on the retry; the evaluator and
comparator return unparseable text, the optimizer a distinct string. -/
def c7Cfg : WorkflowCfg :=
  { segments := [{ id := "p_1", original_text := "Hello" }]
    translator := fun _ occ => if occ = 0 then some "Hello" else some "Bonjour"
    evaluator := fun _ _ => some "bad json"
    comparator := fun _ _ _ => some "bad"
    optimizer := fun _ _ _ => some "Bonjour2" }

def c7Seg : TranslationSegment := { id := "p_1", original_text := "Hello" }

def c7Out : List WorkflowResult × WState := exOk (run c7Cfg) emptyRun

def c7St1 : WState := exOk (afterStage1 c7Cfg) emptyWState

/-- A complete single-segment run with the progress callback attached. -/
def c9Cfg : WorkflowCfg :=
  { segments := [{ id := "p_1", original_text := "Hello" }]
    hasCallback := true
    translator := fun _ _ => some "Bonjour"
    evaluator := fun _ _ => some "x"
    comparator := fun _ _ _ => some "x"
    optimizer := fun _ _ _ => some "Opt" }

def c9Out : List WorkflowResult × WState := exOk (run c9Cfg) emptyRun

/-- A translator response in which the sanitization splices a new
placeholder token out of its replacement: `{{MATH_{{MATH_5}}}}`. -/
def c10Raw : String :=
  ⟨mathTokOpen ++ (mathTokStr ['5']).data ++ [rbrace, rbrace]⟩

def c10Seg : TranslationSegment := { id := "p_0", original_text := "x" }

def c10Cfg : WorkflowCfg :=
  { segments := [c10Seg]
    translator := fun _ _ => some c10Raw
    evaluator := fun _ _ => none
    comparator := fun _ _ _ => none
    optimizer := fun _ _ _ => none }

def c10Items : List SubItem := [.lit 'a', .tok ['7'], .lit 'b', .tok ['8']]

def c10Keys : List String := [mathTokStr ['7']]

/-- The per-completion progress fractions a collection loop reports when it
starts at completion count `start` and processes `cnt` tasks (empty without
a callback). -/
def ticksFrom (cfg : WorkflowCfg) (lo hi : PFrac) (total start cnt : Nat) : List PFrac :=
  if cfg.hasCallback then
    (List.range cnt).map (fun i => tickVal lo hi (start + 1 + i) total)
  else []

/-- A monotone block of reported fractions lying inside an interval. -/
def monoBlock (lo hi : ℚ) (B : List ℚ) : Prop :=
  List.Chain' (· ≤ ·) B ∧ ∀ x ∈ B, lo ≤ x ∧ x ≤ hi

/-- The six stage windows of the progress reporting, in pipeline order:
Translate, Repair, Evaluation, Optimization, Comparative Evaluation,
Select. -/
def stageWindows : List (ℚ × ℚ) :=
  [(0, 3/10), (3/10, 7/20), (7/20, 11/20), (11/20, 3/4), (3/4, 19/20), (19/20, 1)]

/-- A fraction is the linear interpolation of a window by the completed
count `c` over the nonzero task total `t`. -/
def interpEq (w : ℚ × ℚ) (c t : Nat) (q : ℚ) : Prop :=
  c ≤ t ∧ t ≠ 0 ∧ q = w.1 + ((c : ℚ) / (t : ℚ)) * (w.2 - w.1)

/-- The task total the orchestrator passes to `_update_progress` for each
stage window: the failed count for the Repair sub-stage, 1 for the single
Select-stage start report, and `len(segments)` for the four main stages. -/
def stageTotalPins (cfg : WorkflowCfg) (f : Nat) (w : ℚ × ℚ) (c t : Nat) : Prop :=
  (w = ((3 : ℚ)/10, (7 : ℚ)/20) → t = f) ∧
  (w = ((19 : ℚ)/20, (1 : ℚ)) → t = 1 ∧ c = 0) ∧
  (w ≠ ((3 : ℚ)/10, (7 : ℚ)/20) → w ≠ ((19 : ℚ)/20, (1 : ℚ)) → t = cfg.segments.length)

/-! ## Theorems -/

theorem updAt_eq (m : String → WorkflowResult) (k : String) (f : WorkflowResult → WorkflowResult) :
    updAt m k f k = f (m k) := by
  simp [updAt]

theorem updAt_ne (m : String → WorkflowResult) (k x : String)
    (f : WorkflowResult → WorkflowResult) (h : x ≠ k) : updAt m k f x = m x := by
  simp [updAt, h]

/-- The boolean score comparison used by the Select stage agrees with the
strict comparison of the rational `total_score`s (both are the integer sum
divided by 5). -/
theorem scoreGt_iff (x y : EvaluationResult) :
    scoreGt x y = true ↔ y.total_score < x.total_score := by
  simp only [scoreGt, decide_eq_true_eq, EvaluationResult.total_score,
    EvaluationResult.scoreSum]
  rw [div_lt_div_iff_of_pos_right (by norm_num : (0 : ℚ) < 5)]
  exact_mod_cast Iff.rfl

/-- Claim C1 — Round-trip idempotence of reconstruction: for every document
and every translation map in which each segment's value strips to that
segment's original text, `apply_translations` returns the document
unchanged (the identity guard at document.py:133 skips every segment before
any run is removed, added or reformatted and before any embedded object is
touched). -/
theorem c1_roundtrip_idempotence (doc : List Para) (segments : List TranslationSegment)
    (translations : List (String × String))
    (h : identityTranslations segments translations = true) :
    apply_translations doc segments translations = doc := by
  induction segments generalizing doc with
  | nil => rfl
  | cons seg rest ih =>
    simp only [identityTranslations, List.all_cons, Bool.and_eq_true] at h
    obtain ⟨h1, h2⟩ := h
    show List.foldl _ _ (seg :: rest) = doc
    rw [List.foldl_cons]
    have hstep : applyStep translations doc seg = doc := by
      unfold applyStep
      cases hf : (translations.find? (fun p => p.1 == seg.id)).map Prod.snd with
      | none => rfl
      | some tr =>
        rw [hf] at h1
        simp only [beq_iff_eq] at h1
        simp [h1]
    rw [hstep]
    exact ih doc h2

/-- Witness for C1 at a concrete document and an identity translation map. -/
theorem c1_roundtrip_idempotence_witness :
    identityTranslations [c1Seg] [("p_0", " A1B2 ")] = true ∧
      apply_translations c1Doc [c1Seg] [("p_0", " A1B2 ")] = c1Doc :=
  ⟨by decide, c1_roundtrip_idempotence c1Doc [c1Seg] [("p_0", " A1B2 ")] (by decide)⟩

/-- Claim C2 — Alignment formatting correctness: for the paragraph with
run A = "A1" (bold) and run B = "B2" (italic) and the translation
"A1-X-B2", the reconstruction produces, in order, "A1" carrying bold, an
unformatted "-X-", and "B2" carrying italic. -/
theorem c2_alignment_formatting :
    apply_translations [c2Para] [c2Seg] [("p_0", "A1-X-B2")] =
      [[ParaChild.run "A1" { bold := some true }, ParaChild.run "-X-" defaultFmt,
        ParaChild.run "B2" { italic := some true }]] := by decide

/-- Claim C4 — Selection determinism: for every non-`Skipped (Simple)`
record, the Select stage picks the optimized translation (tag
`C (Optimized)`) exactly when `eval_c.total_score` is strictly greater than
`eval_a.total_score` after defaulting missing evaluations to all-zero, and
otherwise (ties included) picks the initial translation (tag
`A (Initial)`); when both evaluations are missing it deterministically
yields the initial translation. -/
theorem c4_selection_determinism (res : WorkflowResult)
    (h : res.selected_model ≠ "Skipped (Simple)") :
    ((selectResult res).selected_model = "C (Optimized)" ↔
      (res.eval_a.getD zeroFailed).total_score < (res.eval_c.getD zeroFailed).total_score) ∧
    ((selectResult res).selected_model = "A (Initial)" ↔
      ¬ (res.eval_a.getD zeroFailed).total_score < (res.eval_c.getD zeroFailed).total_score) ∧
    ((selectResult res).selected_model = "C (Optimized)" →
      (selectResult res).final_translation = res.translation_c) ∧
    ((selectResult res).selected_model = "A (Initial)" →
      (selectResult res).final_translation = res.translation_a) ∧
    (res.eval_a = none → res.eval_c = none →
      (selectResult res).selected_model = "A (Initial)" ∧
      (selectResult res).final_translation = res.translation_a) := by
  have hgt := scoreGt_iff (res.eval_c.getD zeroFailed) (res.eval_a.getD zeroFailed)
  simp only [selectResult]
  by_cases hcg : scoreGt (res.eval_c.getD zeroFailed) (res.eval_a.getD zeroFailed) = true
  · rw [if_neg h, if_pos hcg]
    have hlt : (res.eval_a.getD zeroFailed).total_score <
        (res.eval_c.getD zeroFailed).total_score := hgt.mp hcg
    refine ⟨⟨fun _ => hlt, fun _ => rfl⟩, ⟨fun hsel => absurd hsel (by simp),
      fun hn => absurd hlt hn⟩, fun _ => rfl, fun hsel => absurd hsel (by simp),
      fun ha hc => ?_⟩
    rw [ha, hc] at hcg
    exact absurd hcg (by decide)
  · rw [if_neg h, if_neg hcg]
    have hng : ¬ (res.eval_a.getD zeroFailed).total_score <
        (res.eval_c.getD zeroFailed).total_score := fun hlt => hcg (hgt.mpr hlt)
    exact ⟨⟨fun hsel => absurd hsel (by simp), fun hlt => absurd hlt hng⟩,
      ⟨fun _ => hng, fun _ => rfl⟩, fun hsel => absurd hsel (by simp),
      fun _ => rfl, fun _ _ => ⟨rfl, rfl⟩⟩

/-- Witness for C4 at an exact tie (both totals 7.0): the initial
translation is selected. -/
theorem c4_selection_determinism_witness :
    c4Res.selected_model ≠ "Skipped (Simple)" ∧
      (((selectResult c4Res).selected_model = "C (Optimized)" ↔
        (c4Res.eval_a.getD zeroFailed).total_score <
          (c4Res.eval_c.getD zeroFailed).total_score) ∧
      ((selectResult c4Res).selected_model = "A (Initial)" ↔
        ¬ (c4Res.eval_a.getD zeroFailed).total_score <
          (c4Res.eval_c.getD zeroFailed).total_score) ∧
      ((selectResult c4Res).selected_model = "C (Optimized)" →
        (selectResult c4Res).final_translation = c4Res.translation_c) ∧
      ((selectResult c4Res).selected_model = "A (Initial)" →
        (selectResult c4Res).final_translation = c4Res.translation_a) ∧
      (c4Res.eval_a = none → c4Res.eval_c = none →
        (selectResult c4Res).selected_model = "A (Initial)" ∧
        (selectResult c4Res).final_translation = c4Res.translation_a)) :=
  ⟨by decide, c4_selection_determinism c4Res (by decide)⟩

/-- Claim C5 (code bug) — the claim says `run` always returns one
`WorkflowResult` per segment even when individual tasks raise.  In fact,
when a segment's Evaluation-1 task raises (leaving `eval_a = None`), the
Optimize submission loop evaluates
`results_map[seg.id].eval_a.suggestions` in the orchestrator thread
(workflow.py:311) and `run` aborts with `AttributeError`; no results are
returned.  This theorem evaluates the embedded `run` at that failing
input. -/
theorem c5_run_crashes_on_missing_eval :
    run c5Cfg = Except.error PyErr.attributeError := rfl

/-- Claim C6 counterexample — the claim says a parse failure carries the
raw response text as suggestions.  For the fenced non-JSON response
` ```json\nhello\n``` ` the `elif` chain has already rebound `text` to the
stripped fence body, so the fallback stores `"hello"`, which is not the raw
response. -/
theorem c6_counterexample :
    parse_evaluation c6Input = ⟨0, 0, 0, 0, 0, "hello"⟩ ∧ ("hello" : String) ≠ c6Input := by
  decide

/-- Claim C6 (amended) — Evaluator parse degradation: `_parse_evaluation`
returns an `EvaluationResult` for every response string (it never raises);
either the fence-stripped text parses as a JSON object whose five score
fields are all `int()`-coercible and the result carries those scores, or
the result has all five dimension scores 0 and carries the
**fence-stripped** text (not the raw response) as its suggestions field. -/
theorem c6_parse_degradation (text : String) :
    parse_evaluation text = zeroEval (stripFences text) ∨
    ∃ kvs a f c tm cp,
      jsonLoads (stripFences text) = some (.jobj kvs) ∧
      pyInt ((jget kvs "accuracy").getD (.jint 0)) = some a ∧
      pyInt ((jget kvs "fluency").getD (.jint 0)) = some f ∧
      pyInt ((jget kvs "consistency").getD (.jint 0)) = some c ∧
      pyInt ((jget kvs "terminology").getD (.jint 0)) = some tm ∧
      pyInt ((jget kvs "completeness").getD (.jint 0)) = some cp ∧
      parse_evaluation text =
        ⟨a, f, c, tm, cp, jvalSuggestion ((jget kvs "suggestions").getD (.jstr ""))⟩ := by
  simp only [parse_evaluation]
  split
  next kvs heq =>
    split
    next a f c2 tm cp h1 h2 h3 h4 h5 =>
      right
      exact ⟨kvs, a, f, c2, tm, cp, heq, h1, h2, h3, h4, h5, rfl⟩
    next => left; rfl
  next => left; rfl

/-- Characters of a `takeWhile` satisfy the predicate, stop at the first
failure: computing `takeWhile` over `l₁ ++ b :: l₂` with all of `l₁`
satisfying `p` and `p b = false`. -/
theorem takeWhile_append_sat {p : Char → Bool} (l₁ : List Char) (b : Char) (l₂ : List Char)
    (h : ∀ a ∈ l₁, p a = true) (hb : p b = false) :
    (l₁ ++ b :: l₂).takeWhile p = l₁ := by
  induction l₁ with
  | nil => simp [List.takeWhile_cons, hb]
  | cons x xs ih =>
    rw [List.cons_append, List.takeWhile_cons, h x (List.mem_cons_self x xs),
      ih (fun a ha => h a (List.mem_cons_of_mem x ha))]
    simp

/-- Characterization of one regex attempt `\{\{MATH_(\d+)\}\}`: it
succeeds with group `ds` exactly when the text is the literal prelude, a
non-empty digit run, and the closing braces (maximality of `\d+` is
automatic because a digit cannot start `}}`). -/
theorem matchTokDigits_eq_some_iff (l ds : List Char) :
    matchTokDigits l = some ds ↔
      ds ≠ [] ∧ (∀ c ∈ ds, pyIsDigit c = true) ∧
        ∃ rest, l = mathTokOpen ++ ds ++ rbrace :: rbrace :: rest := by
  constructor
  · intro h
    unfold matchTokDigits at h
    by_cases hp : mathTokOpen.isPrefixOf l
    · rw [if_pos hp] at h
      obtain ⟨t, ht⟩ := List.isPrefixOf_iff_prefix.mp hp
      subst ht
      have hdrop : (mathTokOpen ++ t).drop 7 = t := by
        have h7 : (7 : Nat) = mathTokOpen.length := rfl
        rw [h7, List.drop_left]
      rw [hdrop] at h
      by_cases he : (t.takeWhile pyIsDigit).isEmpty
      · rw [if_pos he] at h; exact absurd h (by simp)
      · rw [if_neg he] at h
        by_cases hb : [rbrace, rbrace].isPrefixOf (t.drop (t.takeWhile pyIsDigit).length)
        · rw [if_pos hb] at h
          obtain ⟨rest, hrest⟩ := List.isPrefixOf_iff_prefix.mp hb
          have hds : ds = t.takeWhile pyIsDigit := by
            cases h; rfl
          subst hds
          refine ⟨by simpa [List.isEmpty_iff] using he,
            fun c hc => List.mem_takeWhile_imp hc, rest, ?_⟩
          obtain ⟨s, hs⟩ := (List.takeWhile_prefix pyIsDigit (l := t))
          have hsdrop : t.drop (t.takeWhile pyIsDigit).length = s := by
            nth_rewrite 2 [← hs]
            rw [List.drop_left]
          have hs2 : rbrace :: rbrace :: rest = s := by
            have hx := hrest.trans hsdrop
            simpa using hx
          calc mathTokOpen ++ t
              = mathTokOpen ++ (t.takeWhile pyIsDigit ++ s) :=
                congrArg (fun x => mathTokOpen ++ x) hs.symm
            _ = mathTokOpen ++ (t.takeWhile pyIsDigit ++ (rbrace :: rbrace :: rest)) := by
                rw [← hs2]
            _ = mathTokOpen ++ t.takeWhile pyIsDigit ++ rbrace :: rbrace :: rest := by
                simp
        · rw [if_neg hb] at h; exact absurd h (by simp)
    · rw [if_neg hp] at h; exact absurd h (by simp)
  · rintro ⟨hne, hdig, rest, rfl⟩
    unfold matchTokDigits
    have hp : mathTokOpen.isPrefixOf (mathTokOpen ++ ds ++ rbrace :: rbrace :: rest) := by
      rw [List.isPrefixOf_iff_prefix, List.append_assoc]
      exact List.prefix_append _ _
    rw [if_pos hp]
    have hdrop : (mathTokOpen ++ ds ++ rbrace :: rbrace :: rest).drop 7 =
        ds ++ rbrace :: rbrace :: rest := by
      have h7 : (7 : Nat) = mathTokOpen.length := rfl
      rw [List.append_assoc, h7, List.drop_left]
    rw [hdrop]
    have htw : (ds ++ rbrace :: rbrace :: rest).takeWhile pyIsDigit = ds :=
      takeWhile_append_sat ds rbrace (rbrace :: rest) hdig (by decide)
    rw [htw]
    rw [if_neg (by simpa [List.isEmpty_iff] using hne)]
    have hdrop2 : (ds ++ rbrace :: rbrace :: rest).drop ds.length = rbrace :: rbrace :: rest :=
      List.drop_left ds _
    rw [hdrop2]
    rw [if_pos (by
      rw [List.isPrefixOf_iff_prefix]
      exact ⟨rest, rfl⟩)]

/-- Characterization of the full-string placeholder match
`^\{\{MATH_\d+\}\}$` on a stripped string. -/
theorem isPlaceholderOnly_iff (l : List Char) :
    isPlaceholderOnly l = true ↔
      ∃ ds, ds ≠ [] ∧ (∀ c ∈ ds, pyIsDigit c = true) ∧
        l = mathTokOpen ++ ds ++ [rbrace, rbrace] := by
  constructor
  · intro h
    unfold isPlaceholderOnly at h
    cases hm : matchTokDigits l with
    | none => rw [hm] at h; exact absurd h (by simp)
    | some ds =>
      rw [hm] at h
      have h2 : (l.drop (9 + ds.length)).isEmpty = true := h
      obtain ⟨hne, hdig, rest, hrest⟩ := (matchTokDigits_eq_some_iff l ds).mp hm
      refine ⟨ds, hne, hdig, ?_⟩
      have hlen : (mathTokOpen ++ ds ++ rbrace :: rbrace :: rest).drop (9 + ds.length) = rest := by
        have hshape : mathTokOpen ++ ds ++ rbrace :: rbrace :: rest =
            (mathTokOpen ++ ds ++ [rbrace, rbrace]) ++ rest := by simp
        have h9 : 9 + ds.length = (mathTokOpen ++ ds ++ [rbrace, rbrace]).length := by
          simp [mathTokOpen]; omega
        rw [hshape, h9]
        exact List.drop_left _ _
      rw [hrest] at h2
      rw [hlen] at h2
      have hr : rest = [] := by simpa [List.isEmpty_iff] using h2
      rw [hrest, hr]
  · rintro ⟨ds, hne, hdig, rfl⟩
    have hm : matchTokDigits (mathTokOpen ++ ds ++ [rbrace, rbrace]) = some ds :=
      (matchTokDigits_eq_some_iff _ _).mpr ⟨hne, hdig, [], by simp⟩
    have hdc : ((mathTokOpen ++ ds ++ [rbrace, rbrace]).drop (9 + ds.length)).isEmpty = true := by
      have h9 : 9 + ds.length = (mathTokOpen ++ ds ++ [rbrace, rbrace]).length := by
        simp [mathTokOpen]; omega
      rw [h9]
      simp
    show (match matchTokDigits (mathTokOpen ++ ds ++ [rbrace, rbrace]) with
      | some ds2 => ((mathTokOpen ++ ds ++ [rbrace, rbrace]).drop (9 + ds2.length)).isEmpty
      | none => false) = true
    rw [hm]
    exact hdc

/-- Claim C8 counterexample — the claim classifies any text consisting of
currency/math symbols with no alphabetic content as simple; `"$"` is such a
text (a currency symbol), yet both classifiers return `false` because `$`
is not in either regex character class. -/
theorem c8_counterexample :
    isSimpleSegment "$" = false ∧ sdkIsSimpleSegment "$" = false := by decide

/-- Claim C8 (amended) — Simplicity classifier definition:
`_is_simple_segment` returns `true` exactly when the trimmed text is empty,
or is a single standalone `{{MATH_n}}` placeholder token, or consists
entirely of Unicode decimal digits, whitespace, and the fixed literal set
`. , % - + = / ( ) [ ] « » " ' ! ? ; : ¿ ¡ * & # @ ^ _ ~ ` backtick
``` | \ < >` — not of arbitrary punctuation, currency or quote characters
(e.g. `$`, `€` and curly quotes are excluded). -/
theorem c8_simplicity_classifier (t : String) :
    isSimpleSegment t = true ↔
      (pyStripList t.data = [] ∨
       (∃ ds, ds ≠ [] ∧ (∀ c ∈ ds, pyIsDigit c = true) ∧
          pyStripList t.data = mathTokOpen ++ ds ++ [rbrace, rbrace]) ∨
       (∀ c ∈ pyStripList t.data, simpleChar c = true)) := by
  unfold isSimpleSegment
  by_cases h0 : (pyStripList t.data).isEmpty
  · simp only [h0, if_true]
    simp only [List.isEmpty_iff] at h0
    simp [h0]
  · rw [if_neg (by simpa using h0)]
    by_cases h1 : isPlaceholderOnly (pyStripList t.data)
    · simp only [h1, if_true, true_iff]
      exact Or.inr (Or.inl ((isPlaceholderOnly_iff _).mp h1))
    · rw [if_neg (by simpa using h1)]
      rw [List.all_eq_true]
      constructor
      · intro h; exact Or.inr (Or.inr h)
      · intro h
        rcases h with h | h | h
        · exact absurd h (by simpa [List.isEmpty_iff] using h0)
        · exact absurd ((isPlaceholderOnly_iff _).mpr h) (by simpa using h1)
        · exact h

/-- Claim C10 counterexample — the claim says every `{{MATH_n}}` token
occurring in the sanitized `translation_a` exists in the segment's
placeholder map.  For the response `{{MATH_{{MATH_5}}}}` on a segment with
an empty map, the scanner's only match is the inner `{{MATH_5}}`, its
replacement by `5` splices the surrounding text into a fresh `{{MATH_5}}`
token, and the output is exactly that token although the map is empty. -/
theorem c10_counterexample :
    c10Cfg.translator c10Seg 0 = some c10Raw ∧
    translate_task c10Cfg c10Seg 0 = some (mathTokStr ['5']) ∧
    pyIn (mathTokStr ['5']) (mathTokStr ['5']) = true ∧
    c10Seg.math_elements = [] := by decide

/-- Dropping a full placeholder match leaves exactly the remainder. -/
theorem drop_mathTok (ds R : List Char) :
    (mathTokOpen ++ ds ++ rbrace :: rbrace :: R).drop (9 + ds.length) = R := by
  have hshape : mathTokOpen ++ ds ++ rbrace :: rbrace :: R =
      (mathTokOpen ++ ds ++ [rbrace, rbrace]) ++ R := by simp
  have h9 : 9 + ds.length = (mathTokOpen ++ ds ++ [rbrace, rbrace]).length := by
    simp [mathTokOpen]; omega
  rw [hshape, h9]
  exact List.drop_left _ _

/-- The scanner copies a character that cannot begin a match. -/
theorem subMathAux_lit (keys : List String) (fuel : Nat) (c : Char) (R : List Char)
    (hc : c ≠ lbrace) :
    subMathAux keys (fuel + 1) (c :: R) = c :: subMathAux keys fuel R := by
  have hb : (lbrace == c) = false := beq_eq_false_iff_ne.mpr (fun he => hc he.symm)
  have hpre : mathTokOpen.isPrefixOf (c :: R) = false := by
    show (lbrace == c && List.isPrefixOf [lbrace, 'M', 'A', 'T', 'H', '_'] R) = false
    rw [hb]
    rfl
  have hm : matchTokDigits (c :: R) = none := by
    unfold matchTokDigits
    rw [hpre]
    rfl
  simp only [subMathAux, hm]

/-- The scanner consumes a well-formed token at the head in one step. -/
theorem subMathAux_tok (keys : List String) (fuel : Nat) (ds R : List Char)
    (hne : ds ≠ []) (hdig : ∀ c ∈ ds, pyIsDigit c = true) :
    subMathAux keys (fuel + 1) (mathTokOpen ++ ds ++ rbrace :: rbrace :: R) =
      (if keys.contains (mathTokStr ds) then (mathTokStr ds).data else ds)
        ++ subMathAux keys fuel R := by
  have hm : matchTokDigits (mathTokOpen ++ ds ++ rbrace :: rbrace :: R) = some ds :=
    (matchTokDigits_eq_some_iff _ _).mpr ⟨hne, hdig, R, rfl⟩
  have hdrop := drop_mathTok ds R
  have hcons : mathTokOpen ++ ds ++ rbrace :: rbrace :: R =
      lbrace :: (lbrace :: 'M' :: 'A' :: 'T' :: 'H' :: '_' :: (ds ++ rbrace :: rbrace :: R)) := by
    simp [mathTokOpen]
  rw [hcons] at hm hdrop ⊢
  simp only [subMathAux, hm]
  congr 1
  rw [hdrop]

/-- Claim C10 (amended), main lemma: on a response text decomposed into
non-brace literals and well-formed placeholder tokens, the sanitizing scan
keeps exactly the tokens that are keys and replaces the others by their
digits (any fuel at least the text length suffices). -/
theorem subMathAux_renderIn (keys : List String) (items : List SubItem)
    (h : ∀ i ∈ items, wfItem i) :
    ∀ fuel, (renderIn items).length ≤ fuel →
      subMathAux keys fuel (renderIn items) = renderOut keys items := by
  induction items with
  | nil =>
    intro fuel _
    cases fuel with
    | zero => rfl
    | succ f => rfl
  | cons i rest ih =>
    intro fuel hf
    have hrest : ∀ j ∈ rest, wfItem j := fun j hj => h j (List.mem_cons_of_mem i hj)
    cases i with
    | lit c =>
      have hc : c ≠ lbrace := h (.lit c) (List.mem_cons_self _ _)
      have hshape : renderIn (SubItem.lit c :: rest) = c :: renderIn rest := rfl
      rw [hshape] at hf ⊢
      cases fuel with
      | zero => simp at hf
      | succ f =>
        rw [subMathAux_lit keys f c (renderIn rest) hc]
        have hout : renderOut keys (SubItem.lit c :: rest) = c :: renderOut keys rest := rfl
        rw [hout]
        have hle : (renderIn rest).length ≤ f := by
          simp at hf
          omega
        rw [ih hrest f hle]
    | tok ds =>
      obtain ⟨hne, hdig⟩ := h (.tok ds) (List.mem_cons_self _ _)
      have hshape : renderIn (SubItem.tok ds :: rest) =
          mathTokOpen ++ ds ++ rbrace :: rbrace :: renderIn rest := by
        simp [renderIn, renderItem, mathTokStr]
      rw [hshape] at hf ⊢
      have hlen : (mathTokOpen ++ ds ++ rbrace :: rbrace :: renderIn rest).length =
          9 + ds.length + (renderIn rest).length := by
        simp [mathTokOpen]
        omega
      cases fuel with
      | zero =>
        rw [hlen] at hf
        omega
      | succ f =>
        rw [subMathAux_tok keys f ds (renderIn rest) hne hdig]
        have hout : renderOut keys (SubItem.tok ds :: rest) =
            (if keys.contains (mathTokStr ds) then (mathTokStr ds).data else ds)
              ++ renderOut keys rest := rfl
        rw [hout]
        have hle : (renderIn rest).length ≤ f := by
          rw [hlen] at hf
          omega
        rw [ih hrest f hle]

/-- Claim C10 (amended) — Placeholder sanitization: `_translate_task`'s
`re.sub` scans the response left to right; each matched `{{MATH_n}}` that
is a key of the segment's map is kept and each one that is not is replaced
by its bare digits.  On responses in which every opening brace belongs to a
well-formed token (the item decomposition), the output is exactly the
itemwise image — the original claim's consequence that every token in
`translation_a` is a key fails only when a replacement splices surrounding
text into a new token (see the counterexample). -/
theorem c10_placeholder_sanitization (keys : List String) (items : List SubItem)
    (h : ∀ i ∈ items, wfItem i) :
    pySubMath keys ⟨renderIn items⟩ = ⟨renderOut keys items⟩ :=
  congrArg String.mk (subMathAux_renderIn keys items h (renderIn items).length (le_refl _))

/-- Witness for the amended C10 on a four-item decomposition with one key
present and one absent. -/
theorem c10_placeholder_sanitization_witness :
    (∀ i ∈ c10Items, wfItem i) ∧
      pySubMath c10Keys ⟨renderIn c10Items⟩ = ⟨renderOut c10Keys c10Items⟩ :=
  ⟨by decide, c10_placeholder_sanitization c10Keys c10Items (by decide)⟩

/-! ### Loop anatomy lemmas for the workflow theorems -/

theorem emitTick_calls (cfg : WorkflowCfg) (st : WState) (lo hi : PFrac) (c t : Nat) :
    (emitTick cfg st lo hi c t).calls = st.calls := by
  unfold emitTick; split <;> rfl

theorem emitTick_rmap (cfg : WorkflowCfg) (st : WState) (lo hi : PFrac) (c t : Nat) :
    (emitTick cfg st lo hi c t).rmap = st.rmap := by
  unfold emitTick; split <;> rfl

theorem emitTick_cache (cfg : WorkflowCfg) (st : WState) (lo hi : PFrac) (c t : Nat) :
    (emitTick cfg st lo hi c t).cache = st.cache := by
  unfold emitTick; split <;> rfl

theorem emitTick_saved (cfg : WorkflowCfg) (st : WState) (lo hi : PFrac) (c t : Nat) :
    (emitTick cfg st lo hi c t).saved = st.saved := by
  unfold emitTick; split <;> rfl

theorem emitTick_progress (cfg : WorkflowCfg) (st : WState) (lo hi : PFrac) (c t : Nat) :
    (emitTick cfg st lo hi c t).progress =
      st.progress ++ (if cfg.hasCallback then [tickVal lo hi c t] else []) := by
  unfold emitTick
  split
  next h => simp [h]
  next h => simp [h]

theorem emitStart_ok (cfg : WorkflowCfg) (st : WState) (lo hi : PFrac) (total : Nat)
    (st' : WState) (h : emitStart cfg st lo hi total = .ok st') :
    st'.rmap = st.rmap ∧ st'.cache = st.cache ∧ st'.saved = st.saved ∧
      st'.calls = st.calls ∧
      st'.progress = st.progress ++ (if cfg.hasCallback then [tickVal lo hi 0 total] else []) := by
  unfold emitStart at h
  split at h
  next hcb =>
    split at h
    · cases h
    · cases h
      exact ⟨rfl, rfl, rfl, rfl, by simp [hcb]⟩
  next hcb =>
    cases h
    refine ⟨rfl, rfl, rfl, rfl, ?_⟩
    simp only [Bool.not_eq_true] at hcb
    simp [hcb]

theorem emitStart_ok_total (cfg : WorkflowCfg) (st : WState) (lo hi : PFrac) (total : Nat)
    (st' : WState) (h : emitStart cfg st lo hi total = .ok st')
    (hcb : cfg.hasCallback = true) : total ≠ 0 := by
  unfold emitStart at h
  rw [hcb] at h
  simp only [if_true] at h
  intro h0
  rw [h0] at h
  simp at h

theorem submitLoop_map_notin
    (dec : (String → WorkflowResult) → TranslationSegment →
      Option (WorkflowResult → WorkflowResult))
    (L : List TranslationSegment) (tid : String) (h : ∀ s ∈ L, s.id ≠ tid) :
    ∀ m, (submitLoop dec m L).1 tid = m tid := by
  induction L with
  | nil => intro m; rfl
  | cons s rest ih =>
    intro m
    simp only [submitLoop]
    cases hd : dec m s with
    | some f =>
      rw [ih (fun x hx => h x (List.mem_cons_of_mem _ hx)) (updAt m s.id f)]
      exact updAt_ne m s.id tid f (Ne.symm (h s (List.mem_cons_self _ _)))
    | none =>
      exact ih (fun x hx => h x (List.mem_cons_of_mem _ hx)) m

theorem submitLoop_subs_subset
    (dec : (String → WorkflowResult) → TranslationSegment →
      Option (WorkflowResult → WorkflowResult))
    (L : List TranslationSegment) :
    ∀ m s, s ∈ (submitLoop dec m L).2 → s ∈ L := by
  induction L with
  | nil => intro m s hs; simp [submitLoop] at hs
  | cons a rest ih =>
    intro m s hs
    simp only [submitLoop] at hs
    cases hd : dec m a with
    | some f =>
      rw [hd] at hs
      exact List.mem_cons_of_mem _ (ih (updAt m a.id f) s hs)
    | none =>
      rw [hd] at hs
      rcases List.mem_cons.mp hs with he | hm
      · exact he ▸ List.mem_cons_self _ _
      · exact List.mem_cons_of_mem _ (ih m s hm)

theorem submitLoop_append
    (dec : (String → WorkflowResult) → TranslationSegment →
      Option (WorkflowResult → WorkflowResult))
    (L₁ L₂ : List TranslationSegment) :
    ∀ m, submitLoop dec m (L₁ ++ L₂) =
      ((submitLoop dec (submitLoop dec m L₁).1 L₂).1,
        (submitLoop dec m L₁).2 ++ (submitLoop dec (submitLoop dec m L₁).1 L₂).2) := by
  induction L₁ with
  | nil => intro m; simp [submitLoop]
  | cons a rest ih =>
    intro m
    simp only [List.cons_append, submitLoop]
    cases hd : dec m a with
    | some f => exact ih (updAt m a.id f)
    | none =>
      show ((submitLoop dec m (rest ++ L₂)).1, a :: (submitLoop dec m (rest ++ L₂)).2) = _
      rw [ih m]
      rfl

theorem collectLoop_calls (cfg : WorkflowCfg) (lo hi : PFrac) (total : Nat)
    (ev : TranslationSegment → CallEvent) (upd : WState → TranslationSegment → WState)
    (hupd : ∀ st seg, (upd st seg).calls = st.calls) :
    ∀ (L : List TranslationSegment) (st : WState) (done : Nat),
      (collectLoop cfg lo hi total ev upd st done L).calls = st.calls ++ L.map ev := by
  intro L
  induction L with
  | nil => intro st done; simp [collectLoop]
  | cons s rest ih =>
    intro st done
    simp only [collectLoop]
    rw [ih, hupd, emitTick_calls]
    simp

theorem collectLoop_saved (cfg : WorkflowCfg) (lo hi : PFrac) (total : Nat)
    (ev : TranslationSegment → CallEvent) (upd : WState → TranslationSegment → WState)
    (hupd : ∀ st seg, (upd st seg).saved = st.saved) :
    ∀ (L : List TranslationSegment) (st : WState) (done : Nat),
      (collectLoop cfg lo hi total ev upd st done L).saved = st.saved := by
  intro L
  induction L with
  | nil => intro st done; rfl
  | cons s rest ih =>
    intro st done
    simp only [collectLoop]
    rw [ih, hupd, emitTick_saved]

theorem collectLoop_rmap_notin (cfg : WorkflowCfg) (lo hi : PFrac) (total : Nat)
    (ev : TranslationSegment → CallEvent) (upd : WState → TranslationSegment → WState)
    (tid : String)
    (hupd : ∀ st seg, seg.id ≠ tid → (upd st seg).rmap tid = st.rmap tid) :
    ∀ (L : List TranslationSegment), (∀ s ∈ L, s.id ≠ tid) →
      ∀ (st : WState) (done : Nat),
        (collectLoop cfg lo hi total ev upd st done L).rmap tid = st.rmap tid := by
  intro L
  induction L with
  | nil => intro _ st done; rfl
  | cons s rest ih =>
    intro hL st done
    simp only [collectLoop]
    rw [ih (fun x hx => hL x (List.mem_cons_of_mem _ hx)),
      hupd _ _ (hL s (List.mem_cons_self _ _))]
    show (emitTick cfg st lo hi (done + 1) total).rmap tid = st.rmap tid
    rw [emitTick_rmap]

theorem collectLoop_cache_inv (cfg : WorkflowCfg) (lo hi : PFrac) (total : Nat)
    (ev : TranslationSegment → CallEvent) (upd : WState → TranslationSegment → WState)
    (P : List (String × String) → Prop) :
    ∀ (L : List TranslationSegment),
      (∀ st seg, seg ∈ L → P st.cache → P (upd st seg).cache) →
      ∀ (st : WState) (done : Nat), P st.cache →
        P (collectLoop cfg lo hi total ev upd st done L).cache := by
  intro L
  induction L with
  | nil => intro _ st done hP; exact hP
  | cons s rest ih =>
    intro hupd st done hP
    simp only [collectLoop]
    refine ih (fun st2 seg hseg => hupd st2 seg (List.mem_cons_of_mem _ hseg)) _ _ ?_
    refine hupd _ s (List.mem_cons_self _ _) ?_
    show P (emitTick cfg st lo hi (done + 1) total).cache
    rw [emitTick_cache]
    exact hP

theorem collectLoop_progress (cfg : WorkflowCfg) (lo hi : PFrac) (total : Nat)
    (ev : TranslationSegment → CallEvent) (upd : WState → TranslationSegment → WState)
    (hupd : ∀ st seg, (upd st seg).progress = st.progress) :
    ∀ (L : List TranslationSegment) (st : WState) (done : Nat),
      (collectLoop cfg lo hi total ev upd st done L).progress =
        st.progress ++ ticksFrom cfg lo hi total done L.length := by
  intro L
  induction L with
  | nil => intro st done; simp [collectLoop, ticksFrom]
  | cons s rest ih =>
    intro st done
    simp only [collectLoop]
    rw [ih, hupd]
    show (emitTick cfg st lo hi (done + 1) total).progress ++ _ = _
    rw [emitTick_progress]
    rw [List.append_assoc]
    congr 1
    unfold ticksFrom
    by_cases hcb : cfg.hasCallback = true
    · simp only [hcb, if_true, List.length_cons, List.range_succ_eq_map, List.map_cons,
        List.map_map, List.singleton_append, Nat.add_zero]
      congr 1
      apply List.map_congr_left
      intro i _
      show tickVal lo hi (done + 1 + 1 + i) total = tickVal lo hi (done + 1 + Nat.succ i) total
      have hidx : done + 1 + 1 + i = done + 1 + Nat.succ i := by omega
      rw [hidx]
    · simp only [Bool.not_eq_true] at hcb
      simp [hcb]

theorem collectLoop_append (cfg : WorkflowCfg) (lo hi : PFrac) (total : Nat)
    (ev : TranslationSegment → CallEvent) (upd : WState → TranslationSegment → WState)
    (L₁ L₂ : List TranslationSegment) :
    ∀ (st : WState) (done : Nat),
      collectLoop cfg lo hi total ev upd st done (L₁ ++ L₂) =
        collectLoop cfg lo hi total ev upd
          (collectLoop cfg lo hi total ev upd st done L₁) (done + L₁.length) L₂ := by
  induction L₁ with
  | nil => intro st done; simp [collectLoop]
  | cons a rest ih =>
    intro st done
    simp only [List.cons_append, collectLoop]
    have hlen : done + (a :: rest).length = done + 1 + rest.length := by
      simp only [List.length_cons]
      omega
    rw [show rest.append L₂ = rest ++ L₂ from rfl, hlen, ih]

theorem selectResult_translation_a (r : WorkflowResult) :
    (selectResult r).translation_a = r.translation_a := by
  simp only [selectResult]
  split
  · rfl
  · split <;> rfl

theorem stage5_append (L₁ L₂ : List TranslationSegment) :
    ∀ m, stage5 m (L₁ ++ L₂) =
      ((stage5 m L₁).1 ++ (stage5 (stage5 m L₁).2 L₂).1, (stage5 (stage5 m L₁).2 L₂).2) := by
  induction L₁ with
  | nil => intro m; simp [stage5]
  | cons a rest ih =>
    intro m
    simp only [List.cons_append, stage5]
    rw [show rest.append L₂ = rest ++ L₂ from rfl, ih]

theorem stage5_length (L : List TranslationSegment) :
    ∀ m, (stage5 m L).1.length = L.length := by
  induction L with
  | nil => intro m; rfl
  | cons a rest ih =>
    intro m
    simp only [stage5, List.length_cons]
    rw [ih]

theorem stage5_map_notin (L : List TranslationSegment) (tid : String)
    (h : ∀ s ∈ L, s.id ≠ tid) :
    ∀ m, (stage5 m L).2 tid = m tid := by
  induction L with
  | nil => intro m; rfl
  | cons a rest ih =>
    intro m
    simp only [stage5]
    rw [ih (fun x hx => h x (List.mem_cons_of_mem _ hx))]
    exact updAt_ne _ _ _ _ (Ne.symm (h a (List.mem_cons_self _ _)))

theorem exceptBind_ok {ε α β : Type} (x : Except ε α) (f : α → Except ε β) (b : β)
    (h : x >>= f = .ok b) : ∃ a, x = .ok a ∧ f a = .ok b := by
  cases x with
  | error e => exact Except.noConfusion h
  | ok a => exact ⟨a, rfl, h⟩

theorem translateUpd_calls (cfg : WorkflowCfg) (occ : Nat) (st : WState)
    (seg : TranslationSegment) : (translateUpd cfg occ st seg).calls = st.calls := by
  simp only [translateUpd]
  split
  · split <;> rfl
  · rfl

theorem translateUpd_saved (cfg : WorkflowCfg) (occ : Nat) (st : WState)
    (seg : TranslationSegment) : (translateUpd cfg occ st seg).saved = st.saved := by
  simp only [translateUpd]
  split
  · split <;> rfl
  · rfl

theorem translateUpd_progress (cfg : WorkflowCfg) (occ : Nat) (st : WState)
    (seg : TranslationSegment) : (translateUpd cfg occ st seg).progress = st.progress := by
  simp only [translateUpd]
  split
  · split <;> rfl
  · rfl

theorem translateUpd_rmap_ne (cfg : WorkflowCfg) (occ : Nat) (st : WState)
    (seg : TranslationSegment) (tid : String) (h : seg.id ≠ tid) :
    (translateUpd cfg occ st seg).rmap tid = st.rmap tid := by
  simp only [translateUpd]
  split
  next t ht =>
    have he : updAt st.rmap seg.id (fun r => { r with translation_a := t }) tid = st.rmap tid :=
      updAt_ne _ _ _ _ (Ne.symm h)
    split
    · exact he
    · exact he
  next => rfl

theorem eval1Upd_calls (cfg : WorkflowCfg) (st : WState) (seg : TranslationSegment) :
    (eval1Upd cfg st seg).calls = st.calls := by
  simp only [eval1Upd]
  split <;> rfl

theorem eval1Upd_saved (cfg : WorkflowCfg) (st : WState) (seg : TranslationSegment) :
    (eval1Upd cfg st seg).saved = st.saved := by
  simp only [eval1Upd]
  split <;> rfl

theorem eval1Upd_progress (cfg : WorkflowCfg) (st : WState) (seg : TranslationSegment) :
    (eval1Upd cfg st seg).progress = st.progress := by
  simp only [eval1Upd]
  split <;> rfl

theorem eval1Upd_cache (cfg : WorkflowCfg) (st : WState) (seg : TranslationSegment) :
    (eval1Upd cfg st seg).cache = st.cache := by
  simp only [eval1Upd]
  split <;> rfl

theorem eval1Upd_rmap_ne (cfg : WorkflowCfg) (st : WState) (seg : TranslationSegment)
    (tid : String) (h : seg.id ≠ tid) :
    (eval1Upd cfg st seg).rmap tid = st.rmap tid := by
  simp only [eval1Upd]
  split
  next raw hraw =>
    have he : updAt st.rmap seg.id
        (fun r => { r with eval_a := some (parse_evaluation raw) }) tid = st.rmap tid :=
      updAt_ne _ _ _ _ (Ne.symm h)
    exact he
  next => rfl

theorem optimizeUpd_calls (cfg : WorkflowCfg) (st : WState) (seg : TranslationSegment) :
    (optimizeUpd cfg st seg).calls = st.calls := by
  simp only [optimizeUpd]
  split <;> rfl

theorem optimizeUpd_saved (cfg : WorkflowCfg) (st : WState) (seg : TranslationSegment) :
    (optimizeUpd cfg st seg).saved = st.saved := by
  simp only [optimizeUpd]
  split <;> rfl

theorem optimizeUpd_progress (cfg : WorkflowCfg) (st : WState) (seg : TranslationSegment) :
    (optimizeUpd cfg st seg).progress = st.progress := by
  simp only [optimizeUpd]
  split <;> rfl

theorem optimizeUpd_cache (cfg : WorkflowCfg) (st : WState) (seg : TranslationSegment) :
    (optimizeUpd cfg st seg).cache = st.cache := by
  simp only [optimizeUpd]
  split <;> rfl

theorem optimizeUpd_rmap_ne (cfg : WorkflowCfg) (st : WState) (seg : TranslationSegment)
    (tid : String) (h : seg.id ≠ tid) :
    (optimizeUpd cfg st seg).rmap tid = st.rmap tid := by
  simp only [optimizeUpd]
  split
  next t ht =>
    have he : updAt st.rmap seg.id (fun r => { r with translation_c := t }) tid = st.rmap tid :=
      updAt_ne _ _ _ _ (Ne.symm h)
    exact he
  next => rfl

theorem comparativeUpd_calls (cfg : WorkflowCfg) (st : WState) (seg : TranslationSegment) :
    (comparativeUpd cfg st seg).calls = st.calls := by
  simp only [comparativeUpd]
  split <;> rfl

theorem comparativeUpd_saved (cfg : WorkflowCfg) (st : WState) (seg : TranslationSegment) :
    (comparativeUpd cfg st seg).saved = st.saved := by
  simp only [comparativeUpd]
  split <;> rfl

theorem comparativeUpd_progress (cfg : WorkflowCfg) (st : WState) (seg : TranslationSegment) :
    (comparativeUpd cfg st seg).progress = st.progress := by
  simp only [comparativeUpd]
  split <;> rfl

theorem comparativeUpd_cache (cfg : WorkflowCfg) (st : WState) (seg : TranslationSegment) :
    (comparativeUpd cfg st seg).cache = st.cache := by
  simp only [comparativeUpd]
  split <;> rfl

theorem comparativeUpd_rmap_ne (cfg : WorkflowCfg) (st : WState) (seg : TranslationSegment)
    (tid : String) (h : seg.id ≠ tid) :
    (comparativeUpd cfg st seg).rmap tid = st.rmap tid := by
  simp only [comparativeUpd]
  split
  next raw hraw =>
    have he : updAt st.rmap seg.id
        (fun r => { r with
              eval_a := some (parse_comparative raw).1,
              eval_c := some (parse_comparative raw).2 }) tid = st.rmap tid :=
      updAt_ne _ _ _ _ (Ne.symm h)
    exact he
  next => rfl

theorem foldl_initStep_notin :
    ∀ (l : List TranslationSegment) (m : String → WorkflowResult) (tid : String),
      (∀ s ∈ l, s.id ≠ tid) →
      (l.foldl (fun m seg => updAt m seg.id
        (fun _ => { segment_id := seg.id, original := seg.original_text })) m) tid = m tid := by
  intro l
  induction l with
  | nil => intro m tid _; rfl
  | cons a rest ih =>
    intro m tid h
    simp only [List.foldl_cons]
    rw [ih _ tid (fun s hs => h s (List.mem_cons_of_mem _ hs)),
      updAt_ne _ _ _ _ (Ne.symm (h a (List.mem_cons_self _ _)))]

theorem initMap_eq (l₁ l₂ : List TranslationSegment) (seg : TranslationSegment)
    (h : ∀ s ∈ l₂, s.id ≠ seg.id) :
    initMap (l₁ ++ seg :: l₂) seg.id =
      { segment_id := seg.id, original := seg.original_text } := by
  unfold initMap
  rw [List.foldl_append, List.foldl_cons, foldl_initStep_notin l₂ _ seg.id h, updAt_eq]

theorem calls_append_safe (tid : String) (old : List CallEvent)
    (L : List TranslationSegment) (ev : TranslationSegment → CallEvent)
    (hev : ∀ s, (ev s).segId = s.id)
    (hold : ∀ e ∈ old, e.segId ≠ tid) (hL : ∀ s ∈ L, s.id ≠ tid) :
    ∀ e ∈ old ++ L.map ev, e.segId ≠ tid := by
  intro e he
  rcases List.mem_append.mp he with h1 | h2
  · exact hold e h1
  · rcases List.mem_map.mp h2 with ⟨s, hs, he2⟩
    rw [← he2, hev s]
    exact hL s hs

theorem submitLoop_skip
    (dec : (String → WorkflowResult) → TranslationSegment →
      Option (WorkflowResult → WorkflowResult))
    (seg : TranslationSegment) (f : WorkflowResult → WorkflowResult) (v : WorkflowResult)
    (hdec : ∀ m : String → WorkflowResult, m seg.id = v → dec m seg = some f) :
    ∀ (l₁ : List TranslationSegment), (∀ s ∈ l₁, s.id ≠ seg.id) →
    ∀ (l₂ : List TranslationSegment), (∀ s ∈ l₂, s.id ≠ seg.id) →
    ∀ m : String → WorkflowResult, m seg.id = v →
      (submitLoop dec m (l₁ ++ seg :: l₂)).1 seg.id = f v ∧
      ∀ s ∈ (submitLoop dec m (l₁ ++ seg :: l₂)).2, s.id ≠ seg.id := by
  intro l₁
  induction l₁ with
  | nil =>
    intro _ l₂ hno2 m hm
    simp only [List.nil_append, submitLoop, hdec m hm]
    constructor
    · rw [submitLoop_map_notin dec l₂ seg.id hno2 (updAt m seg.id f), updAt_eq, hm]
    · intro s hs
      exact hno2 s (submitLoop_subs_subset dec l₂ (updAt m seg.id f) s hs)
  | cons a rest ih =>
    intro hno1 l₂ hno2 m hm
    have hane : a.id ≠ seg.id := hno1 a (List.mem_cons_self _ _)
    simp only [List.cons_append, submitLoop]
    cases hd : dec m a with
    | some g =>
      have hm2 : (updAt m a.id g) seg.id = v := by
        rw [updAt_ne _ _ _ _ (Ne.symm hane)]; exact hm
      exact ih (fun s hs => hno1 s (List.mem_cons_of_mem _ hs)) l₂ hno2 _ hm2
    | none =>
      obtain ⟨h1, h2⟩ := ih (fun s hs => hno1 s (List.mem_cons_of_mem _ hs)) l₂ hno2 m hm
      refine ⟨h1, ?_⟩
      intro s hs
      rcases List.mem_cons.mp hs with he | hmem
      · rw [he]; exact hane
      · exact h2 s hmem

theorem stage3Submit_subset (cfg : WorkflowCfg) :
    ∀ (L : List TranslationSegment) (m : String → WorkflowResult)
      (p : (String → WorkflowResult) × List TranslationSegment),
      stage3Submit cfg m L = .ok p → ∀ s ∈ p.2, s ∈ L := by
  intro L
  induction L with
  | nil =>
    intro m p h s hs
    injection h with h
    rw [← h] at hs
    simp at hs
  | cons a rest ih =>
    intro m p h s hs
    simp only [stage3Submit] at h
    split at h
    · exact List.mem_cons_of_mem _ (ih _ p h s hs)
    · split at h
      · exact List.mem_cons_of_mem _ (ih _ p h s hs)
      · split at h
        · exact Except.noConfusion h
        · split at h
          next q hq =>
            injection h with h
            rw [← h] at hs
            rcases List.mem_cons.mp hs with he | hmem
            · rw [he]; exact List.mem_cons_self _ _
            · exact List.mem_cons_of_mem _ (ih _ q hq s hmem)
          next e2 hq => exact Except.noConfusion h

theorem stage3Submit_notin (cfg : WorkflowCfg) (tid : String) :
    ∀ (L : List TranslationSegment), (∀ s ∈ L, s.id ≠ tid) →
    ∀ (m : String → WorkflowResult)
      (p : (String → WorkflowResult) × List TranslationSegment),
      stage3Submit cfg m L = .ok p → p.1 tid = m tid := by
  intro L
  induction L with
  | nil =>
    intro _ m p h
    injection h with h
    rw [← h]
  | cons a rest ih =>
    intro hL m p h
    have hane : a.id ≠ tid := hL a (List.mem_cons_self _ _)
    have hrest : ∀ s ∈ rest, s.id ≠ tid := fun s hs => hL s (List.mem_cons_of_mem _ hs)
    simp only [stage3Submit] at h
    split at h
    · rw [ih hrest _ p h, updAt_ne _ _ _ _ (Ne.symm hane)]
    · split at h
      · rw [ih hrest _ p h, updAt_ne _ _ _ _ (Ne.symm hane)]
      · split at h
        · exact Except.noConfusion h
        · split at h
          next q hq =>
            injection h with h
            rw [← h]
            exact ih hrest m q hq
          next e2 hq => exact Except.noConfusion h

theorem stage3Submit_skip (cfg : WorkflowCfg) (seg : TranslationSegment) :
    ∀ (l₁ : List TranslationSegment), (∀ s ∈ l₁, s.id ≠ seg.id) →
    ∀ (l₂ : List TranslationSegment), (∀ s ∈ l₂, s.id ≠ seg.id) →
    ∀ (m : String → WorkflowResult)
      (p : (String → WorkflowResult) × List TranslationSegment),
      stage3Submit cfg m (l₁ ++ seg :: l₂) = .ok p →
      (m seg.id).selected_model = "Skipped (Simple)" →
      p.1 seg.id = { m seg.id with translation_c := (m seg.id).translation_a } ∧
        ∀ s ∈ p.2, s.id ≠ seg.id := by
  intro l₁
  induction l₁ with
  | nil =>
    intro _ l₂ hno2 m p h hskip
    simp only [List.nil_append, stage3Submit] at h
    rw [if_pos hskip] at h
    constructor
    · rw [stage3Submit_notin cfg seg.id l₂ hno2 _ p h, updAt_eq]
    · intro s hs
      exact hno2 s (stage3Submit_subset cfg l₂ _ p h s hs)
  | cons a rest ih =>
    intro hno1 l₂ hno2 m p h hskip
    have hane : a.id ≠ seg.id := hno1 a (List.mem_cons_self _ _)
    have hrest : ∀ s ∈ rest, s.id ≠ seg.id := fun s hs => hno1 s (List.mem_cons_of_mem _ hs)
    simp only [List.cons_append, stage3Submit] at h
    have hkeep : ∀ (g : WorkflowResult → WorkflowResult),
        (updAt m a.id g) seg.id = m seg.id :=
      fun g => updAt_ne _ _ _ _ (Ne.symm hane)
    split at h
    · obtain ⟨h1, h2⟩ := ih hrest l₂ hno2 _ p h (by rw [hkeep]; exact hskip)
      rw [hkeep] at h1
      exact ⟨h1, h2⟩
    · split at h
      · obtain ⟨h1, h2⟩ := ih hrest l₂ hno2 _ p h (by rw [hkeep]; exact hskip)
        rw [hkeep] at h1
        exact ⟨h1, h2⟩
      · split at h
        · exact Except.noConfusion h
        · split at h
          next q hq =>
            injection h with h
            obtain ⟨h1, h2⟩ := ih hrest l₂ hno2 m q hq hskip
            rw [← h]
            refine ⟨h1, ?_⟩
            intro s hs
            rcases List.mem_cons.mp hs with he | hmem
            · rw [he]; exact hane
            · exact h2 s hmem
          next e2 hq => exact Except.noConfusion h

theorem exceptPure_ok {ε α : Type} (x b : α) (h : (pure x : Except ε α) = .ok b) : x = b := by
  injection h

theorem collect_stage_facts (cfg : WorkflowCfg) (lo hi : PFrac) (total : Nat)
    (ev : TranslationSegment → CallEvent) (upd : WState → TranslationSegment → WState)
    (tid : String)
    (hupdr : ∀ st s2, s2.id ≠ tid → (upd st s2).rmap tid = st.rmap tid)
    (hupdc : ∀ st s2, (upd st s2).calls = st.calls)
    (hev : ∀ s2, (ev s2).segId = s2.id)
    (L : List TranslationSegment) (hL : ∀ s2 ∈ L, s2.id ≠ tid)
    (st : WState) (done : Nat)
    (hcalls : ∀ e ∈ st.calls, e.segId ≠ tid) :
    (collectLoop cfg lo hi total ev upd st done L).rmap tid = st.rmap tid ∧
    ∀ e ∈ (collectLoop cfg lo hi total ev upd st done L).calls, e.segId ≠ tid := by
  constructor
  · exact collectLoop_rmap_notin cfg lo hi total ev upd tid hupdr L hL st done
  · rw [collectLoop_calls cfg lo hi total ev upd hupdc L st done]
    exact calls_append_safe tid st.calls L ev hev hcalls hL

/-- C3: for every segment whose original text the simplicity classifier
accepts, a successful `run` issues no language-model task for that segment,
and the result at the position of the segment carries the original text as
`translation_a`, `translation_c` and `final_translation`, the tag
`"Skipped (Simple)"` as `selected_model`, and the two all-ten marker
evaluations as `eval_a` and `eval_c`. -/
theorem c3_simple_segment_bypass
    (cfg : WorkflowCfg) (l₁ l₂ : List TranslationSegment) (seg : TranslationSegment)
    (out : List WorkflowResult × WState)
    (hnd : (cfg.segments.map TranslationSegment.id).Nodup)
    (hsegs : cfg.segments = l₁ ++ seg :: l₂)
    (hsimple : isSimpleSegment seg.original_text = true)
    (hrun : run cfg = .ok out) :
    out.1[l₁.length]? = some
      { segment_id := seg.id, original := seg.original_text,
        translation_a := seg.original_text, eval_a := some markerSimpleEval1,
        translation_c := seg.original_text, eval_c := some markerSimpleEval2,
        final_translation := seg.original_text,
        selected_model := "Skipped (Simple)" } ∧
    ∀ e ∈ out.2.calls, e.segId ≠ seg.id := by
  -- every other segment has a different id
  have hno12 : ∀ s, s ∈ l₁ ∨ s ∈ l₂ → s.id ≠ seg.id := by
    intro s hs he
    rw [hsegs, List.map_append, List.map_cons] at hnd
    rcases List.nodup_append.mp hnd with ⟨_, hB, hdisj⟩
    rcases hs with h1 | h2
    · exact hdisj (List.mem_map_of_mem _ h1) (by rw [he]; exact List.mem_cons_self _ _)
    · exact (List.nodup_cons.mp hB).1 (by rw [← he]; exact List.mem_map_of_mem _ h2)
  have hno1 : ∀ s ∈ l₁, s.id ≠ seg.id := fun s hs => hno12 s (Or.inl hs)
  have hno2 : ∀ s ∈ l₂, s.id ≠ seg.id := fun s hs => hno12 s (Or.inr hs)
  -- peel the run into its stages
  unfold run at hrun
  obtain ⟨st4, h4, hrun⟩ := exceptBind_ok _ _ _ hrun
  obtain ⟨st5, h5, hrun⟩ := exceptBind_ok _ _ _ hrun
  have hout := exceptPure_ok _ _ hrun
  unfold afterStage4 at h4
  obtain ⟨st3, h3, h4⟩ := exceptBind_ok _ _ _ h4
  obtain ⟨st3e, h3e, h4⟩ := exceptBind_ok _ _ _ h4
  have hst4 := exceptPure_ok _ _ h4
  unfold afterStage3 at h3
  obtain ⟨st2, h2, h3⟩ := exceptBind_ok _ _ _ h3
  obtain ⟨st2e, h2e, h3⟩ := exceptBind_ok _ _ _ h3
  obtain ⟨p3, hp3, h3⟩ := exceptBind_ok _ _ _ h3
  have hst3 := exceptPure_ok _ _ h3
  unfold afterStage2 at h2
  obtain ⟨st1r, h1r, h2⟩ := exceptBind_ok _ _ _ h2
  obtain ⟨st1e, h1e, h2⟩ := exceptBind_ok _ _ _ h2
  have hst2 := exceptPure_ok _ _ h2
  unfold afterRepair at h1r
  obtain ⟨stA, hA, h1r⟩ := exceptBind_ok _ _ _ h1r
  unfold afterStage1 at hA
  obtain ⟨s1e, hs1e, hA⟩ := exceptBind_ok _ _ _ hA
  have hstA := exceptPure_ok _ _ hA
  rw [hsegs] at hstA hst2 hst4 hp3 hout
  -- Stage 1: the simple segment is skipped with the bypass record
  obtain ⟨he1r, _, _, he1l, _⟩ := emitStart_ok _ _ _ _ _ _ hs1e
  have hm0 : s1e.rmap seg.id = { segment_id := seg.id, original := seg.original_text } := by
    have h9 : s1e.rmap = initMap cfg.segments := he1r
    rw [h9, hsegs]
    exact initMap_eq l₁ l₂ seg hno2
  have hdec1 : ∀ m : String → WorkflowResult,
      m seg.id = { segment_id := seg.id, original := seg.original_text } →
      stage1Dec cfg m seg = some (fun r =>
        { r with
            translation_a := seg.original_text,
            selected_model := "Skipped (Simple)" }) := by
    intro m _
    simp [stage1Dec, hsimple]
  have hsub1 := submitLoop_skip (stage1Dec cfg) seg
    (fun r => { r with
        translation_a := seg.original_text,
        selected_model := "Skipped (Simple)" })
    { segment_id := seg.id, original := seg.original_text }
    hdec1 l₁ hno1 l₂ hno2 s1e.rmap hm0
  have hc1e : ∀ e ∈ s1e.calls, e.segId ≠ seg.id := by
    have h9 : s1e.calls = [] := he1l
    rw [h9]
    intro e he
    simp at he
  have hA1 := collect_stage_facts cfg ⟨0, 1⟩ ⟨3, 10⟩ (l₁ ++ seg :: l₂).length
    (fun s => CallEvent.translateCall s.id 0) (translateUpd cfg 0) seg.id
    (fun st s2 hne => translateUpd_rmap_ne cfg 0 st s2 seg.id hne)
    (translateUpd_calls cfg 0) (fun _ => rfl)
    (submitLoop (stage1Dec cfg) s1e.rmap (l₁ ++ seg :: l₂)).2 hsub1.2
    { s1e with rmap := (submitLoop (stage1Dec cfg) s1e.rmap (l₁ ++ seg :: l₂)).1 } 0 hc1e
  have hstAr : stA.rmap seg.id =
      { segment_id := seg.id, original := seg.original_text,
        translation_a := seg.original_text, selected_model := "Skipped (Simple)" } := by
    rw [← hstA]
    show (collectLoop cfg ⟨0, 1⟩ ⟨3, 10⟩ (l₁ ++ seg :: l₂).length
        (fun s => CallEvent.translateCall s.id 0) (translateUpd cfg 0)
        { s1e with rmap := (submitLoop (stage1Dec cfg) s1e.rmap (l₁ ++ seg :: l₂)).1 } 0
        (submitLoop (stage1Dec cfg) s1e.rmap (l₁ ++ seg :: l₂)).2).rmap seg.id = _
    rw [hA1.1]
    exact hsub1.1
  have hstAc : ∀ e ∈ stA.calls, e.segId ≠ seg.id := by
    rw [← hstA]
    show ∀ e ∈ (collectLoop cfg ⟨0, 1⟩ ⟨3, 10⟩ (l₁ ++ seg :: l₂).length
        (fun s => CallEvent.translateCall s.id 0) (translateUpd cfg 0)
        { s1e with rmap := (submitLoop (stage1Dec cfg) s1e.rmap (l₁ ++ seg :: l₂)).1 } 0
        (submitLoop (stage1Dec cfg) s1e.rmap (l₁ ++ seg :: l₂)).2).calls, e.segId ≠ seg.id
    exact hA1.2
  -- the Repair sub-stage never touches the simple segment
  have hfailno : ∀ s2 ∈ failedSegments cfg stA, s2.id ≠ seg.id := by
    intro s2 hs2 he
    have hp := List.of_mem_filter hs2
    have hp2 : ((!((stA.rmap s2.id).selected_model == "Skipped (Simple)")) &&
        (pyStrip (stA.rmap s2.id).translation_a == pyStrip s2.original_text)) = true := hp
    rw [he, hstAr] at hp2
    simp at hp2
  have hR : st1r.rmap seg.id =
      { segment_id := seg.id, original := seg.original_text,
        translation_a := seg.original_text, selected_model := "Skipped (Simple)" } ∧
      ∀ e ∈ st1r.calls, e.segId ≠ seg.id := by
    by_cases hfe : (failedSegments cfg stA).isEmpty = true
    · rw [if_pos hfe] at h1r
      have h9 := exceptPure_ok _ _ h1r
      rw [← h9]
      exact ⟨hstAr, hstAc⟩
    · rw [if_neg hfe] at h1r
      obtain ⟨stE, hEs, h1r⟩ := exceptBind_ok _ _ _ h1r
      have hst1r := exceptPure_ok _ _ h1r
      obtain ⟨heEr, _, _, heEl, _⟩ := emitStart_ok _ _ _ _ _ _ hEs
      have hcE : ∀ e ∈ stE.calls, e.segId ≠ seg.id := by
        rw [heEl]
        exact hstAc
      have hAE := collect_stage_facts cfg ⟨3, 10⟩ ⟨7, 20⟩ (failedSegments cfg stA).length
        (fun s => CallEvent.translateCall s.id 1) (translateUpd cfg 1) seg.id
        (fun st s2 hne => translateUpd_rmap_ne cfg 1 st s2 seg.id hne)
        (translateUpd_calls cfg 1) (fun _ => rfl)
        (failedSegments cfg stA) hfailno stE 0 hcE
      constructor
      · rw [← hst1r]
        show (collectLoop cfg ⟨3, 10⟩ ⟨7, 20⟩ (failedSegments cfg stA).length
            (fun s => CallEvent.translateCall s.id 1) (translateUpd cfg 1) stE 0
            (failedSegments cfg stA)).rmap seg.id = _
        rw [hAE.1, heEr]
        exact hstAr
      · rw [← hst1r]
        show ∀ e ∈ (collectLoop cfg ⟨3, 10⟩ ⟨7, 20⟩ (failedSegments cfg stA).length
            (fun s => CallEvent.translateCall s.id 1) (translateUpd cfg 1) stE 0
            (failedSegments cfg stA)).calls, e.segId ≠ seg.id
        exact hAE.2
  -- Stage 2: the marker evaluation is attached without a task
  obtain ⟨he2r, _, _, he2l, _⟩ := emitStart_ok _ _ _ _ _ _ h1e
  have hm2 : st1e.rmap seg.id =
      { segment_id := seg.id, original := seg.original_text,
        translation_a := seg.original_text, selected_model := "Skipped (Simple)" } := by
    rw [he2r]
    exact hR.1
  have hdec2 : ∀ m : String → WorkflowResult,
      m seg.id =
        { segment_id := seg.id, original := seg.original_text,
          translation_a := seg.original_text, selected_model := "Skipped (Simple)" } →
      stage2Dec cfg m seg = some (fun r => { r with eval_a := some markerSimpleEval1 }) := by
    intro m hm
    simp [stage2Dec, hm]
  have hsub2 := submitLoop_skip (stage2Dec cfg) seg
    (fun r => { r with eval_a := some markerSimpleEval1 })
    { segment_id := seg.id, original := seg.original_text,
      translation_a := seg.original_text, selected_model := "Skipped (Simple)" }
    hdec2 l₁ hno1 l₂ hno2 st1e.rmap hm2
  have hc2e : ∀ e ∈ st1e.calls, e.segId ≠ seg.id := by
    rw [he2l]
    exact hR.2
  have hA2 := collect_stage_facts cfg ⟨7, 20⟩ ⟨11, 20⟩ cfg.segments.length
    (fun s => CallEvent.evaluateCall s.id) (eval1Upd cfg) seg.id
    (fun st s2 hne => eval1Upd_rmap_ne cfg st s2 seg.id hne)
    (eval1Upd_calls cfg) (fun _ => rfl)
    (submitLoop (stage2Dec cfg) st1e.rmap (l₁ ++ seg :: l₂)).2 hsub2.2
    { st1e with rmap := (submitLoop (stage2Dec cfg) st1e.rmap (l₁ ++ seg :: l₂)).1 } 0 hc2e
  have hst2r : st2.rmap seg.id =
      { segment_id := seg.id, original := seg.original_text,
        translation_a := seg.original_text, eval_a := some markerSimpleEval1,
        selected_model := "Skipped (Simple)" } := by
    rw [← hst2]
    show (collectLoop cfg ⟨7, 20⟩ ⟨11, 20⟩ cfg.segments.length
        (fun s => CallEvent.evaluateCall s.id) (eval1Upd cfg)
        { st1e with rmap := (submitLoop (stage2Dec cfg) st1e.rmap (l₁ ++ seg :: l₂)).1 } 0
        (submitLoop (stage2Dec cfg) st1e.rmap (l₁ ++ seg :: l₂)).2).rmap seg.id = _
    rw [hA2.1]
    exact hsub2.1
  have hst2c : ∀ e ∈ st2.calls, e.segId ≠ seg.id := by
    rw [← hst2]
    show ∀ e ∈ (collectLoop cfg ⟨7, 20⟩ ⟨11, 20⟩ cfg.segments.length
        (fun s => CallEvent.evaluateCall s.id) (eval1Upd cfg)
        { st1e with rmap := (submitLoop (stage2Dec cfg) st1e.rmap (l₁ ++ seg :: l₂)).1 } 0
        (submitLoop (stage2Dec cfg) st1e.rmap (l₁ ++ seg :: l₂)).2).calls, e.segId ≠ seg.id
    exact hA2.2
  -- Stage 3: the optimization is skipped, copying the translation
  obtain ⟨he3r, _, _, he3l, _⟩ := emitStart_ok _ _ _ _ _ _ h2e
  have hm3 : st2e.rmap seg.id =
      { segment_id := seg.id, original := seg.original_text,
        translation_a := seg.original_text, eval_a := some markerSimpleEval1,
        selected_model := "Skipped (Simple)" } := by
    rw [he3r]
    exact hst2r
  have hsk3 := stage3Submit_skip cfg seg l₁ hno1 l₂ hno2 st2e.rmap p3 hp3
    (by rw [hm3])
  have hp3v : p3.1 seg.id =
      { segment_id := seg.id, original := seg.original_text,
        translation_a := seg.original_text, eval_a := some markerSimpleEval1,
        translation_c := seg.original_text, selected_model := "Skipped (Simple)" } := by
    rw [hsk3.1, hm3]
  have hc3e : ∀ e ∈ st2e.calls, e.segId ≠ seg.id := by
    rw [he3l]
    exact hst2c
  have hA3 := collect_stage_facts cfg ⟨11, 20⟩ ⟨3, 4⟩ cfg.segments.length
    (fun s => CallEvent.optimizeCall s.id) (optimizeUpd cfg) seg.id
    (fun st s2 hne => optimizeUpd_rmap_ne cfg st s2 seg.id hne)
    (optimizeUpd_calls cfg) (fun _ => rfl)
    p3.2 hsk3.2 { st2e with rmap := p3.1 } 0 hc3e
  have hst3r : st3.rmap seg.id =
      { segment_id := seg.id, original := seg.original_text,
        translation_a := seg.original_text, eval_a := some markerSimpleEval1,
        translation_c := seg.original_text, selected_model := "Skipped (Simple)" } := by
    rw [← hst3]
    show (collectLoop cfg ⟨11, 20⟩ ⟨3, 4⟩ cfg.segments.length
        (fun s => CallEvent.optimizeCall s.id) (optimizeUpd cfg)
        { st2e with rmap := p3.1 } 0 p3.2).rmap seg.id = _
    rw [hA3.1]
    exact hp3v
  have hst3c : ∀ e ∈ st3.calls, e.segId ≠ seg.id := by
    rw [← hst3]
    show ∀ e ∈ (collectLoop cfg ⟨11, 20⟩ ⟨3, 4⟩ cfg.segments.length
        (fun s => CallEvent.optimizeCall s.id) (optimizeUpd cfg)
        { st2e with rmap := p3.1 } 0 p3.2).calls, e.segId ≠ seg.id
    exact hA3.2
  -- Stage 4: the second marker evaluation is attached without a task
  obtain ⟨he4r, _, _, he4l, _⟩ := emitStart_ok _ _ _ _ _ _ h3e
  have hm4 : st3e.rmap seg.id =
      { segment_id := seg.id, original := seg.original_text,
        translation_a := seg.original_text, eval_a := some markerSimpleEval1,
        translation_c := seg.original_text, selected_model := "Skipped (Simple)" } := by
    rw [he4r]
    exact hst3r
  have hdec4 : ∀ m : String → WorkflowResult,
      m seg.id =
        { segment_id := seg.id, original := seg.original_text,
          translation_a := seg.original_text, eval_a := some markerSimpleEval1,
          translation_c := seg.original_text, selected_model := "Skipped (Simple)" } →
      stage4Dec cfg m seg = some (fun r => { r with eval_c := some markerSimpleEval2 }) := by
    intro m hm
    simp [stage4Dec, hm]
  have hsub4 := submitLoop_skip (stage4Dec cfg) seg
    (fun r => { r with eval_c := some markerSimpleEval2 })
    { segment_id := seg.id, original := seg.original_text,
      translation_a := seg.original_text, eval_a := some markerSimpleEval1,
      translation_c := seg.original_text, selected_model := "Skipped (Simple)" }
    hdec4 l₁ hno1 l₂ hno2 st3e.rmap hm4
  have hc4e : ∀ e ∈ st3e.calls, e.segId ≠ seg.id := by
    rw [he4l]
    exact hst3c
  have hA4 := collect_stage_facts cfg ⟨3, 4⟩ ⟨19, 20⟩ cfg.segments.length
    (fun s => CallEvent.comparativeCall s.id) (comparativeUpd cfg) seg.id
    (fun st s2 hne => comparativeUpd_rmap_ne cfg st s2 seg.id hne)
    (comparativeUpd_calls cfg) (fun _ => rfl)
    (submitLoop (stage4Dec cfg) st3e.rmap (l₁ ++ seg :: l₂)).2 hsub4.2
    { st3e with rmap := (submitLoop (stage4Dec cfg) st3e.rmap (l₁ ++ seg :: l₂)).1 } 0 hc4e
  have hst4r : st4.rmap seg.id =
      { segment_id := seg.id, original := seg.original_text,
        translation_a := seg.original_text, eval_a := some markerSimpleEval1,
        translation_c := seg.original_text, eval_c := some markerSimpleEval2,
        selected_model := "Skipped (Simple)" } := by
    rw [← hst4]
    show (collectLoop cfg ⟨3, 4⟩ ⟨19, 20⟩ cfg.segments.length
        (fun s => CallEvent.comparativeCall s.id) (comparativeUpd cfg)
        { st3e with rmap := (submitLoop (stage4Dec cfg) st3e.rmap (l₁ ++ seg :: l₂)).1 } 0
        (submitLoop (stage4Dec cfg) st3e.rmap (l₁ ++ seg :: l₂)).2).rmap seg.id = _
    rw [hA4.1]
    exact hsub4.1
  have hst4c : ∀ e ∈ st4.calls, e.segId ≠ seg.id := by
    rw [← hst4]
    show ∀ e ∈ (collectLoop cfg ⟨3, 4⟩ ⟨19, 20⟩ cfg.segments.length
        (fun s => CallEvent.comparativeCall s.id) (comparativeUpd cfg)
        { st3e with rmap := (submitLoop (stage4Dec cfg) st3e.rmap (l₁ ++ seg :: l₂)).1 } 0
        (submitLoop (stage4Dec cfg) st3e.rmap (l₁ ++ seg :: l₂)).2).calls, e.segId ≠ seg.id
    exact hA4.2
  -- Stage 5 and the final result
  obtain ⟨he5r, _, _, he5l, _⟩ := emitStart_ok _ _ _ _ _ _ h5
  have hm5 : st5.rmap seg.id =
      { segment_id := seg.id, original := seg.original_text,
        translation_a := seg.original_text, eval_a := some markerSimpleEval1,
        translation_c := seg.original_text, eval_c := some markerSimpleEval2,
        selected_model := "Skipped (Simple)" } := by
    rw [he5r]
    exact hst4r
  constructor
  · rw [← hout]
    show ((stage5 st5.rmap (l₁ ++ seg :: l₂)).1)[l₁.length]? = _
    rw [stage5_append l₁ (seg :: l₂) st5.rmap]
    show ((stage5 st5.rmap l₁).1 ++
        (stage5 (stage5 st5.rmap l₁).2 (seg :: l₂)).1)[l₁.length]? = _
    rw [List.getElem?_append_right (le_of_eq (stage5_length l₁ st5.rmap)),
      stage5_length l₁ st5.rmap, Nat.sub_self]
    have hm1 : (stage5 st5.rmap l₁).2 seg.id =
        { segment_id := seg.id, original := seg.original_text,
          translation_a := seg.original_text, eval_a := some markerSimpleEval1,
          translation_c := seg.original_text, eval_c := some markerSimpleEval2,
          selected_model := "Skipped (Simple)" } := by
      rw [stage5_map_notin l₁ seg.id hno1 st5.rmap]
      exact hm5
    show (selectResult ((stage5 st5.rmap l₁).2 seg.id) ::
        (stage5 (updAt (stage5 st5.rmap l₁).2 seg.id
          (fun _ => selectResult ((stage5 st5.rmap l₁).2 seg.id))) l₂).1)[(0 : Nat)]? = _
    rw [List.getElem?_cons_zero, hm1]
    rfl
  · rw [← hout]
    show ∀ e ∈ st5.calls, e.segId ≠ seg.id
    rw [he5l]
    exact hst4c

/-- Witness for the simple-segment bypass at the one-segment
configuration `c3Cfg`, whose segment text `"42"` is simple. -/
theorem c3_simple_segment_bypass_witness :
    ((c3Cfg.segments.map TranslationSegment.id).Nodup ∧
      c3Cfg.segments = [] ++ ({ id := "p_0", original_text := "42" } : TranslationSegment) :: [] ∧
      isSimpleSegment "42" = true ∧
      run c3Cfg = .ok c3Out) ∧
    (c3Out.1[(0 : Nat)]? = some
        { segment_id := "p_0", original := "42", translation_a := "42",
          eval_a := some markerSimpleEval1, translation_c := "42",
          eval_c := some markerSimpleEval2, final_translation := "42",
          selected_model := "Skipped (Simple)" } ∧
      ∀ e ∈ c3Out.2.calls, e.segId ≠ "p_0") :=
  ⟨⟨by decide, rfl, by decide, rfl⟩,
    c3_simple_segment_bypass c3Cfg [] [] { id := "p_0", original_text := "42" } c3Out
      (by decide) rfl (by decide) rfl⟩

/-! ### Cache and call-count lemmas for the repair claim -/

theorem find_cons_pos (k : String) (p : String × String) (rest : List (String × String))
    (h3 : (p.1 == k) = true) :
    List.find? (fun q => q.1 == k) (p :: rest) = some p := by
  have h4 : (fun q : String × String => q.1 == k) p = true := h3
  exact List.find?_cons_of_pos rest h4

theorem find_cons_neg (k : String) (p : String × String) (rest : List (String × String))
    (h3 : (p.1 == k) = false) :
    List.find? (fun q => q.1 == k) (p :: rest) = List.find? (fun q => q.1 == k) rest := by
  have h4 : ¬ (fun q : String × String => q.1 == k) p = true := by simp [h3]
  exact List.find?_cons_of_neg rest h4

theorem find_map_replace (c : List (String × String)) (k2 v k : String) (h : k2 ≠ k) :
    (c.map (fun p => if p.1 == k2 then (k2, v) else p)).find? (fun p => p.1 == k) =
      c.find? (fun p => p.1 == k) := by
  induction c with
  | nil => rfl
  | cons p rest ih =>
    simp only [List.map_cons]
    by_cases h2 : (p.1 == k2) = true
    · rw [if_pos h2]
      have hpk : (p.1 == k) = false := by
        have h3 : p.1 = k2 := by simpa using h2
        simp [h3, h]
      rw [find_cons_neg k (k2, v) _ (by simp [h]), find_cons_neg k p rest hpk, ih]
    · rw [if_neg h2]
      by_cases h3 : (p.1 == k) = true
      · rw [find_cons_pos k p _ h3, find_cons_pos k p rest h3]
      · have h3f : (p.1 == k) = false := by simpa using h3
        rw [find_cons_neg k p _ h3f, find_cons_neg k p rest h3f, ih]

theorem find_append_key (c : List (String × String)) (k2 v k : String) (h : k2 ≠ k) :
    (c ++ [(k2, v)]).find? (fun p => p.1 == k) = c.find? (fun p => p.1 == k) := by
  induction c with
  | nil =>
    simp only [List.nil_append]
    rw [find_cons_neg k (k2, v) [] (by simp [h])]
  | cons p rest ih =>
    by_cases h3 : (p.1 == k) = true
    · rw [List.cons_append, find_cons_pos k p _ h3, find_cons_pos k p rest h3]
    · have h3f : (p.1 == k) = false := by simpa using h3
      rw [List.cons_append, find_cons_neg k p _ h3f, find_cons_neg k p rest h3f, ih]

theorem getCache_setCache_ne (c : List (String × String)) (k2 v k : String) (h : k2 ≠ k) :
    getCache (setCache c k2 v) k = getCache c k := by
  unfold setCache getCache
  split
  · rw [find_map_replace c k2 v k h]
  · rw [find_append_key c k2 v k h]

theorem find_map_replace_any (c : List (String × String)) (k v : String)
    (hany : c.any (fun p => p.1 == k) = true) :
    (c.map (fun p => if p.1 == k then (k, v) else p)).find? (fun p => p.1 == k) =
      some (k, v) := by
  induction c with
  | nil => simp at hany
  | cons p rest ih =>
    simp only [List.map_cons]
    by_cases h2 : (p.1 == k) = true
    · rw [if_pos h2, find_cons_pos k (k, v) _ (by simp)]
    · have h2f : (p.1 == k) = false := by simpa using h2
      rw [if_neg h2, find_cons_neg k p _ h2f]
      apply ih
      simp only [List.any_cons, h2f, Bool.false_or] at hany
      exact hany

theorem find_append_single (c : List (String × String)) (k v : String)
    (hnone : c.any (fun p => p.1 == k) = false) :
    (c ++ [(k, v)]).find? (fun p => p.1 == k) = some (k, v) := by
  induction c with
  | nil =>
    simp only [List.nil_append]
    rw [find_cons_pos k (k, v) [] (by simp)]
  | cons p rest ih =>
    simp only [List.any_cons, Bool.or_eq_false_iff] at hnone
    rw [List.cons_append, find_cons_neg k p _ hnone.1]
    exact ih hnone.2

theorem getCache_setCache_eq (c : List (String × String)) (k v : String) :
    getCache (setCache c k v) k = some v := by
  unfold setCache getCache
  split
  next hany =>
    rw [find_map_replace_any c k v hany]
    rfl
  next hany =>
    rw [find_append_single c k v (Bool.eq_false_iff.mpr hany)]
    rfl

theorem cache_key_ne (cfg : WorkflowCfg) (s1 s2 : TranslationSegment)
    (h : s1.original_text ≠ s2.original_text) : cache_key cfg s1 ≠ cache_key cfg s2 := by
  intro he
  apply h
  unfold cache_key at he
  have hd := congrArg String.data he
  simp only [String.data_append, List.append_assoc] at hd
  exact String.ext (List.append_cancel_right hd)

theorem translateUpd_rmap_eq (cfg : WorkflowCfg) (occ : Nat) (st : WState)
    (seg : TranslationSegment) (t : String)
    (h : translate_task cfg seg occ = some t) :
    (translateUpd cfg occ st seg).rmap seg.id =
      { st.rmap seg.id with translation_a := t } := by
  simp only [translateUpd, h]
  split
  · exact updAt_eq st.rmap seg.id (fun r => { r with translation_a := t })
  · exact updAt_eq st.rmap seg.id (fun r => { r with translation_a := t })

theorem translateUpd_cache_eq (cfg : WorkflowCfg) (occ : Nat) (st : WState)
    (seg : TranslationSegment) (t : String)
    (h : translate_task cfg seg occ = some t)
    (hdiff : pyStrip t ≠ pyStrip seg.original_text) :
    (translateUpd cfg occ st seg).cache = setCache st.cache (cache_key cfg seg) t := by
  simp only [translateUpd, h]
  rw [if_pos hdiff]

theorem translateUpd_cache_inv (cfg : WorkflowCfg) (occ : Nat) (st : WState)
    (s2 : TranslationSegment) (key v : String)
    (hk : cache_key cfg s2 ≠ key)
    (hc : getCache st.cache key = some v) :
    getCache (translateUpd cfg occ st s2).cache key = some v := by
  simp only [translateUpd]
  split
  next t2 ht2 =>
    split
    · show getCache (setCache st.cache (cache_key cfg s2) t2) key = some v
      rw [getCache_setCache_ne st.cache (cache_key cfg s2) t2 key hk]
      exact hc
    · exact hc
  next => exact hc

theorem count_calls_collect (cfg : WorkflowCfg) (lo hi : PFrac) (total : Nat)
    (ev : TranslationSegment → CallEvent) (upd : WState → TranslationSegment → WState)
    (hupdc : ∀ st s2, (upd st s2).calls = st.calls)
    (e : CallEvent) (hev : ∀ s2, ev s2 ≠ e)
    (L : List TranslationSegment) (st : WState) (done : Nat) :
    ((collectLoop cfg lo hi total ev upd st done L).calls).count e = st.calls.count e := by
  rw [collectLoop_calls cfg lo hi total ev upd hupdc L st done, List.count_append]
  have h0 : (L.map ev).count e = 0 := List.count_eq_zero.mpr (by
    intro hmem
    rcases List.mem_map.mp hmem with ⟨s2, _, he2⟩
    exact hev s2 he2)
  rw [h0]
  omega

theorem collectLoop_cons_eq (cfg : WorkflowCfg) (lo hi : PFrac) (total : Nat)
    (ev : TranslationSegment → CallEvent) (upd : WState → TranslationSegment → WState)
    (st : WState) (done : Nat) (s : TranslationSegment) (rest : List TranslationSegment) :
    collectLoop cfg lo hi total ev upd st done (s :: rest) =
      collectLoop cfg lo hi total ev upd
        (upd { emitTick cfg st lo hi (done + 1) total with
            calls := (emitTick cfg st lo hi (done + 1) total).calls ++ [ev s] } s)
        (done + 1) rest := rfl

/-- C7: a segment that was not skipped as simple and whose stored
translation strips to its original text after the Translate stage is
resubmitted exactly once to the translate task; when the retry returns,
its text overwrites `translation_a`, a retry text that differs from the
original is readable from the cache under the key of the segment, and the
cache is snapshotted a second time after the sub-stage (segment texts are
assumed distinct so no concurrent repair shares a cache key). -/
theorem c7_repair_trigger
    (cfg : WorkflowCfg) (l₁ l₂ : List TranslationSegment) (seg : TranslationSegment)
    (stA : WState) (t : String) (out : List WorkflowResult × WState)
    (hnd : (cfg.segments.map TranslationSegment.id).Nodup)
    (hnt : (cfg.segments.map TranslationSegment.original_text).Nodup)
    (hsegs : cfg.segments = l₁ ++ seg :: l₂)
    (hstA : afterStage1 cfg = .ok stA)
    (hnotskip : (stA.rmap seg.id).selected_model ≠ "Skipped (Simple)")
    (heqA : pyStrip (stA.rmap seg.id).translation_a = pyStrip seg.original_text)
    (htask : translate_task cfg seg 1 = some t)
    (hrun : run cfg = .ok out) :
    (out.2.calls.count (CallEvent.translateCall seg.id 1)) = 1 ∧
    ∃ stR, afterRepair cfg = .ok stR ∧
      (stR.rmap seg.id).translation_a = t ∧
      stR.saved = stA.saved ++ [stR.cache] ∧
      (pyStrip t ≠ pyStrip seg.original_text →
        getCache stR.cache (cache_key cfg seg) = some t) := by
  have hno12 : ∀ s, s ∈ l₁ ∨ s ∈ l₂ → s.id ≠ seg.id := by
    intro s hs he
    rw [hsegs, List.map_append, List.map_cons] at hnd
    rcases List.nodup_append.mp hnd with ⟨_, hB, hdisj⟩
    rcases hs with h1 | h2
    · exact hdisj (List.mem_map_of_mem _ h1) (by rw [he]; exact List.mem_cons_self _ _)
    · exact (List.nodup_cons.mp hB).1 (by rw [← he]; exact List.mem_map_of_mem _ h2)
  have ht12 : ∀ s, s ∈ l₁ ∨ s ∈ l₂ → s.original_text ≠ seg.original_text := by
    intro s hs he
    rw [hsegs, List.map_append, List.map_cons] at hnt
    rcases List.nodup_append.mp hnt with ⟨_, hB, hdisj⟩
    rcases hs with h1 | h2
    · exact hdisj (List.mem_map_of_mem _ h1) (by rw [he]; exact List.mem_cons_self _ _)
    · exact (List.nodup_cons.mp hB).1 (by rw [← he]; exact List.mem_map_of_mem _ h2)
  -- the segment is in the failed list, which is therefore nonempty
  have hsegmem : seg ∈ cfg.segments := by
    rw [hsegs]
    exact List.mem_append_right _ (List.mem_cons_self _ _)
  have hPseg : (fun s : TranslationSegment =>
      (!((stA.rmap s.id).selected_model == "Skipped (Simple)")) &&
        (pyStrip (stA.rmap s.id).translation_a == pyStrip s.original_text)) seg = true := by
    show ((!((stA.rmap seg.id).selected_model == "Skipped (Simple)")) &&
      (pyStrip (stA.rmap seg.id).translation_a == pyStrip seg.original_text)) = true
    rw [Bool.and_eq_true]
    constructor
    · simp [hnotskip]
    · simp [heqA]
  have hsegfail : seg ∈ failedSegments cfg stA := by
    unfold failedSegments
    exact List.mem_filter.mpr ⟨hsegmem, hPseg⟩
  have hfe : (failedSegments cfg stA).isEmpty = false := by
    cases hh : failedSegments cfg stA with
    | nil => rw [hh] at hsegfail; simp at hsegfail
    | cons a l => rfl
  have hfsplit : failedSegments cfg stA =
      l₁.filter (fun s => (!((stA.rmap s.id).selected_model == "Skipped (Simple)")) &&
        (pyStrip (stA.rmap s.id).translation_a == pyStrip s.original_text)) ++
      seg :: l₂.filter (fun s => (!((stA.rmap s.id).selected_model == "Skipped (Simple)")) &&
        (pyStrip (stA.rmap s.id).translation_a == pyStrip s.original_text)) := by
    unfold failedSegments
    rw [hsegs, List.filter_append]
    congr 1
    have hPseg2 : ((!((stA.rmap seg.id).selected_model == "Skipped (Simple)")) &&
        (pyStrip (stA.rmap seg.id).translation_a == pyStrip seg.original_text)) = true := hPseg
    simp only [List.filter_cons, hPseg2, if_true]
  have hF1ne : ∀ s2 ∈ l₁.filter (fun s =>
      (!((stA.rmap s.id).selected_model == "Skipped (Simple)")) &&
        (pyStrip (stA.rmap s.id).translation_a == pyStrip s.original_text)),
      s2.id ≠ seg.id :=
    fun s2 hs2 => hno12 s2 (Or.inl (List.mem_of_mem_filter hs2))
  have hF2ne : ∀ s2 ∈ l₂.filter (fun s =>
      (!((stA.rmap s.id).selected_model == "Skipped (Simple)")) &&
        (pyStrip (stA.rmap s.id).translation_a == pyStrip s.original_text)),
      s2.id ≠ seg.id :=
    fun s2 hs2 => hno12 s2 (Or.inr (List.mem_of_mem_filter hs2))
  have hF2key : ∀ s2 ∈ l₂.filter (fun s =>
      (!((stA.rmap s.id).selected_model == "Skipped (Simple)")) &&
        (pyStrip (stA.rmap s.id).translation_a == pyStrip s.original_text)),
      cache_key cfg s2 ≠ cache_key cfg seg :=
    fun s2 hs2 => cache_key_ne cfg s2 seg (ht12 s2 (Or.inr (List.mem_of_mem_filter hs2)))
  -- peel the run
  unfold run at hrun
  obtain ⟨st4, h4, hrun⟩ := exceptBind_ok _ _ _ hrun
  obtain ⟨st5, h5, hrun⟩ := exceptBind_ok _ _ _ hrun
  have hout := exceptPure_ok _ _ hrun
  unfold afterStage4 at h4
  obtain ⟨st3, h3, h4⟩ := exceptBind_ok _ _ _ h4
  obtain ⟨st3e, h3e, h4⟩ := exceptBind_ok _ _ _ h4
  have hst4 := exceptPure_ok _ _ h4
  unfold afterStage3 at h3
  obtain ⟨st2, h2, h3⟩ := exceptBind_ok _ _ _ h3
  obtain ⟨st2e, h2e, h3⟩ := exceptBind_ok _ _ _ h3
  obtain ⟨p3, hp3, h3⟩ := exceptBind_ok _ _ _ h3
  have hst3 := exceptPure_ok _ _ h3
  unfold afterStage2 at h2
  obtain ⟨st1r, h1r, h2⟩ := exceptBind_ok _ _ _ h2
  obtain ⟨st1e, h1e, h2⟩ := exceptBind_ok _ _ _ h2
  have hst2 := exceptPure_ok _ _ h2
  rw [hsegs] at hst2 hst4
  -- anatomy of the repair sub-stage
  have h1rc := h1r
  unfold afterRepair at h1rc
  obtain ⟨stA2, hA2, h1rc⟩ := exceptBind_ok _ _ _ h1rc
  rw [hstA] at hA2
  have hA2e : stA = stA2 := by injection hA2
  subst hA2e
  rw [if_neg (by rw [hfe]; exact Bool.false_ne_true)] at h1rc
  obtain ⟨stE, hEs, h1rc⟩ := exceptBind_ok _ _ _ h1rc
  have hstR := exceptPure_ok _ _ h1rc
  obtain ⟨heEr, heEc, heEs2, heEl, _⟩ := emitStart_ok _ _ _ _ _ _ hEs
  -- anatomy of the Translate stage: the calls logged so far
  have hstAcopy := hstA
  unfold afterStage1 at hstAcopy
  obtain ⟨s1e, hs1e, hAx⟩ := exceptBind_ok _ _ _ hstAcopy
  have hstAeq := exceptPure_ok _ _ hAx
  rw [hsegs] at hstAeq
  obtain ⟨_, _, _, he1l, _⟩ := emitStart_ok _ _ _ _ _ _ hs1e
  have hstAcalls : stA.calls = List.map (fun s => CallEvent.translateCall s.id 0)
      (submitLoop (stage1Dec cfg) s1e.rmap (l₁ ++ seg :: l₂)).2 := by
    rw [← hstAeq]
    show (collectLoop cfg ⟨0, 1⟩ ⟨3, 10⟩ (l₁ ++ seg :: l₂).length
        (fun s => CallEvent.translateCall s.id 0) (translateUpd cfg 0)
        { s1e with rmap := (submitLoop (stage1Dec cfg) s1e.rmap (l₁ ++ seg :: l₂)).1 } 0
        (submitLoop (stage1Dec cfg) s1e.rmap (l₁ ++ seg :: l₂)).2).calls = _
    rw [collectLoop_calls cfg _ _ _ _ _ (translateUpd_calls cfg 0)]
    show s1e.calls ++ _ = _
    rw [he1l]
    exact List.nil_append _
  have hcount0 : stA.calls.count (CallEvent.translateCall seg.id 1) = 0 := by
    rw [hstAcalls]
    refine List.count_eq_zero.mpr ?_
    intro hmem
    rcases List.mem_map.mp hmem with ⟨s2, _, he2⟩
    injection he2 with h1 h2
    exact absurd h2 (by decide)
  -- the repair collection log: one event for the failed segment
  have hstRcalls : st1r.calls = stA.calls ++
      List.map (fun s => CallEvent.translateCall s.id 1) (failedSegments cfg stA) := by
    rw [← hstR]
    show (collectLoop cfg ⟨3, 10⟩ ⟨7, 20⟩ (failedSegments cfg stA).length
        (fun s => CallEvent.translateCall s.id 1) (translateUpd cfg 1) stE 0
        (failedSegments cfg stA)).calls = _
    rw [collectLoop_calls cfg _ _ _ _ _ (translateUpd_calls cfg 1), heEl]
  have hmapz : ∀ L : List TranslationSegment, (∀ s2 ∈ L, s2.id ≠ seg.id) →
      (L.map (fun s => CallEvent.translateCall s.id 1)).count
        (CallEvent.translateCall seg.id 1) = 0 := by
    intro L hL
    refine List.count_eq_zero.mpr ?_
    intro hmem
    rcases List.mem_map.mp hmem with ⟨s2, hs2, he2⟩
    injection he2 with h1 h2
    exact hL s2 hs2 h1
  have hcountR : st1r.calls.count (CallEvent.translateCall seg.id 1) = 1 := by
    rw [hstRcalls, List.count_append, hcount0, hfsplit, List.map_append, List.map_cons,
      List.count_append, List.count_cons, hmapz _ hF1ne, hmapz _ hF2ne]
    simp
  -- the later stages add no translate events
  obtain ⟨he2r, _, _, he2l, _⟩ := emitStart_ok _ _ _ _ _ _ h1e
  have hcnt2 : st2.calls.count (CallEvent.translateCall seg.id 1) = 1 := by
    rw [← hst2]
    show (collectLoop cfg ⟨7, 20⟩ ⟨11, 20⟩ cfg.segments.length
        (fun s => CallEvent.evaluateCall s.id) (eval1Upd cfg)
        { st1e with rmap := (submitLoop (stage2Dec cfg) st1e.rmap (l₁ ++ seg :: l₂)).1 } 0
        (submitLoop (stage2Dec cfg) st1e.rmap (l₁ ++ seg :: l₂)).2).calls.count _ = 1
    rw [count_calls_collect cfg _ _ _ _ _ (eval1Upd_calls cfg) _
      (fun s2 hx => CallEvent.noConfusion hx)]
    show st1e.calls.count _ = 1
    rw [he2l]
    exact hcountR
  obtain ⟨he3r, _, _, he3l, _⟩ := emitStart_ok _ _ _ _ _ _ h2e
  have hcnt3 : st3.calls.count (CallEvent.translateCall seg.id 1) = 1 := by
    rw [← hst3]
    show (collectLoop cfg ⟨11, 20⟩ ⟨3, 4⟩ cfg.segments.length
        (fun s => CallEvent.optimizeCall s.id) (optimizeUpd cfg)
        { st2e with rmap := p3.1 } 0 p3.2).calls.count _ = 1
    rw [count_calls_collect cfg _ _ _ _ _ (optimizeUpd_calls cfg) _
      (fun s2 hx => CallEvent.noConfusion hx)]
    show st2e.calls.count _ = 1
    rw [he3l]
    exact hcnt2
  obtain ⟨he4r, _, _, he4l, _⟩ := emitStart_ok _ _ _ _ _ _ h3e
  have hcnt4 : st4.calls.count (CallEvent.translateCall seg.id 1) = 1 := by
    rw [← hst4]
    show (collectLoop cfg ⟨3, 4⟩ ⟨19, 20⟩ cfg.segments.length
        (fun s => CallEvent.comparativeCall s.id) (comparativeUpd cfg)
        { st3e with rmap := (submitLoop (stage4Dec cfg) st3e.rmap (l₁ ++ seg :: l₂)).1 } 0
        (submitLoop (stage4Dec cfg) st3e.rmap (l₁ ++ seg :: l₂)).2).calls.count _ = 1
    rw [count_calls_collect cfg _ _ _ _ _ (comparativeUpd_calls cfg) _
      (fun s2 hx => CallEvent.noConfusion hx)]
    show st3e.calls.count _ = 1
    rw [he4l]
    exact hcnt3
  obtain ⟨_, _, _, he5l, _⟩ := emitStart_ok _ _ _ _ _ _ h5
  have hcntout : out.2.calls.count (CallEvent.translateCall seg.id 1) = 1 := by
    rw [← hout]
    show st5.calls.count _ = 1
    rw [he5l]
    exact hcnt4
  -- the repaired translation overwrites the record
  have hrepR : (st1r.rmap seg.id).translation_a = t := by
    rw [← hstR]
    show ((collectLoop cfg ⟨3, 10⟩ ⟨7, 20⟩ (failedSegments cfg stA).length
        (fun s => CallEvent.translateCall s.id 1) (translateUpd cfg 1) stE 0
        (failedSegments cfg stA)).rmap seg.id).translation_a = t
    rw [hfsplit, collectLoop_append, collectLoop_cons_eq,
      collectLoop_rmap_notin cfg ⟨3, 10⟩ ⟨7, 20⟩ _ _ _ seg.id
        (fun st s2 hne => translateUpd_rmap_ne cfg 1 st s2 seg.id hne) _ hF2ne _ _,
      translateUpd_rmap_eq cfg 1 _ seg t htask]
  -- the cache is snapshotted a second time
  have hsavedR : st1r.saved = stA.saved ++ [st1r.cache] := by
    rw [← hstR]
    show (collectLoop cfg ⟨3, 10⟩ ⟨7, 20⟩ (failedSegments cfg stA).length
        (fun s => CallEvent.translateCall s.id 1) (translateUpd cfg 1) stE 0
        (failedSegments cfg stA)).saved ++
      [(collectLoop cfg ⟨3, 10⟩ ⟨7, 20⟩ (failedSegments cfg stA).length
        (fun s => CallEvent.translateCall s.id 1) (translateUpd cfg 1) stE 0
        (failedSegments cfg stA)).cache] = _
    rw [collectLoop_saved cfg _ _ _ _ _ (translateUpd_saved cfg 1), heEs2]
    rfl
  -- a differing repair is readable from the cache
  have hcacheR : pyStrip t ≠ pyStrip seg.original_text →
      getCache st1r.cache (cache_key cfg seg) = some t := by
    intro hdiff
    rw [← hstR]
    show getCache (collectLoop cfg ⟨3, 10⟩ ⟨7, 20⟩ (failedSegments cfg stA).length
        (fun s => CallEvent.translateCall s.id 1) (translateUpd cfg 1) stE 0
        (failedSegments cfg stA)).cache (cache_key cfg seg) = some t
    rw [hfsplit, collectLoop_append, collectLoop_cons_eq]
    refine collectLoop_cache_inv cfg ⟨3, 10⟩ ⟨7, 20⟩ _ _ _
      (fun c => getCache c (cache_key cfg seg) = some t) _
      (fun st s2 hs2 hP => translateUpd_cache_inv cfg 1 st s2 (cache_key cfg seg) t
        (hF2key s2 hs2) hP) _ _ ?_
    show getCache (translateUpd cfg 1 _ seg).cache (cache_key cfg seg) = some t
    rw [translateUpd_cache_eq cfg 1 _ seg t htask hdiff]
    exact getCache_setCache_eq _ _ _
  exact ⟨hcntout, st1r, h1r, hrepR, hsavedR, hcacheR⟩

/-- Witness for the repair trigger at `c7Cfg`: the translator echoes
`"Hello"` first and returns `"Bonjour"` on the retry. -/
theorem c7_repair_trigger_witness :
    ((c7Cfg.segments.map TranslationSegment.id).Nodup ∧
      (c7Cfg.segments.map TranslationSegment.original_text).Nodup ∧
      c7Cfg.segments = [] ++ c7Seg :: [] ∧
      afterStage1 c7Cfg = .ok c7St1 ∧
      (c7St1.rmap c7Seg.id).selected_model ≠ "Skipped (Simple)" ∧
      pyStrip (c7St1.rmap c7Seg.id).translation_a = pyStrip c7Seg.original_text ∧
      translate_task c7Cfg c7Seg 1 = some "Bonjour" ∧
      run c7Cfg = .ok c7Out) ∧
    ((c7Out.2.calls.count (CallEvent.translateCall c7Seg.id 1)) = 1 ∧
      ∃ stR, afterRepair c7Cfg = .ok stR ∧
        (stR.rmap c7Seg.id).translation_a = "Bonjour" ∧
        stR.saved = c7St1.saved ++ [stR.cache] ∧
        (pyStrip "Bonjour" ≠ pyStrip c7Seg.original_text →
          getCache stR.cache (cache_key c7Cfg c7Seg) = some "Bonjour")) :=
  ⟨⟨by decide, by decide, rfl, rfl, by decide, by decide, rfl, rfl⟩,
    c7_repair_trigger c7Cfg [] [] c7Seg c7St1 "Bonjour" c7Out
      (by decide) (by decide) rfl rfl (by decide) (by decide) rfl rfl⟩

/-! ### Progress-block lemmas for the reporting claim -/

theorem tickVal_toRat (lo hi : PFrac) (c t : Nat)
    (hb : lo.den ≠ 0) (hd : hi.den ≠ 0) (ht : t ≠ 0) :
    (tickVal lo hi c t).toRat =
      lo.toRat + ((c : ℚ) / (t : ℚ)) * (hi.toRat - lo.toRat) := by
  have hb2 : (lo.den : ℚ) ≠ 0 := Int.cast_ne_zero.mpr hb
  have hd2 : (hi.den : ℚ) ≠ 0 := Int.cast_ne_zero.mpr hd
  have ht2 : ((t : ℚ)) ≠ 0 := Nat.cast_ne_zero.mpr ht
  unfold tickVal PFrac.add PFrac.sub PFrac.mul PFrac.toRat
  push_cast
  rw [div_eq_iff (mul_ne_zero hb2 (mul_ne_zero ht2 (mul_ne_zero hd2 hb2)))]
  field_simp
  ring_nf
  exact Or.inl (Or.inl trivial)

theorem tick0_toRat (lo hi : PFrac) (t : Nat)
    (hb : lo.den ≠ 0) (hd : hi.den ≠ 0) (ht : t ≠ 0) :
    (tickVal lo hi 0 t).toRat = lo.toRat := by
  rw [tickVal_toRat lo hi 0 t hb hd ht]
  simp

theorem ticksFrom_cb (cfg : WorkflowCfg) (lo hi : PFrac) (total start cnt : Nat)
    (hcb : cfg.hasCallback = true) :
    ticksFrom cfg lo hi total start cnt =
      (List.range cnt).map (fun i => tickVal lo hi (start + 1 + i) total) := by
  unfold ticksFrom
  simp [hcb]

theorem emitStart_progress_cb (cfg : WorkflowCfg) (st : WState) (lo hi : PFrac)
    (total : Nat) (st2 : WState) (h : emitStart cfg st lo hi total = .ok st2)
    (hcb : cfg.hasCallback = true) :
    st2.progress = st.progress ++ [tickVal lo hi 0 total] := by
  obtain ⟨_, _, _, _, hp⟩ := emitStart_ok _ _ _ _ _ _ h
  rw [hp]
  simp [hcb]

theorem submitLoop_sub_length
    (dec : (String → WorkflowResult) → TranslationSegment →
      Option (WorkflowResult → WorkflowResult)) :
    ∀ (L : List TranslationSegment) (m : String → WorkflowResult),
      (submitLoop dec m L).2.length ≤ L.length := by
  intro L
  induction L with
  | nil => intro m; simp [submitLoop]
  | cons a rest ih =>
    intro m
    simp only [submitLoop, List.length_cons]
    cases hd : dec m a with
    | some f => exact Nat.le_succ_of_le (ih (updAt m a.id f))
    | none =>
      show ((submitLoop dec m rest).2.length + 1) ≤ rest.length + 1
      exact Nat.succ_le_succ (ih m)

theorem stage3Submit_ok_length (cfg : WorkflowCfg) :
    ∀ (L : List TranslationSegment) (m : String → WorkflowResult)
      (p : (String → WorkflowResult) × List TranslationSegment),
      stage3Submit cfg m L = .ok p → p.2.length ≤ L.length := by
  intro L
  induction L with
  | nil =>
    intro m p h
    injection h with h
    rw [← h]
  | cons a rest ih =>
    intro m p h
    simp only [stage3Submit] at h
    split at h
    · exact Nat.le_succ_of_le (ih _ p h)
    · split at h
      · exact Nat.le_succ_of_le (ih _ p h)
      · split at h
        · exact Except.noConfusion h
        · split at h
          next q hq =>
            injection h with h
            rw [← h]
            show q.2.length + 1 ≤ rest.length + 1
            exact Nat.succ_le_succ (ih m q hq)
          next e2 hq => exact Except.noConfusion h

theorem monoBlock_nil (a b : ℚ) : monoBlock a b [] := by
  constructor
  · exact List.chain'_nil
  · intro x hx
    simp at hx

theorem monoBlock_single (a b x : ℚ) (h1 : a ≤ x) (h2 : x ≤ b) : monoBlock a b [x] := by
  constructor
  · exact List.chain'_singleton x
  · intro y hy
    rw [List.mem_singleton] at hy
    rw [hy]
    exact ⟨h1, h2⟩

theorem monoBlock_append (a b c d : ℚ) (B1 B2 : List ℚ)
    (h1 : monoBlock a b B1) (h2 : monoBlock c d B2)
    (hab : a ≤ b) (hbc : b ≤ c) (hcd : c ≤ d) :
    monoBlock a d (B1 ++ B2) := by
  constructor
  · rw [List.chain'_append]
    refine ⟨h1.1, h2.1, ?_⟩
    intro x hx y hy
    have hx2 := (h1.2 x (List.mem_of_mem_getLast? hx)).2
    have hy2 := (h2.2 y (List.mem_of_mem_head? hy)).1
    calc x ≤ b := hx2
      _ ≤ c := hbc
      _ ≤ y := hy2
  · intro x hx
    rcases List.mem_append.mp hx with h | h
    · obtain ⟨hx1, hx2⟩ := h1.2 x h
      exact ⟨hx1, le_trans hx2 (le_trans hbc hcd)⟩
    · obtain ⟨hx1, hx2⟩ := h2.2 x h
      exact ⟨le_trans hab (le_trans hbc hx1), hx2⟩

theorem stage_block_eq (lo hi : PFrac) (t cnt : Nat) :
    [tickVal lo hi 0 t] ++ (List.range cnt).map (fun i => tickVal lo hi (0 + 1 + i) t) =
      (List.range (cnt + 1)).map (fun i => tickVal lo hi i t) := by
  rw [List.range_succ_eq_map, List.map_cons, List.map_map]
  simp only [List.singleton_append]
  congr 1
  apply List.map_congr_left
  intro i _
  show tickVal lo hi (0 + 1 + i) t = tickVal lo hi (Nat.succ i) t
  have h9 : 0 + 1 + i = Nat.succ i := by omega
  rw [h9]

theorem stageBlock_facts (lo hi : PFrac) (t cnt : Nat)
    (hb : lo.den ≠ 0) (hd : hi.den ≠ 0) (ht : t ≠ 0) (hle : lo.toRat ≤ hi.toRat)
    (hcnt : cnt ≤ t) :
    monoBlock lo.toRat hi.toRat
      (((List.range (cnt + 1)).map (fun i => tickVal lo hi i t)).map PFrac.toRat) ∧
    (∀ x ∈ ((List.range (cnt + 1)).map (fun i => tickVal lo hi i t)).map PFrac.toRat,
      ∃ c : Nat, c ≤ t ∧
        x = lo.toRat + ((c : ℚ) / (t : ℚ)) * (hi.toRat - lo.toRat)) ∧
    lo.toRat ∈ ((List.range (cnt + 1)).map (fun i => tickVal lo hi i t)).map PFrac.toRat := by
  have hpos : (0 : ℚ) < (t : ℚ) := by
    have h9 := Nat.pos_of_ne_zero ht
    exact_mod_cast h9
  have hdiff : (0 : ℚ) ≤ hi.toRat - lo.toRat := by linarith
  have hval : ∀ i : Nat, i ≤ t →
      lo.toRat ≤ (tickVal lo hi i t).toRat ∧ (tickVal lo hi i t).toRat ≤ hi.toRat := by
    intro i hi2
    rw [tickVal_toRat lo hi i t hb hd ht]
    constructor
    · have h9 : (0 : ℚ) ≤ ((i : ℚ) / (t : ℚ)) * (hi.toRat - lo.toRat) :=
        mul_nonneg (by positivity) hdiff
      linarith
    · have h8 : ((i : ℚ) / (t : ℚ)) ≤ 1 := by
        rw [div_le_one hpos]
        exact_mod_cast hi2
      have h9 : ((i : ℚ) / (t : ℚ)) * (hi.toRat - lo.toRat) ≤ hi.toRat - lo.toRat :=
        mul_le_of_le_one_left hdiff h8
      linarith
  refine ⟨⟨?_, ?_⟩, ?_, ?_⟩
  · rw [List.map_map]
    apply List.Pairwise.chain'
    rw [List.pairwise_map]
    refine (List.pairwise_lt_range (cnt + 1)).imp ?_
    intro i j hij
    show (tickVal lo hi i t).toRat ≤ (tickVal lo hi j t).toRat
    rw [tickVal_toRat lo hi i t hb hd ht, tickVal_toRat lo hi j t hb hd ht]
    have h9 : ((i : ℚ) / (t : ℚ)) ≤ ((j : ℚ) / (t : ℚ)) := by
      have h8 : (i : ℚ) ≤ (j : ℚ) := by exact_mod_cast Nat.le_of_lt hij
      gcongr
    gcongr
  · intro x hx
    rw [List.map_map] at hx
    rcases List.mem_map.mp hx with ⟨i, hi2, he⟩
    rw [List.mem_range] at hi2
    rw [← he]
    exact hval i (by omega)
  · intro x hx
    rw [List.map_map] at hx
    rcases List.mem_map.mp hx with ⟨i, hi2, he⟩
    rw [List.mem_range] at hi2
    refine ⟨i, by omega, ?_⟩
    rw [← he]
    exact tickVal_toRat lo hi i t hb hd ht
  · rw [List.map_map]
    refine List.mem_map.mpr ⟨0, List.mem_range.mpr (by omega), ?_⟩
    show (tickVal lo hi 0 t).toRat = lo.toRat
    exact tick0_toRat lo hi t hb hd ht

theorem progress_lift (st st2 : WState) (X : List PFrac)
    (h : st2.progress = st.progress ++ X) (q : ℚ) (hq : q ∈ progressRats st) :
    q ∈ progressRats st2 := by
  unfold progressRats at hq ⊢
  rw [h, List.map_append]
  exact List.mem_append_left _ hq

theorem progress_mem_block (st st2 : WState) (X : List PFrac)
    (h : st2.progress = st.progress ++ X) (q : ℚ) (hq : q ∈ X.map PFrac.toRat) :
    q ∈ progressRats st2 := by
  unfold progressRats
  rw [h, List.map_append]
  exact List.mem_append_right _ hq

theorem progress_mono_extend (st st2 : WState) (X : List PFrac)
    (h : st2.progress = st.progress ++ X) (a b c : ℚ)
    (hm : monoBlock a b (progressRats st)) (hx : monoBlock b c (X.map PFrac.toRat))
    (hab : a ≤ b) (hbc : b ≤ c) :
    monoBlock a c (progressRats st2) := by
  unfold progressRats at hm ⊢
  rw [h, List.map_append]
  exact monoBlock_append a b b c _ _ hm hx hab (le_refl b) hbc

theorem progress_all_extend (st st2 : WState) (X : List PFrac) (P : ℚ → Prop)
    (h : st2.progress = st.progress ++ X)
    (h1 : ∀ x ∈ progressRats st, P x) (h2 : ∀ x ∈ X.map PFrac.toRat, P x) :
    ∀ x ∈ progressRats st2, P x := by
  unfold progressRats at h1 ⊢
  rw [h, List.map_append]
  intro x hx
  rcases List.mem_append.mp hx with h3 | h3
  · exact h1 x h3
  · exact h2 x h3

/-- C9: with a progress callback attached, a successful run reports a
monotonically non-decreasing sequence of fractions, all within
[0, 19/20] — the Select stage reports 19/20 = 0.95 and the value 1.0 is
never reported — hitting the stage-start milestones 0, 0.35, 0.55, 0.75
and 0.95, and every reported fraction is the linear interpolation of one
of the six stage windows by a completed-task count over the task total
that stage actually passes to the callback closure: the failed count for
the Repair sub-stage, 1 for the single Select-stage report, and the
segment count for the four main stages. -/
theorem c9_progress_reporting
    (cfg : WorkflowCfg) (out : List WorkflowResult × WState)
    (hcb : cfg.hasCallback = true) (hrun : run cfg = .ok out) :
    List.Chain' (· ≤ ·) (progressRats out.2) ∧
    (∀ q ∈ progressRats out.2, 0 ≤ q ∧ q ≤ 19/20) ∧
    ((0 : ℚ) ∈ progressRats out.2 ∧ (7/20 : ℚ) ∈ progressRats out.2 ∧
      (11/20 : ℚ) ∈ progressRats out.2 ∧ (3/4 : ℚ) ∈ progressRats out.2 ∧
      (19/20 : ℚ) ∈ progressRats out.2) ∧
    (∃ stA, afterStage1 cfg = .ok stA ∧
      ∀ q ∈ progressRats out.2, ∃ w ∈ stageWindows, ∃ c t : Nat,
        interpEq w c t q ∧
        stageTotalPins cfg (failedSegments cfg stA).length w c t) := by
  unfold run at hrun
  obtain ⟨st4, h4, hrun⟩ := exceptBind_ok _ _ _ hrun
  obtain ⟨st5, h5, hrun⟩ := exceptBind_ok _ _ _ hrun
  have hout := exceptPure_ok _ _ hrun
  unfold afterStage4 at h4
  obtain ⟨st3, h3, h4⟩ := exceptBind_ok _ _ _ h4
  obtain ⟨st3e, h3e, h4⟩ := exceptBind_ok _ _ _ h4
  have hst4 := exceptPure_ok _ _ h4
  unfold afterStage3 at h3
  obtain ⟨st2, h2, h3⟩ := exceptBind_ok _ _ _ h3
  obtain ⟨st2e, h2e, h3⟩ := exceptBind_ok _ _ _ h3
  obtain ⟨p3, hp3, h3⟩ := exceptBind_ok _ _ _ h3
  have hst3 := exceptPure_ok _ _ h3
  unfold afterStage2 at h2
  obtain ⟨st1r, h1r, h2⟩ := exceptBind_ok _ _ _ h2
  obtain ⟨st1e, h1e, h2⟩ := exceptBind_ok _ _ _ h2
  have hst2 := exceptPure_ok _ _ h2
  unfold afterRepair at h1r
  obtain ⟨stA, hA, h1r⟩ := exceptBind_ok _ _ _ h1r
  have hA0 := hA
  unfold afterStage1 at hA
  obtain ⟨s1e, hs1e, hA⟩ := exceptBind_ok _ _ _ hA
  have hstAeq := exceptPure_ok _ _ hA
  have hn0 : cfg.segments.length ≠ 0 := emitStart_ok_total _ _ _ _ _ _ hs1e hcb
  have hl1 : PFrac.toRat ⟨0, 1⟩ = 0 := by norm_num [PFrac.toRat]
  have hl2 : PFrac.toRat ⟨3, 10⟩ = 3/10 := by norm_num [PFrac.toRat]
  have hl3 : PFrac.toRat ⟨7, 20⟩ = 7/20 := by norm_num [PFrac.toRat]
  have hl4 : PFrac.toRat ⟨11, 20⟩ = 11/20 := by norm_num [PFrac.toRat]
  have hl5 : PFrac.toRat ⟨3, 4⟩ = 3/4 := by norm_num [PFrac.toRat]
  have hl6 : PFrac.toRat ⟨19, 20⟩ = 19/20 := by norm_num [PFrac.toRat]
  -- Translate stage: start tick then one tick per submitted segment
  have hs1p : s1e.progress = [tickVal ⟨0, 1⟩ ⟨3, 10⟩ 0 cfg.segments.length] := by
    have h9 := emitStart_progress_cb _ _ _ _ _ _ hs1e hcb
    rw [h9]
    rfl
  have hstAp : stA.progress = s1e.progress ++
      (List.range ((submitLoop (stage1Dec cfg) s1e.rmap cfg.segments).2.length)).map
        (fun i => tickVal ⟨0, 1⟩ ⟨3, 10⟩ (0 + 1 + i) cfg.segments.length) := by
    rw [← hstAeq]
    show (collectLoop cfg ⟨0, 1⟩ ⟨3, 10⟩ cfg.segments.length
        (fun s => CallEvent.translateCall s.id 0) (translateUpd cfg 0)
        { s1e with rmap := (submitLoop (stage1Dec cfg) s1e.rmap cfg.segments).1 } 0
        (submitLoop (stage1Dec cfg) s1e.rmap cfg.segments).2).progress = _
    rw [collectLoop_progress cfg _ _ _ _ _ (translateUpd_progress cfg 0),
      ticksFrom_cb cfg _ _ _ _ _ hcb]
  have hstAfull : stA.progress =
      (List.range ((submitLoop (stage1Dec cfg) s1e.rmap cfg.segments).2.length + 1)).map
        (fun i => tickVal ⟨0, 1⟩ ⟨3, 10⟩ i cfg.segments.length) := by
    rw [hstAp, hs1p, stage_block_eq]
  have hbl1 := stageBlock_facts ⟨0, 1⟩ ⟨3, 10⟩ cfg.segments.length
    ((submitLoop (stage1Dec cfg) s1e.rmap cfg.segments).2.length)
    (by decide) (by decide) hn0 (by rw [hl1, hl2]; norm_num)
    (submitLoop_sub_length (stage1Dec cfg) cfg.segments s1e.rmap)
  have hmonA : monoBlock 0 (3/10) (progressRats stA) := by
    unfold progressRats
    rw [hstAfull]
    have h9 := hbl1.1
    rw [hl1, hl2] at h9
    exact h9
  have hintA : ∀ q ∈ progressRats stA, ∃ w ∈ stageWindows, ∃ c t : Nat,
      interpEq w c t q ∧
      stageTotalPins cfg (failedSegments cfg stA).length w c t := by
    intro q hq
    unfold progressRats at hq
    rw [hstAfull] at hq
    obtain ⟨c, hc, he⟩ := hbl1.2.1 q hq
    rw [hl1, hl2] at he
    refine ⟨(0, 3/10), by simp [stageWindows], c, cfg.segments.length,
      ⟨hc, hn0, he⟩, ?_, ?_, fun _ _ => rfl⟩
    · intro h
      rw [Prod.mk.injEq] at h
      norm_num at h
    · intro h
      rw [Prod.mk.injEq] at h
      norm_num at h
  have hmemA0 : (0 : ℚ) ∈ progressRats stA := by
    unfold progressRats
    rw [hstAfull]
    have h9 := hbl1.2.2
    rw [hl1] at h9
    exact h9
  -- Repair sub-stage: either absent, or a 0.3 → 0.35 block over the failed count
  have hrep : ∃ RB : List PFrac, st1r.progress = stA.progress ++ RB ∧
      monoBlock (3/10) (7/20) (RB.map PFrac.toRat) ∧
      (∀ q ∈ RB.map PFrac.toRat, ∃ w ∈ stageWindows, ∃ c t : Nat,
        interpEq w c t q ∧
        stageTotalPins cfg (failedSegments cfg stA).length w c t) := by
    by_cases hfe : (failedSegments cfg stA).isEmpty = true
    · rw [if_pos hfe] at h1r
      have h9 := exceptPure_ok _ _ h1r
      refine ⟨[], by rw [← h9]; simp, monoBlock_nil _ _, ?_⟩
      intro q hq
      simp at hq
    · rw [if_neg hfe] at h1r
      obtain ⟨stE, hEs, h1r⟩ := exceptBind_ok _ _ _ h1r
      have hstR := exceptPure_ok _ _ h1r
      have hf0 : (failedSegments cfg stA).length ≠ 0 := by
        intro h9
        rw [List.length_eq_zero] at h9
        rw [h9] at hfe
        simp at hfe
      have hEp := emitStart_progress_cb _ _ _ _ _ _ hEs hcb
      have hRp : st1r.progress = stA.progress ++
          ([tickVal ⟨3, 10⟩ ⟨7, 20⟩ 0 (failedSegments cfg stA).length] ++
            (List.range (failedSegments cfg stA).length).map
              (fun i => tickVal ⟨3, 10⟩ ⟨7, 20⟩ (0 + 1 + i)
                (failedSegments cfg stA).length)) := by
        rw [← hstR]
        show (collectLoop cfg ⟨3, 10⟩ ⟨7, 20⟩ (failedSegments cfg stA).length
            (fun s => CallEvent.translateCall s.id 1) (translateUpd cfg 1) stE 0
            (failedSegments cfg stA)).progress = _
        rw [collectLoop_progress cfg _ _ _ _ _ (translateUpd_progress cfg 1),
          ticksFrom_cb cfg _ _ _ _ _ hcb, hEp, List.append_assoc]
      have hblR := stageBlock_facts ⟨3, 10⟩ ⟨7, 20⟩ (failedSegments cfg stA).length
        (failedSegments cfg stA).length (by decide) (by decide) hf0
        (by rw [hl2, hl3]; norm_num) (le_refl _)
      refine ⟨_, hRp, ?_, ?_⟩
      · rw [stage_block_eq]
        have h9 := hblR.1
        rw [hl2, hl3] at h9
        exact h9
      · rw [stage_block_eq]
        intro q hq
        obtain ⟨c, hc, he⟩ := hblR.2.1 q hq
        rw [hl2, hl3] at he
        refine ⟨(3/10, 7/20), by simp [stageWindows], c,
          (failedSegments cfg stA).length,
          ⟨hc, hf0, he⟩, fun _ => rfl, ?_, fun h _ => absurd rfl h⟩
        intro h
        rw [Prod.mk.injEq] at h
        norm_num at h
  obtain ⟨RB, hRp, hRmono, hRint⟩ := hrep
  have hmonR : monoBlock 0 (7/20) (progressRats st1r) :=
    progress_mono_extend stA st1r RB hRp 0 (3/10) (7/20) hmonA hRmono
      (by norm_num) (by norm_num)
  have hintR : ∀ q ∈ progressRats st1r, ∃ w ∈ stageWindows, ∃ c t : Nat,
      interpEq w c t q ∧
      stageTotalPins cfg (failedSegments cfg stA).length w c t :=
    progress_all_extend stA st1r RB _ hRp hintA hRint
  have hmemR0 : (0 : ℚ) ∈ progressRats st1r := progress_lift stA st1r RB hRp 0 hmemA0
  -- Evaluation stage
  have h2p := emitStart_progress_cb _ _ _ _ _ _ h1e hcb
  have hst2p : st2.progress = st1r.progress ++
      ([tickVal ⟨7, 20⟩ ⟨11, 20⟩ 0 cfg.segments.length] ++
        (List.range ((submitLoop (stage2Dec cfg) st1e.rmap cfg.segments).2.length)).map
          (fun i => tickVal ⟨7, 20⟩ ⟨11, 20⟩ (0 + 1 + i) cfg.segments.length)) := by
    rw [← hst2]
    show (collectLoop cfg ⟨7, 20⟩ ⟨11, 20⟩ cfg.segments.length
        (fun s => CallEvent.evaluateCall s.id) (eval1Upd cfg)
        { st1e with rmap := (submitLoop (stage2Dec cfg) st1e.rmap cfg.segments).1 } 0
        (submitLoop (stage2Dec cfg) st1e.rmap cfg.segments).2).progress = _
    rw [collectLoop_progress cfg _ _ _ _ _ (eval1Upd_progress cfg),
      ticksFrom_cb cfg _ _ _ _ _ hcb]
    show st1e.progress ++ _ = _
    rw [h2p, List.append_assoc]
  have hbl2 := stageBlock_facts ⟨7, 20⟩ ⟨11, 20⟩ cfg.segments.length
    ((submitLoop (stage2Dec cfg) st1e.rmap cfg.segments).2.length)
    (by decide) (by decide) hn0 (by rw [hl3, hl4]; norm_num)
    (submitLoop_sub_length (stage2Dec cfg) cfg.segments st1e.rmap)
  have hmon2 : monoBlock 0 (11/20) (progressRats st2) := by
    refine progress_mono_extend st1r st2 _ hst2p 0 (7/20) (11/20) hmonR ?_
      (by norm_num) (by norm_num)
    rw [stage_block_eq]
    have h9 := hbl2.1
    rw [hl3, hl4] at h9
    exact h9
  have hint2 : ∀ q ∈ progressRats st2, ∃ w ∈ stageWindows, ∃ c t : Nat,
      interpEq w c t q ∧
      stageTotalPins cfg (failedSegments cfg stA).length w c t := by
    refine progress_all_extend st1r st2 _ _ hst2p hintR ?_
    rw [stage_block_eq]
    intro q hq
    obtain ⟨c, hc, he⟩ := hbl2.2.1 q hq
    rw [hl3, hl4] at he
    refine ⟨(7/20, 11/20), by simp [stageWindows], c, cfg.segments.length,
      ⟨hc, hn0, he⟩, ?_, ?_, fun _ _ => rfl⟩
    · intro h
      rw [Prod.mk.injEq] at h
      norm_num at h
    · intro h
      rw [Prod.mk.injEq] at h
      norm_num at h
  have hmem20 : (0 : ℚ) ∈ progressRats st2 := progress_lift st1r st2 _ hst2p 0 hmemR0
  have hmem27 : (7/20 : ℚ) ∈ progressRats st2 := by
    refine progress_mem_block st1r st2 _ hst2p (7/20) ?_
    rw [stage_block_eq]
    have h9 := hbl2.2.2
    rw [hl3] at h9
    exact h9
  -- Optimization stage
  have h3p := emitStart_progress_cb _ _ _ _ _ _ h2e hcb
  have hst3p : st3.progress = st2.progress ++
      ([tickVal ⟨11, 20⟩ ⟨3, 4⟩ 0 cfg.segments.length] ++
        (List.range p3.2.length).map
          (fun i => tickVal ⟨11, 20⟩ ⟨3, 4⟩ (0 + 1 + i) cfg.segments.length)) := by
    rw [← hst3]
    show (collectLoop cfg ⟨11, 20⟩ ⟨3, 4⟩ cfg.segments.length
        (fun s => CallEvent.optimizeCall s.id) (optimizeUpd cfg)
        { st2e with rmap := p3.1 } 0 p3.2).progress = _
    rw [collectLoop_progress cfg _ _ _ _ _ (optimizeUpd_progress cfg),
      ticksFrom_cb cfg _ _ _ _ _ hcb]
    show st2e.progress ++ _ = _
    rw [h3p, List.append_assoc]
  have hbl3 := stageBlock_facts ⟨11, 20⟩ ⟨3, 4⟩ cfg.segments.length p3.2.length
    (by decide) (by decide) hn0 (by rw [hl4, hl5]; norm_num)
    (stage3Submit_ok_length cfg cfg.segments st2e.rmap p3 hp3)
  have hmon3 : monoBlock 0 (3/4) (progressRats st3) := by
    refine progress_mono_extend st2 st3 _ hst3p 0 (11/20) (3/4) hmon2 ?_
      (by norm_num) (by norm_num)
    rw [stage_block_eq]
    have h9 := hbl3.1
    rw [hl4, hl5] at h9
    exact h9
  have hint3 : ∀ q ∈ progressRats st3, ∃ w ∈ stageWindows, ∃ c t : Nat,
      interpEq w c t q ∧
      stageTotalPins cfg (failedSegments cfg stA).length w c t := by
    refine progress_all_extend st2 st3 _ _ hst3p hint2 ?_
    rw [stage_block_eq]
    intro q hq
    obtain ⟨c, hc, he⟩ := hbl3.2.1 q hq
    rw [hl4, hl5] at he
    refine ⟨(11/20, 3/4), by simp [stageWindows], c, cfg.segments.length,
      ⟨hc, hn0, he⟩, ?_, ?_, fun _ _ => rfl⟩
    · intro h
      rw [Prod.mk.injEq] at h
      norm_num at h
    · intro h
      rw [Prod.mk.injEq] at h
      norm_num at h
  have hmem30 : (0 : ℚ) ∈ progressRats st3 := progress_lift st2 st3 _ hst3p 0 hmem20
  have hmem37 : (7/20 : ℚ) ∈ progressRats st3 := progress_lift st2 st3 _ hst3p (7/20) hmem27
  have hmem311 : (11/20 : ℚ) ∈ progressRats st3 := by
    refine progress_mem_block st2 st3 _ hst3p (11/20) ?_
    rw [stage_block_eq]
    have h9 := hbl3.2.2
    rw [hl4] at h9
    exact h9
  -- Comparative-Evaluation stage
  have h4p := emitStart_progress_cb _ _ _ _ _ _ h3e hcb
  have hst4p : st4.progress = st3.progress ++
      ([tickVal ⟨3, 4⟩ ⟨19, 20⟩ 0 cfg.segments.length] ++
        (List.range ((submitLoop (stage4Dec cfg) st3e.rmap cfg.segments).2.length)).map
          (fun i => tickVal ⟨3, 4⟩ ⟨19, 20⟩ (0 + 1 + i) cfg.segments.length)) := by
    rw [← hst4]
    show (collectLoop cfg ⟨3, 4⟩ ⟨19, 20⟩ cfg.segments.length
        (fun s => CallEvent.comparativeCall s.id) (comparativeUpd cfg)
        { st3e with rmap := (submitLoop (stage4Dec cfg) st3e.rmap cfg.segments).1 } 0
        (submitLoop (stage4Dec cfg) st3e.rmap cfg.segments).2).progress = _
    rw [collectLoop_progress cfg _ _ _ _ _ (comparativeUpd_progress cfg),
      ticksFrom_cb cfg _ _ _ _ _ hcb]
    show st3e.progress ++ _ = _
    rw [h4p, List.append_assoc]
  have hbl4 := stageBlock_facts ⟨3, 4⟩ ⟨19, 20⟩ cfg.segments.length
    ((submitLoop (stage4Dec cfg) st3e.rmap cfg.segments).2.length)
    (by decide) (by decide) hn0 (by rw [hl5, hl6]; norm_num)
    (submitLoop_sub_length (stage4Dec cfg) cfg.segments st3e.rmap)
  have hmon4 : monoBlock 0 (19/20) (progressRats st4) := by
    refine progress_mono_extend st3 st4 _ hst4p 0 (3/4) (19/20) hmon3 ?_
      (by norm_num) (by norm_num)
    rw [stage_block_eq]
    have h9 := hbl4.1
    rw [hl5, hl6] at h9
    exact h9
  have hint4 : ∀ q ∈ progressRats st4, ∃ w ∈ stageWindows, ∃ c t : Nat,
      interpEq w c t q ∧
      stageTotalPins cfg (failedSegments cfg stA).length w c t := by
    refine progress_all_extend st3 st4 _ _ hst4p hint3 ?_
    rw [stage_block_eq]
    intro q hq
    obtain ⟨c, hc, he⟩ := hbl4.2.1 q hq
    rw [hl5, hl6] at he
    refine ⟨(3/4, 19/20), by simp [stageWindows], c, cfg.segments.length,
      ⟨hc, hn0, he⟩, ?_, ?_, fun _ _ => rfl⟩
    · intro h
      rw [Prod.mk.injEq] at h
      norm_num at h
    · intro h
      rw [Prod.mk.injEq] at h
      norm_num at h
  have hmem40 : (0 : ℚ) ∈ progressRats st4 := progress_lift st3 st4 _ hst4p 0 hmem30
  have hmem47 : (7/20 : ℚ) ∈ progressRats st4 := progress_lift st3 st4 _ hst4p (7/20) hmem37
  have hmem411 : (11/20 : ℚ) ∈ progressRats st4 :=
    progress_lift st3 st4 _ hst4p (11/20) hmem311
  have hmem434 : (3/4 : ℚ) ∈ progressRats st4 := by
    refine progress_mem_block st3 st4 _ hst4p (3/4) ?_
    rw [stage_block_eq]
    have h9 := hbl4.2.2
    rw [hl5] at h9
    exact h9
  -- Select stage: a single 0.95 report
  have h5p := emitStart_progress_cb _ _ _ _ _ _ h5 hcb
  have houtp : out.2.progress = st4.progress ++ [tickVal ⟨19, 20⟩ ⟨1, 1⟩ 0 1] := by
    rw [← hout]
    show st5.progress = _
    rw [h5p]
  have h19 : PFrac.toRat (tickVal ⟨19, 20⟩ ⟨1, 1⟩ 0 1) = 19/20 := by
    rw [tick0_toRat _ _ _ (by decide) (by decide) (by decide), hl6]
  have hmonOut : monoBlock 0 (19/20) (progressRats out.2) := by
    refine progress_mono_extend st4 out.2 _ houtp 0 (19/20) (19/20) hmon4 ?_
      (by norm_num) (by norm_num)
    rw [List.map_cons, List.map_nil, h19]
    exact monoBlock_single _ _ _ le_rfl le_rfl
  have hintOut : ∀ q ∈ progressRats out.2, ∃ w ∈ stageWindows, ∃ c t : Nat,
      interpEq w c t q ∧
      stageTotalPins cfg (failedSegments cfg stA).length w c t := by
    refine progress_all_extend st4 out.2 _ _ houtp hint4 ?_
    intro q hq
    rw [List.map_cons, List.map_nil, h19, List.mem_singleton] at hq
    refine ⟨(19/20, 1), by simp [stageWindows], 0, 1,
      ⟨by omega, by omega, by rw [hq]; norm_num⟩, ?_, fun _ => ⟨rfl, rfl⟩,
      fun _ h => absurd rfl h⟩
    intro h
    rw [Prod.mk.injEq] at h
    norm_num at h
  have hm0 : (0 : ℚ) ∈ progressRats out.2 := progress_lift st4 out.2 _ houtp 0 hmem40
  have hm7 : (7/20 : ℚ) ∈ progressRats out.2 :=
    progress_lift st4 out.2 _ houtp (7/20) hmem47
  have hm11 : (11/20 : ℚ) ∈ progressRats out.2 :=
    progress_lift st4 out.2 _ houtp (11/20) hmem411
  have hm34 : (3/4 : ℚ) ∈ progressRats out.2 :=
    progress_lift st4 out.2 _ houtp (3/4) hmem434
  have hm19 : (19/20 : ℚ) ∈ progressRats out.2 := by
    refine progress_mem_block st4 out.2 _ houtp (19/20) ?_
    rw [List.map_cons, List.map_nil, h19]
    exact List.mem_singleton.mpr rfl
  exact ⟨hmonOut.1, fun q hq => hmonOut.2 q hq, ⟨hm0, hm7, hm11, hm34, hm19⟩,
    stA, hA0, hintOut⟩

/-- C9 counterexample: a complete successful single-segment run with the
callback attached never reports the fraction 1.0 — the last report, from
the start of the Select stage, is 0.95. -/
theorem c9_counterexample :
    run c9Cfg = .ok c9Out ∧ (1 : ℚ) ∉ progressRats c9Out.2 := by
  constructor
  · rfl
  · intro hmem
    have hp : c9Out.2.progress =
        [⟨0, 10⟩, ⟨3, 10⟩, ⟨2800, 8000⟩, ⟨4400, 8000⟩, ⟨880, 1600⟩, ⟨1200, 1600⟩,
          ⟨240, 320⟩, ⟨304, 320⟩, ⟨380, 400⟩] := by decide
    unfold progressRats at hmem
    rw [hp] at hmem
    simp only [List.map_cons, List.map_nil, List.mem_cons, List.not_mem_nil,
      or_false] at hmem
    norm_num [PFrac.toRat] at hmem

/-- Witness for the progress reporting at the single-segment run
`c9Cfg`, whose callback sees nine fractions ending at 0.95. -/
theorem c9_progress_reporting_witness :
    (c9Cfg.hasCallback = true ∧ run c9Cfg = .ok c9Out) ∧
    (List.Chain' (· ≤ ·) (progressRats c9Out.2) ∧
      (∀ q ∈ progressRats c9Out.2, 0 ≤ q ∧ q ≤ 19/20) ∧
      ((0 : ℚ) ∈ progressRats c9Out.2 ∧ (7/20 : ℚ) ∈ progressRats c9Out.2 ∧
        (11/20 : ℚ) ∈ progressRats c9Out.2 ∧ (3/4 : ℚ) ∈ progressRats c9Out.2 ∧
        (19/20 : ℚ) ∈ progressRats c9Out.2) ∧
      (∃ stA, afterStage1 c9Cfg = .ok stA ∧
        ∀ q ∈ progressRats c9Out.2, ∃ w ∈ stageWindows, ∃ c t : Nat,
          interpEq w c t q ∧
          stageTotalPins c9Cfg (failedSegments c9Cfg stA).length w c t)) :=
  ⟨⟨rfl, rfl⟩, c9_progress_reporting c9Cfg c9Out rfl rfl⟩

end DocuFluent
